import Mathlib

/-!
MI-X video surface pool and video frame.

A shallow embedding of `mix_video/src/mixsurfacepool.c` and
`mix_video/src/mixvideoframe.c`.

* Objects live in a heap: a frame pointer (`MixVideoFrame *`) or a pool pointer
  (`MixSurfacePool *`) is an address, and `NULL` is `none`.
* A `GSList` of frames is the list of its `data` pointers, in node order.
  Every pool owns its own nodes (the node sharing that `mix_surfacepool_copy`
  creates is outside the model).
* The code is run by one thread.  A frame's recursive mutex never blocks that
  thread.  A pool's `objectlock` is a plain `GMutex`: the one place where the
  thread asks for it a second time (`mix_surfacepool_put` called from
  `mix_videoframe_unref` below `mix_surfacepool_deinitialize`) never returns.
* Functions that may recurse for ever take a `fuel` bound and return `none`
  when it is used up.
* The lock operations of a call, in the order in which the thread performs
  them, are given by a second function (`mix_surfacepool_get_locks` for
  `mix_surfacepool_get`, and so on) that follows the branches of the first.
-/

/-- Address of a `MixVideoFrame`. -/
abbrev FramePtr := Nat

/-- Address of a `MixSurfacePool`. -/
abbrev PoolPtr := Nat

/-- The status codes the two files return. -/
inductive MIX_RESULT where
  | SUCCESS
  | NULL_PTR
  | ALREADY_INIT
  | NOT_INIT
  | NO_MEMORY
  | POOLEMPTY
  | FAIL
deriving DecidableEq, Repr

/-- Constant of libva (`va.h`): the surface id that names no surface. -/
def VA_INVALID_SURFACE : Nat := 0xffffffff

/-- Constant of libva (`va.h`): the picture structure of a whole frame. -/
def VA_FRAME_PICTURE : Nat := 0

/-- Fields of `MixVideoFrame`, of its `MixVideoFramePrivate` and the `refcount`
of its `MixParams` base.  `va_display` is an untyped pointer, kept as its value
(0 is `NULL`). -/
structure MixVideoFrame where
  refcount : Int
  frame_id : Nat
  ci_frame_idx : Nat
  timestamp : Nat
  discontinuity : Bool
  pool : Option PoolPtr
  is_skipped : Bool
  real_frame : Option FramePtr
  sync_flag : Bool
  frame_structure : Nat
  va_display : Nat
  frame_type : Nat
  displayorder : Nat
deriving DecidableEq, Repr

/-- Fields of `MixSurfacePool`.  Modelled from the spec: the struct is declared
in `mixsurfacepool.h`; the three size counters are the spec's counts, natural
numbers. -/
structure MixSurfacePool where
  free_list : List FramePtr
  in_use_list : List FramePtr
  free_list_max_size : Nat
  free_list_cur_size : Nat
  high_water_mark : Nat
  initialized : Bool
deriving DecidableEq, Repr

/-- The store: the frame and the pool behind every address, the address the
next `g_type_create_instance` hands out, and how many more instances it can
create before it fails. -/
structure Heap where
  frames : FramePtr → MixVideoFrame
  pools : PoolPtr → MixSurfacePool
  next_frame : Nat
  heap_left : Nat

/-- Write a frame object. -/
def Heap.setFrame (h : Heap) (a : FramePtr) (f : MixVideoFrame) : Heap :=
  { h with frames := fun b => if b = a then f else h.frames b }

/-- Write a pool object. -/
def Heap.setPool (h : Heap) (a : PoolPtr) (p : MixSurfacePool) : Heap :=
  { h with pools := fun b => if b = a then p else h.pools b }

/-! ## mixvideoframe.c -/

/-- Instance memory as `g_type_create_instance` provides it: zero filled. -/
def zeroed_frame : MixVideoFrame :=
  { refcount := 0, frame_id := 0, ci_frame_idx := 0, timestamp := 0,
    discontinuity := false, pool := none, is_skipped := false,
    real_frame := none, sync_flag := false, frame_structure := 0,
    va_display := 0, frame_type := 0, displayorder := 0 }

/-- Modelled from the spec: the instance initialiser of the `MixParams` base
(mixparams.c); a constructed object starts with reference count 1. -/
def mix_params_init (self : MixVideoFrame) : MixVideoFrame :=
  { self with refcount := 1 }

/-- The instance initialiser `mix_videoframe_init`. -/
def mix_videoframe_init (self : MixVideoFrame) : MixVideoFrame :=
  { self with
    frame_id := VA_INVALID_SURFACE, timestamp := 0, discontinuity := false,
    pool := none, is_skipped := false, real_frame := none,
    sync_flag := false, frame_structure := VA_FRAME_PICTURE, va_display := 0 }

/-- The constructor `mix_videoframe_new`: `NULL` when no instance can be
created, else a fresh address holding an initialised frame. -/
def mix_videoframe_new (h : Heap) : Option FramePtr × Heap :=
  match h.heap_left with
  | 0 => (none, h)
  | k + 1 =>
    (some h.next_frame,
      { (h.setFrame h.next_frame (mix_videoframe_init (mix_params_init zeroed_frame))) with
        next_frame := h.next_frame + 1, heap_left := k })

/-- Modelled from the spec: `mix_params_ref` of the `MixParams` base
(mixparams.c) increments the reference count, with no upper bound check. -/
def mix_params_ref (h : Heap) (obj : FramePtr) : Heap :=
  h.setFrame obj { h.frames obj with refcount := (h.frames obj).refcount + 1 }

/-- Modelled from the spec: `mix_params_unref` of the `MixParams` base
(mixparams.c) decrements the reference count; an object whose count reaches 0
is destroyed and stays in the store with count 0. -/
def mix_params_unref (h : Heap) (obj : FramePtr) : Heap :=
  h.setFrame obj { h.frames obj with refcount := (h.frames obj).refcount - 1 }

/-- The function `mix_videoframe_ref`, which dereferences `obj` (never
`NULL`). -/
def mix_videoframe_ref (h : Heap) (obj : FramePtr) : Heap :=
  mix_params_ref h obj

/-- Setter `mix_videoframe_set_frame_id`. -/
def mix_videoframe_set_frame_id (h : Heap) (obj : Option FramePtr) (frame_id : Nat) :
    MIX_RESULT × Heap :=
  match obj with
  | none => (.NULL_PTR, h)
  | some o => (.SUCCESS, h.setFrame o { h.frames o with frame_id := frame_id })

/-- Setter `mix_videoframe_set_ci_frame_idx`. -/
def mix_videoframe_set_ci_frame_idx (h : Heap) (obj : Option FramePtr) (ci_frame_idx : Nat) :
    MIX_RESULT × Heap :=
  match obj with
  | none => (.NULL_PTR, h)
  | some o => (.SUCCESS, h.setFrame o { h.frames o with ci_frame_idx := ci_frame_idx })

/-- Setter `mix_videoframe_set_timestamp`. -/
def mix_videoframe_set_timestamp (h : Heap) (obj : Option FramePtr) (timestamp : Nat) :
    MIX_RESULT × Heap :=
  match obj with
  | none => (.NULL_PTR, h)
  | some o => (.SUCCESS, h.setFrame o { h.frames o with timestamp := timestamp })

/-- Setter `mix_videoframe_set_pool`, which dereferences `obj` unchecked. -/
def mix_videoframe_set_pool (h : Heap) (obj : FramePtr) (pool : Option PoolPtr) :
    MIX_RESULT × Heap :=
  (.SUCCESS, h.setFrame obj { h.frames obj with pool := pool })

/-- Setter `mix_videoframe_set_is_skipped`. -/
def mix_videoframe_set_is_skipped (h : Heap) (obj : Option FramePtr) (is_skipped : Bool) :
    MIX_RESULT × Heap :=
  match obj with
  | none => (.NULL_PTR, h)
  | some o => (.SUCCESS, h.setFrame o { h.frames o with is_skipped := is_skipped })

/-- Setter `mix_videoframe_set_real_frame`. -/
def mix_videoframe_set_real_frame (h : Heap) (obj : Option FramePtr) (real : Option FramePtr) :
    MIX_RESULT × Heap :=
  match obj with
  | none => (.NULL_PTR, h)
  | some o => (.SUCCESS, h.setFrame o { h.frames o with real_frame := real })

/-- The function `mix_videoframe_reset`. -/
def mix_videoframe_reset (h : Heap) (obj : Option FramePtr) : MIX_RESULT × Heap :=
  match obj with
  | none => (.NULL_PTR, h)
  | some o =>
    (.SUCCESS, h.setFrame o { h.frames o with
      timestamp := 0, discontinuity := false, is_skipped := false,
      real_frame := none, sync_flag := false, frame_structure := VA_FRAME_PICTURE })

/-- Setter `mix_videoframe_set_vadisplay`: stores the display in `obj` and
then in the frame `obj` stands for, as long as that is another frame. -/
def mix_videoframe_set_vadisplay :
    Nat → Heap → Option FramePtr → Nat → Option (MIX_RESULT × Heap)
  | _, h, none, _ => some (.NULL_PTR, h)
  | 0, _, some _, _ => none
  | fuel + 1, h, some o, va_display =>
    let h1 := h.setFrame o { h.frames o with va_display := va_display }
    match (h1.frames o).real_frame with
    | none => some (.SUCCESS, h1)
    | some real =>
      if real ≠ o then
        match mix_videoframe_set_vadisplay fuel h1 (some real) va_display with
        | none => none
        | some (_, h2) => some (.SUCCESS, h2)
      else some (.SUCCESS, h1)

/-- Setter `mix_videoframe_set_discontinuity`. -/
def mix_videoframe_set_discontinuity (h : Heap) (obj : Option FramePtr) (discontinuity : Bool) :
    MIX_RESULT × Heap :=
  match obj with
  | none => (.NULL_PTR, h)
  | some o => (.SUCCESS, h.setFrame o { h.frames o with discontinuity := discontinuity })

/-- Setter `mix_videoframe_set_frame_structure`. -/
def mix_videoframe_set_frame_structure (h : Heap) (obj : Option FramePtr)
    (frame_structure : Nat) : MIX_RESULT × Heap :=
  match obj with
  | none => (.NULL_PTR, h)
  | some o => (.SUCCESS, h.setFrame o { h.frames o with frame_structure := frame_structure })

/-- Setter `mix_videoframe_set_frame_type`, which dereferences `obj`
unchecked. -/
def mix_videoframe_set_frame_type (h : Heap) (obj : FramePtr) (frame_type : Nat) :
    MIX_RESULT × Heap :=
  (.SUCCESS, h.setFrame obj { h.frames obj with frame_type := frame_type })

/-- Setter `mix_videoframe_set_displayorder`. -/
def mix_videoframe_set_displayorder (h : Heap) (obj : Option FramePtr) (displayorder : Nat) :
    MIX_RESULT × Heap :=
  match obj with
  | none => (.NULL_PTR, h)
  | some o => (.SUCCESS, h.setFrame o { h.frames o with displayorder := displayorder })

/-- Setter `mix_videoframe_set_sync_flag`: stores the flag in `obj` and then in
the frame `obj` stands for, as long as that is another frame. -/
def mix_videoframe_set_sync_flag :
    Nat → Heap → Option FramePtr → Bool → Option (MIX_RESULT × Heap)
  | _, h, none, _ => some (.NULL_PTR, h)
  | 0, _, some _, _ => none
  | fuel + 1, h, some o, sync_flag =>
    let h1 := h.setFrame o { h.frames o with sync_flag := sync_flag }
    match (h1.frames o).real_frame with
    | none => some (.SUCCESS, h1)
    | some real =>
      if real ≠ o then
        match mix_videoframe_set_sync_flag fuel h1 (some real) sync_flag with
        | none => none
        | some (_, h2) => some (.SUCCESS, h2)
      else some (.SUCCESS, h1)

/-- Getter `mix_videoframe_get_sync_flag`.  The out pointer `sync_flag` is
`none` when it is `NULL`, else it holds what `*sync_flag` holds; the second
component of the result is what `*sync_flag` holds on return. -/
def mix_videoframe_get_sync_flag :
    Nat → Heap → Option FramePtr → Option Bool → Option (MIX_RESULT × Option Bool)
  | _, _, none, sync_flag => some (.NULL_PTR, sync_flag)
  | _, _, some _, none => some (.NULL_PTR, none)
  | 0, _, some _, some _ => none
  | fuel + 1, h, some o, some slot =>
    match (h.frames o).real_frame with
    | none => some (.SUCCESS, some (h.frames o).sync_flag)
    | some real =>
      if real ≠ o then mix_videoframe_get_sync_flag fuel h (some real) (some slot)
      else some (.SUCCESS, some (h.frames o).sync_flag)

/-- Getter `mix_videoframe_get_vadisplay`, with the out pointer `va_display`
as in `mix_videoframe_get_sync_flag`. -/
def mix_videoframe_get_vadisplay :
    Nat → Heap → Option FramePtr → Option Nat → Option (MIX_RESULT × Option Nat)
  | _, _, none, va_display => some (.NULL_PTR, va_display)
  | _, _, some _, none => some (.NULL_PTR, none)
  | 0, _, some _, some _ => none
  | fuel + 1, h, some o, some slot =>
    match (h.frames o).real_frame with
    | none => some (.SUCCESS, some (h.frames o).va_display)
    | some real =>
      if real ≠ o then mix_videoframe_get_vadisplay fuel h (some real) (some slot)
      else some (.SUCCESS, some (h.frames o).va_display)

/-- Modelled from the spec: the base object's copy (mixparams.c, not among the
sources), which `mix_videoframe_copy` chains up to after its own work.  The
base object holds no field of a frame: the store stays as it is and the copy
succeeds. -/
def mix_params_copy (h : Heap) (_target _src : FramePtr) : Bool × Heap :=
  (true, h)

/-- Modelled from the spec: the base object's equal (mixparams.c, not among the
sources), which `mix_videoframe_equal` chains up to once its own fields agree.
The base object holds nothing to compare. -/
def mix_params_equal (_h : Heap) (_first _second : FramePtr) : Bool :=
  true

/-- Copy `mix_videoframe_copy`: the three assignments in source order, then the
base copy.  An argument that is not a frame (`none`) gives `FALSE`. -/
def mix_videoframe_copy (h : Heap) (target src : Option FramePtr) : Bool × Heap :=
  match target, src with
  | some t, some s =>
    let h1 := h.setFrame t { h.frames t with frame_id := (h.frames s).frame_id }
    let h2 := h1.setFrame t { h1.frames t with timestamp := (h1.frames s).timestamp }
    let h3 := h2.setFrame t { h2.frames t with discontinuity := (h2.frames s).discontinuity }
    mix_params_copy h3 t s
  | _, _ => (false, h)

/-- Comparison `mix_videoframe_equal`: the three fields, then the base equal.
An argument that is not a frame (`none`) gives `FALSE`. -/
def mix_videoframe_equal (h : Heap) (first second : Option FramePtr) : Bool :=
  match first, second with
  | some a, some b =>
    if (h.frames a).frame_id = (h.frames b).frame_id ∧
        (h.frames a).timestamp = (h.frames b).timestamp ∧
        (h.frames a).discontinuity = (h.frames b).discontinuity then
      mix_params_equal h a b
    else false
  | _, _ => false

/-! ## mixsurfacepool.c -/

/-- The instance initialiser `mix_surfacepool_init`: the state of a new pool. -/
def mix_surfacepool_init : MixSurfacePool :=
  { free_list := [], in_use_list := [], free_list_max_size := 0,
    free_list_cur_size := 0, high_water_mark := 0, initialized := false }

/-- The loop of `mix_surfacepool_initialize`: `k` iterations are left and the
loop variable is `i`.  The flag is `false` when `mix_videoframe_new` returned
`NULL` and the function left with `MIX_RESULT_NO_MEMORY`. -/
def initialize_loop (fuel : Nat) (obj : PoolPtr) (surfaces : Nat → Nat) (va_display : Nat) :
    Nat → Nat → Heap → Option (Bool × Heap)
  | 0, _, h => some (true, h)
  | k + 1, i, h =>
    match mix_videoframe_new h with
    | (none, h1) => some (false, h1)
    | (some frame, h1) =>
      let h2 := (mix_videoframe_set_frame_id h1 (some frame) (surfaces i)).2
      let h3 := (mix_videoframe_set_ci_frame_idx h2 (some frame) i).2
      let h4 := (mix_videoframe_set_pool h3 frame (some obj)).2
      match mix_videoframe_set_vadisplay fuel h4 (some frame) va_display with
      | none => none
      | some (_, h5) =>
        let h6 := h5.setPool obj
          { h5.pools obj with free_list := (h5.pools obj).free_list ++ [frame] }
        initialize_loop fuel obj surfaces va_display k (i + 1) h6

/-- The function `mix_surfacepool_initialize`.  The array `surfaces` is read
through its index. -/
def mix_surfacepool_initialize (fuel : Nat) (h : Heap) (obj : Option PoolPtr)
    (surfaces : Option (Nat → Nat)) (num_surfaces : Nat) (va_display : Nat) :
    Option (MIX_RESULT × Heap) :=
  match obj, surfaces with
  | some o, some surf =>
    if (h.pools o).free_list ≠ [] ∨ (h.pools o).in_use_list ≠ [] then
      some (.ALREADY_INIT, h)
    else if num_surfaces = 0 then
      some (.SUCCESS, h.setPool o
        { h.pools o with
          free_list := [], in_use_list := [], free_list_max_size := num_surfaces,
          free_list_cur_size := num_surfaces, high_water_mark := 0, initialized := true })
    else
      match initialize_loop fuel o surf va_display num_surfaces 0 h with
      | none => none
      | some (false, h1) => some (.NO_MEMORY, h1)
      | some (true, h1) =>
        some (.SUCCESS, h1.setPool o
          { h1.pools o with
            in_use_list := [], free_list_max_size := num_surfaces,
            free_list_cur_size := num_surfaces, high_water_mark := 0, initialized := true })
  | _, _ => some (.NULL_PTR, h)

/-- The function `mix_surfacepool_put`. -/
def mix_surfacepool_put (h : Heap) (obj : Option PoolPtr) (frame : Option FramePtr) :
    MIX_RESULT × Heap :=
  match obj, frame with
  | some o, some f =>
    if (h.pools o).in_use_list = [] then (.FAIL, h)
    else if f ∈ (h.pools o).in_use_list then
      let h1 := h.setPool o
        { h.pools o with in_use_list := (h.pools o).in_use_list.erase f }
      let h2 := (mix_videoframe_set_timestamp h1 (some f) 0).2
      let h3 := h2.setPool o
        { h2.pools o with free_list := (h2.pools o).free_list ++ [f] }
      (.SUCCESS, h3.setPool o
        { h3.pools o with free_list_cur_size := (h3.pools o).free_list_cur_size + 1 })
    else (.FAIL, h)
  | _, _ => (.NULL_PTR, h)

/-- The function `mix_surfacepool_get`.  The out pointer `frame` is `none` when
it is `NULL`, else it holds what `*frame` holds; the second component of the
result is what `*frame` holds on return. -/
def mix_surfacepool_get (h : Heap) (obj : Option PoolPtr) (frame : Option (Option FramePtr)) :
    MIX_RESULT × Option FramePtr × Heap :=
  match obj, frame with
  | some o, some slot =>
    if (h.pools o).free_list_cur_size ≤ 1 then (.NO_MEMORY, slot, h)
    else
      match (h.pools o).free_list with
      | [] => (.FAIL, slot, h)
      | element :: rest =>
        let h1 := h.setPool o { h.pools o with free_list := rest }
        let h2 := h1.setPool o
          { h1.pools o with in_use_list := (h1.pools o).in_use_list ++ [element] }
        let h3 := h2.setPool o
          { h2.pools o with free_list_cur_size := (h2.pools o).free_list_cur_size - 1 }
        let size := (h3.pools o).in_use_list.length
        let h4 :=
          if size > (h3.pools o).high_water_mark then
            h3.setPool o { h3.pools o with high_water_mark := size }
          else h3
        (.SUCCESS, some element, mix_videoframe_ref h4 element)
  | _, _ => (.NULL_PTR, frame.join, h)

/-- The comparison `mixframe_compare_index`: 0 when both frames are there and
have the same index, else -1. -/
def mixframe_compare_index (h : Heap) (a b : Option FramePtr) : Int :=
  match a, b with
  | some a, some b =>
    if (h.frames a).ci_frame_idx = (h.frames b).ci_frame_idx then 0 else -1
  | _, _ => -1

/-- The function `mix_surfacepool_get_frame_with_ci_frameidx`, with the out
pointer `frame` as in `mix_surfacepool_get`. -/
def mix_surfacepool_get_frame_with_ci_frameidx (h : Heap) (obj : Option PoolPtr)
    (frame : Option (Option FramePtr)) (in_frame : Option FramePtr) :
    MIX_RESULT × Option FramePtr × Heap :=
  match obj, frame with
  | some o, some slot =>
    if (h.pools o).free_list = [] then (.NO_MEMORY, slot, h)
    else
      match (h.pools o).free_list.find?
          (fun a => decide (mixframe_compare_index h (some a) in_frame = 0)) with
      | none => (.FAIL, slot, h)
      | some element =>
        let h1 := h.setPool o
          { h.pools o with free_list := (h.pools o).free_list.erase element }
        let h2 := h1.setPool o
          { h1.pools o with in_use_list := (h1.pools o).in_use_list ++ [element] }
        let size := (h2.pools o).in_use_list.length
        let h3 :=
          if size > (h2.pools o).high_water_mark then
            h2.setPool o { h2.pools o with high_water_mark := size }
          else h2
        (.SUCCESS, some element, mix_videoframe_ref h3 element)
  | _, _ => (.NULL_PTR, frame.join, h)

/-- The function `mix_surfacepool_check_available`; the second component is
the store on return. -/
def mix_surfacepool_check_available (h : Heap) (obj : Option PoolPtr) : MIX_RESULT × Heap :=
  match obj with
  | none => (.NULL_PTR, h)
  | some o =>
    if (h.pools o).initialized = false then (.NOT_INIT, h)
    else if (h.pools o).free_list_cur_size ≤ 1 then (.POOLEMPTY, h)
    else (.SUCCESS, h)

/-- The call of `mix_surfacepool_put` made by a thread that holds the
`objectlock` of the pool `held` (if any): asking for that lock again never
returns. -/
def put_under_lock (held : Option PoolPtr) (h : Heap) (obj : Option PoolPtr)
    (frame : Option FramePtr) : Option (MIX_RESULT × Heap) :=
  match obj, frame with
  | some o, some _ =>
    if held = some o then none else some (mix_surfacepool_put h obj frame)
  | _, _ => some (mix_surfacepool_put h obj frame)

/-- The function `mix_videoframe_unref`, called by a thread that holds the
`objectlock` of the pool `held` (if any). -/
def mix_videoframe_unref :
    Nat → Option PoolPtr → Heap → Option FramePtr → Option Heap
  | _, _, h, none => some h
  | 0, _, _, some _ => none
  | fuel + 1, held, h, some o =>
    let back_to_pool : Option (Bool × Heap) :=
      if (h.frames o).refcount - 1 = 1 ∧ (h.frames o).is_skipped = false then
        match (h.frames o).pool with
        | none => some (true, h)
        | some pool =>
          let h1 := (mix_videoframe_reset h (some o)).2
          match put_under_lock held h1 (some pool) (some o) with
          | none => none
          | some (_, h2) => some (false, h2)
      else some (false, h)
    match back_to_pool with
    | none => none
    | some (true, h2) => some h2
    | some (false, h2) =>
      if (h2.frames o).refcount - 1 = 0 ∧ (h2.frames o).is_skipped = true then
        match mix_videoframe_unref fuel held h2 (h2.frames o).real_frame with
        | none => none
        | some h3 => some (mix_params_unref h3 o)
      else some (mix_params_unref h2 o)

/-- The loop of `mix_surfacepool_deinitialize`, run while the pool's
`objectlock` is held. -/
def deinitialize_loop : Nat → PoolPtr → Heap → Option Heap
  | 0, _, _ => none
  | fuel + 1, o, h =>
    match (h.pools o).free_list with
    | [] => some h
    | frame :: _ =>
      match mix_videoframe_unref fuel (some o) h (some frame) with
      | none => none
      | some h1 =>
        deinitialize_loop fuel o
          (h1.setPool o { h1.pools o with free_list := (h1.pools o).free_list.tail })

/-- The function `mix_surfacepool_deinitialize`. -/
def mix_surfacepool_deinitialize (fuel : Nat) (h : Heap) (obj : Option PoolPtr) :
    Option (MIX_RESULT × Heap) :=
  match obj with
  | none => some (.NULL_PTR, h)
  | some o =>
    if (h.pools o).in_use_list ≠ [] ∨
        (h.pools o).free_list.length ≠ (h.pools o).free_list_max_size then
      some (.FAIL, h)
    else
      match deinitialize_loop fuel o h with
      | none => none
      | some h1 =>
        let h2 := h1.setPool o { h1.pools o with free_list_max_size := 0 }
        let h3 := h2.setPool o { h2.pools o with free_list_cur_size := 0 }
        some (.SUCCESS, h3.setPool o { h3.pools o with high_water_mark := 0 })

/-! ## Sequences of calls and reference states -/

/-- A call of one of the two pool functions that move a frame between the
lists. -/
inductive PoolCall where
  | get (obj : Option PoolPtr) (frame : Option (Option FramePtr))
  | put (obj : Option PoolPtr) (frame : Option FramePtr)

/-- The store after a call. -/
def PoolCall.run : PoolCall → Heap → Heap
  | .get obj frame, h => (mix_surfacepool_get h obj frame).2.2
  | .put obj frame, h => (mix_surfacepool_put h obj frame).2

/-- The store after a sequence of calls, made one after the other. -/
def run_pool_calls : List PoolCall → Heap → Heap
  | [], h => h
  | c :: cs, h => run_pool_calls cs (c.run h)

/-- A call a client makes to take a frame or to give one back: get, put, or
an unref (by a thread that holds no pool lock). -/
inductive ClientCall where
  | get (obj : Option PoolPtr) (frame : Option (Option FramePtr))
  | put (obj : Option PoolPtr) (frame : Option FramePtr)
  | unref (fuel : Nat) (obj : Option FramePtr)

/-- The store after a call, `none` when the call does not return within its
fuel. -/
def ClientCall.run : ClientCall → Heap → Option Heap
  | .get obj frame, h => some (mix_surfacepool_get h obj frame).2.2
  | .put obj frame, h => some (mix_surfacepool_put h obj frame).2
  | .unref fuel obj, h => mix_videoframe_unref fuel none h obj

/-- The store after a sequence of calls that all return. -/
def run_client_calls : List ClientCall → Heap → Option Heap
  | [], h => some h
  | c :: cs, h =>
    match c.run h with
    | none => none
    | some h1 => run_client_calls cs h1

/-- One unref for every frame of a list, in list order, by a thread that holds
the `objectlock` of the pool `held` (if any). -/
def unref_each (fuel : Nat) (held : Option PoolPtr) : List FramePtr → Heap → Option Heap
  | [], h => some h
  | f :: fs, h =>
    match mix_videoframe_unref fuel held h (some f) with
    | none => none
    | some h1 => unref_each fuel held fs h1

/-- Pool `o` with its free list emptied and its three counters zeroed. -/
def torn_down (h : Heap) (o : PoolPtr) : Heap :=
  h.setPool o
    { h.pools o with
      free_list := [], free_list_max_size := 0, free_list_cur_size := 0,
      high_water_mark := 0 }

/-- A store with no frame and with every pool as `mix_surfacepool_init` leaves
it. -/
def empty_heap : Heap :=
  { frames := fun _ => zeroed_frame, pools := fun _ => mix_surfacepool_init,
    next_frame := 1, heap_left := 16 }

/-- The store part of a result, or `empty_heap` when there is none. -/
def heap_of {α : Type} (r : Option (α × Heap)) : Heap :=
  match r with
  | some (_, h) => h
  | none => empty_heap

/-- Pool 0 of `empty_heap` initialised with the four surfaces 100, 101, 102,
103. -/
def four_heap : Heap :=
  heap_of ( mix_surfacepool_initialize 1 empty_heap (some 0) (some (fun i => 100 + i)) 4 7)

/-- Pool 0 of `empty_heap` initialised with two surfaces; the first frame is
taken, marked as a skipped frame standing for itself, put back by hand and
released. -/
def self_alias_heap : Heap :=
  let h1 := heap_of
    ( mix_surfacepool_initialize 1 empty_heap (some 0) (some (fun i => 100 + i)) 2 7)
  let h2 := (mix_surfacepool_get h1 (some 0) (some none)).2.2
  let h3 := (mix_videoframe_set_is_skipped h2 (some 1) true).2
  let h4 := (mix_videoframe_set_real_frame h3 (some 1) (some 1)).2
  let h5 := (mix_surfacepool_put h4 (some 0) (some 1)).2
  (mix_videoframe_unref 1 none h5 (some 1)).getD empty_heap

/-- A sequence of calls on pool 0: two frames taken, one put back, one put
that fails. -/
def sample_pool_calls : List PoolCall :=
  [.get (some 0) (some none), .get (some 0) (some none), .put (some 0) (some 1),
    .put (some 0) (some 9)]

/-- A sequence of calls on pool 0: frames taken, one released by unref, one
put back by hand. -/
def sample_client_calls : List ClientCall :=
  [.get (some 0) (some none), .get (some 0) (some none), .unref 1 (some 1),
    .get (some 0) (some none), .get (some 0) (some none), .put (some 0) (some 2)]

/-- A call of one of the three pool functions that move a frame between the
lists. -/
inductive MoveCall where
  | get (obj : Option PoolPtr) (frame : Option (Option FramePtr))
  | get_by_index (obj : Option PoolPtr) (frame : Option (Option FramePtr))
      (in_frame : Option FramePtr)
  | put (obj : Option PoolPtr) (frame : Option FramePtr)

/-- The store after a call. -/
def MoveCall.run : MoveCall → Heap → Heap
  | .get obj frame, h => (mix_surfacepool_get h obj frame).2.2
  | .get_by_index obj frame in_frame, h =>
    (mix_surfacepool_get_frame_with_ci_frameidx h obj frame in_frame).2.2
  | .put obj frame, h => (mix_surfacepool_put h obj frame).2

/-- The store after a sequence of calls, made one after the other. -/
def run_move_calls : List MoveCall → Heap → Heap
  | [], h => h
  | c :: cs, h => run_move_calls cs (c.run h)

/-- The greatest length the in-use list of pool `p` has in the store `h` and in
the stores after each call of the sequence. -/
def in_use_peak (p : PoolPtr) : List MoveCall → Heap → Nat
  | [], h => (h.pools p).in_use_list.length
  | c :: cs, h => max (h.pools p).in_use_list.length (in_use_peak p cs (c.run h))

/-- The stores in which the frames of pool `p` are shared by reference
counting: the pool is initialised once, frames are taken with get or by their
index, and a frame that is lent gets further references (ref) and loses them
(unref by a thread that holds no pool lock).  No frame is marked skipped. -/
inductive Sharing (p : PoolPtr) : Heap → Prop where
  | start (fuel : Nat) (h0 : Heap) (surfaces : Nat → Nat) (n va_display : Nat) (h : Heap) :
      mix_surfacepool_initialize fuel h0 (some p) (some surfaces) n va_display
        = some (.SUCCESS, h) →
      Sharing p h
  | get (h : Heap) (slot : Option FramePtr) :
      Sharing p h → Sharing p (mix_surfacepool_get h (some p) (some slot)).2.2
  | get_by_index (h : Heap) (slot : Option FramePtr) (in_frame : Option FramePtr) :
      Sharing p h →
      Sharing p (mix_surfacepool_get_frame_with_ci_frameidx h (some p) (some slot) in_frame).2.2
  | ref (h : Heap) (f : FramePtr) :
      Sharing p h → f ∈ (h.pools p).in_use_list → Sharing p (mix_videoframe_ref h f)
  | unref (fuel : Nat) (h : Heap) (f : FramePtr) (h1 : Heap) :
      Sharing p h → f ∈ (h.pools p).in_use_list →
      mix_videoframe_unref fuel none h (some f) = some h1 →
      Sharing p h1

/-- What `Sharing` keeps true of pool `p`: a free frame has reference count 1,
a lent frame has reference count 2 or more, both point back to `p` and are not
marked skipped, and no frame is listed twice. -/
def sharing_invariant (p : PoolPtr) (h : Heap) : Prop :=
  (∀ a, a ∈ (h.pools p).free_list →
    (h.frames a).refcount = 1 ∧ (h.frames a).pool = some p ∧
    (h.frames a).is_skipped = false) ∧
  (∀ a, a ∈ (h.pools p).in_use_list →
    2 ≤ (h.frames a).refcount ∧ (h.frames a).pool = some p ∧
    (h.frames a).is_skipped = false) ∧
  ((h.pools p).free_list ++ (h.pools p).in_use_list).Nodup

/-- Pool 0 of `empty_heap` initialised with the two surfaces 100 and 101. -/
def two_heap : Heap :=
  heap_of ( mix_surfacepool_initialize 1 empty_heap (some 0) (some (fun i => 100 + i)) 2 7)

/-- The store `two_heap` after the frame with index 0 is taken by its index
(the probe is that frame itself). -/
def index_heap : Heap :=
  (mix_surfacepool_get_frame_with_ci_frameidx two_heap (some 0) (some none) (some 1)).2.2

/-- A frame made by `mix_videoframe_new` (address 1, no pool) that has a second
reference. -/
def orphan_heap : Heap :=
  mix_videoframe_ref (mix_videoframe_new empty_heap).2 1

/-- The store `orphan_heap` with a second new frame (address 2) that is made a
skipped frame standing for frame 1; the second reference of frame 1 is the one
taken for it. -/
def skip_pair_heap : Heap :=
  let h1 := (mix_videoframe_new orphan_heap).2
  let h2 := (mix_videoframe_set_is_skipped h1 (some 2) true).2
  (mix_videoframe_set_real_frame h2 (some 2) (some 1)).2

/-- The store `four_heap` after frame 1 is taken with get and given a frame
type and a display order. -/
def tagged_heap : Heap :=
  let h1 := (mix_surfacepool_get four_heap (some 0) (some none)).2.2
  let h2 := (mix_videoframe_set_frame_type h1 1 2).2
  (mix_videoframe_set_displayorder h2 (some 1) 5).2

/-- A sequence of calls on pool 0: a frame taken by its index, a frame taken
with get, one put back, and a get by index that finds nothing. -/
def sample_move_calls : List MoveCall :=
  [.get_by_index (some 0) (some none) (some 3), .get (some 0) (some none),
    .put (some 0) (some 3), .get_by_index (some 0) (some none) none]

/-- The frames that the forwarding of the sync flag and of the display handle
visits after frame `a`: every link `real_frame` that is not `NULL` and not the
frame itself leads to the next frame of the list, and the last frame has no
such link. -/
def chain_from (h : Heap) : FramePtr → List FramePtr → Prop
  | a, [] => (h.frames a).real_frame = none ∨ (h.frames a).real_frame = some a
  | a, b :: rest => (h.frames a).real_frame = some b ∧ b ≠ a ∧ chain_from h b rest

/-- Three new frames 1, 2 and 3 with frame 1 standing for frame 2 and frame 2
standing for frame 3; frame 3 holds the sync flag `true` and the display
handle 9. -/
def chain_heap : Heap :=
  let h1 := (mix_videoframe_new empty_heap).2
  let h2 := (mix_videoframe_new h1).2
  let h3 := (mix_videoframe_new h2).2
  let h4 := (mix_videoframe_set_is_skipped h3 (some 1) true).2
  let h5 := (mix_videoframe_set_real_frame h4 (some 1) (some 2)).2
  let h6 := (mix_videoframe_set_is_skipped h5 (some 2) true).2
  let h7 := (mix_videoframe_set_real_frame h6 (some 2) (some 3)).2
  let h8 := heap_of (mix_videoframe_set_sync_flag 1 h7 (some 3) true)
  heap_of (mix_videoframe_set_vadisplay 1 h8 (some 3) 9)

/-- Two new frames 1 and 2, each made a skipped frame standing for the other
with `mix_videoframe_set_is_skipped` and `mix_videoframe_set_real_frame`. -/
def cycle_heap : Heap :=
  let h1 := (mix_videoframe_new empty_heap).2
  let h2 := (mix_videoframe_new h1).2
  let h3 := (mix_videoframe_set_is_skipped h2 (some 1) true).2
  let h4 := (mix_videoframe_set_real_frame h3 (some 1) (some 2)).2
  let h5 := (mix_videoframe_set_is_skipped h4 (some 2) true).2
  (mix_videoframe_set_real_frame h5 (some 2) (some 1)).2

/-- The two calls that take both frames of `two_heap` by their index (each
probe is the frame itself). -/
def drain_calls : List MoveCall :=
  [.get_by_index (some 0) (some none) (some 1), .get_by_index (some 0) (some none) (some 2)]

/-- The store `two_heap` after `drain_calls`. -/
def drained_heap : Heap :=
  run_move_calls drain_calls two_heap

/-! ## The order in which locks are taken -/

@[simp] theorem setFrame_frames (h : Heap) (a b : FramePtr) (f : MixVideoFrame) :
    (h.setFrame a f).frames b = if b = a then f else h.frames b := rfl

@[simp] theorem setFrame_pools (h : Heap) (a : FramePtr) (f : MixVideoFrame) :
    (h.setFrame a f).pools = h.pools := rfl

@[simp] theorem setFrame_next_frame (h : Heap) (a : FramePtr) (f : MixVideoFrame) :
    (h.setFrame a f).next_frame = h.next_frame := rfl

@[simp] theorem setFrame_heap_left (h : Heap) (a : FramePtr) (f : MixVideoFrame) :
    (h.setFrame a f).heap_left = h.heap_left := rfl

@[simp] theorem setPool_pools (h : Heap) (a b : PoolPtr) (p : MixSurfacePool) :
    (h.setPool a p).pools b = if b = a then p else h.pools b := rfl

@[simp] theorem setPool_frames (h : Heap) (a : PoolPtr) (p : MixSurfacePool) :
    (h.setPool a p).frames = h.frames := rfl

@[simp] theorem setPool_next_frame (h : Heap) (a : PoolPtr) (p : MixSurfacePool) :
    (h.setPool a p).next_frame = h.next_frame := rfl

@[simp] theorem setPool_heap_left (h : Heap) (a : PoolPtr) (p : MixSurfacePool) :
    (h.setPool a p).heap_left = h.heap_left := rfl

/-! ## What one call of get and of put does -/

theorem get_no_memory (h : Heap) (o : PoolPtr) (slot : Option FramePtr)
    (hc : (h.pools o).free_list_cur_size ≤ 1) :
    mix_surfacepool_get h (some o) (some slot) = (.NO_MEMORY, slot, h) := by
  simp [mix_surfacepool_get, hc]

theorem get_fail (h : Heap) (o : PoolPtr) (slot : Option FramePtr)
    (hc : 1 < (h.pools o).free_list_cur_size) (hf : (h.pools o).free_list = []) :
    mix_surfacepool_get h (some o) (some slot) = (.FAIL, slot, h) := by
  simp [mix_surfacepool_get, Nat.not_le.mpr hc, hf]

theorem get_result (h : Heap) (o : PoolPtr) (slot : Option FramePtr) (element : FramePtr)
    (rest : List FramePtr)
    (hc : 1 < (h.pools o).free_list_cur_size) (hf : (h.pools o).free_list = element :: rest) :
    mix_surfacepool_get h (some o) (some slot) =
      (.SUCCESS, some element,
        mix_videoframe_ref
          (h.setPool o
            { h.pools o with
              free_list := rest
              in_use_list := (h.pools o).in_use_list ++ [element]
              free_list_cur_size := (h.pools o).free_list_cur_size - 1
              high_water_mark :=
                max (h.pools o).high_water_mark ((h.pools o).in_use_list.length + 1) })
          element) := by
  simp only [mix_surfacepool_get, Nat.not_le.mpr hc, hf, if_false]
  simp only [setPool_pools, if_true, List.length_append, List.length_singleton]
  by_cases hw : (h.pools o).in_use_list.length + 1 > (h.pools o).high_water_mark
  · simp only [hw, if_true]
    have : max (h.pools o).high_water_mark ((h.pools o).in_use_list.length + 1)
        = (h.pools o).in_use_list.length + 1 := by omega
    rw [this]
    congr 3
    simp only [Heap.setPool]
    congr 1
    funext b
    by_cases hb : b = o <;> simp [hb]
  · simp only [hw, if_false]
    have : max (h.pools o).high_water_mark ((h.pools o).in_use_list.length + 1)
        = (h.pools o).high_water_mark := by omega
    rw [this]
    congr 3
    simp only [Heap.setPool]
    congr 1
    funext b
    by_cases hb : b = o <;> simp [hb]

theorem put_fail (h : Heap) (o : PoolPtr) (f : FramePtr)
    (hf : f ∉ (h.pools o).in_use_list) :
    mix_surfacepool_put h (some o) (some f) = (.FAIL, h) := by
  simp only [mix_surfacepool_put]
  split_ifs <;> rfl

theorem put_result (h : Heap) (o : PoolPtr) (f : FramePtr)
    (hf : f ∈ (h.pools o).in_use_list) :
    mix_surfacepool_put h (some o) (some f) =
      (.SUCCESS,
        (h.setFrame f { h.frames f with timestamp := 0 }).setPool o
          { h.pools o with
            in_use_list := (h.pools o).in_use_list.erase f
            free_list := (h.pools o).free_list ++ [f]
            free_list_cur_size := (h.pools o).free_list_cur_size + 1 }) := by
  have hne : (h.pools o).in_use_list ≠ [] := List.ne_nil_of_mem hf
  simp only [mix_surfacepool_put, hne, hf, if_true, if_false, mix_videoframe_set_timestamp]
  congr 1
  simp only [Heap.setPool, Heap.setFrame]
  congr 1
  funext b
  by_cases hb : b = o <;> simp [hb]

theorem put_other_pool (h : Heap) (o q : PoolPtr) (frame : Option FramePtr) (hq : q ≠ o) :
    ((mix_surfacepool_put h (some o) frame).2).pools q = h.pools q := by
  cases frame with
  | none => rfl
  | some f =>
    by_cases hf : f ∈ (h.pools o).in_use_list
    · rw [put_result h o f hf]; simp [hq]
    · rw [put_fail h o f hf]

theorem get_other_pool (h : Heap) (o q : PoolPtr) (frame : Option (Option FramePtr))
    (hq : q ≠ o) :
    ((mix_surfacepool_get h (some o) frame).2.2).pools q = h.pools q := by
  cases frame with
  | none => rfl
  | some slot =>
    by_cases hc : (h.pools o).free_list_cur_size ≤ 1
    · rw [get_no_memory h o slot hc]
    · have hc1 : 1 < (h.pools o).free_list_cur_size := Nat.not_le.mp hc
      cases hfl : (h.pools o).free_list with
      | nil => rw [get_fail h o slot hc1 hfl]
      | cons e rest =>
        rw [get_result h o slot e rest hc1 hfl]
        simp [mix_videoframe_ref, mix_params_ref, hq]

/-! ## What one call of unref does -/

theorem unref_to_pool (fuel : Nat) (held : Option PoolPtr) (h : Heap) (o : FramePtr)
    (q : PoolPtr) (hrc : (h.frames o).refcount = 2) (hsk : (h.frames o).is_skipped = false)
    (hpool : (h.frames o).pool = some q) (hheld : held ≠ some q) :
    mix_videoframe_unref (fuel + 1) held h (some o) =
      some (mix_params_unref
        (mix_surfacepool_put (mix_videoframe_reset h (some o)).2 (some q) (some o)).2 o) := by
  have hput : ∀ x : MIX_RESULT × Heap, (x.2.frames o).refcount = 2 →
      (if (x.2.frames o).refcount - 1 = 0 ∧ (x.2.frames o).is_skipped = true then
        (match mix_videoframe_unref fuel held x.2 (x.2.frames o).real_frame with
          | none => none
          | some h3 => some (mix_params_unref h3 o))
      else some (mix_params_unref x.2 o)) = some (mix_params_unref x.2 o) := by
    intro x hx
    rw [if_neg]
    intro ⟨a, _⟩
    rw [hx] at a
    exact absurd a (by decide)
  have hrc2 : ((mix_surfacepool_put (mix_videoframe_reset h (some o)).2 (some q)
      (some o)).2.frames o).refcount = 2 := by
    by_cases hf : o ∈ ((mix_videoframe_reset h (some o)).2.pools q).in_use_list
    · rw [put_result _ q o hf]; simp [mix_videoframe_reset, hrc]
    · rw [put_fail _ q o hf]; simp [mix_videoframe_reset, hrc]
  simp only [mix_videoframe_unref, hrc, hsk, hpool, put_under_lock, hheld, if_false]
  simpa using hput _ hrc2

theorem unref_deadlock (fuel : Nat) (h : Heap) (o : FramePtr) (q : PoolPtr)
    (hrc : (h.frames o).refcount = 2) (hsk : (h.frames o).is_skipped = false)
    (hpool : (h.frames o).pool = some q) :
    mix_videoframe_unref fuel (some q) h (some o) = none := by
  cases fuel with
  | zero => rfl
  | succ fuel => simp [mix_videoframe_unref, hrc, hsk, hpool, put_under_lock]

theorem unref_no_pool (fuel : Nat) (held : Option PoolPtr) (h : Heap) (o : FramePtr)
    (hrc : (h.frames o).refcount = 2) (hsk : (h.frames o).is_skipped = false)
    (hpool : (h.frames o).pool = none) :
    mix_videoframe_unref (fuel + 1) held h (some o) = some h := by
  simp [mix_videoframe_unref, hrc, hsk, hpool]

theorem unref_cascade (fuel : Nat) (held : Option PoolPtr) (h : Heap) (o : FramePtr)
    (hrc : (h.frames o).refcount = 1) (hsk : (h.frames o).is_skipped = true) :
    mix_videoframe_unref (fuel + 1) held h (some o) =
      (mix_videoframe_unref fuel held h (h.frames o).real_frame).map
        (fun h3 => mix_params_unref h3 o) := by
  have e1 : ¬ ((h.frames o).refcount - 1 = 1 ∧ (h.frames o).is_skipped = false) := by
    intro ⟨_, b⟩; rw [hsk] at b; exact absurd b (by decide)
  have e2 : (h.frames o).refcount - 1 = 0 ∧ (h.frames o).is_skipped = true :=
    ⟨by omega, hsk⟩
  simp only [mix_videoframe_unref, e1, if_false, if_pos e2]
  cases mix_videoframe_unref fuel held h (h.frames o).real_frame <;> rfl

theorem unref_plain (fuel : Nat) (held : Option PoolPtr) (h : Heap) (o : FramePtr)
    (h1 : ¬ ((h.frames o).refcount = 2 ∧ (h.frames o).is_skipped = false))
    (h2 : ¬ ((h.frames o).refcount = 1 ∧ (h.frames o).is_skipped = true)) :
    mix_videoframe_unref (fuel + 1) held h (some o) = some (mix_params_unref h o) := by
  have e1 : ¬ ((h.frames o).refcount - 1 = 1 ∧ (h.frames o).is_skipped = false) := by
    intro ⟨a, b⟩; exact h1 ⟨by omega, b⟩
  have e2 : ¬ ((h.frames o).refcount - 1 = 0 ∧ (h.frames o).is_skipped = true) := by
    intro ⟨a, b⟩; exact h2 ⟨by omega, b⟩
  simp only [mix_videoframe_unref, e1, e2, if_false]

theorem unref_keeps_pool (Q : MixSurfacePool → Prop) (p : PoolPtr) (held : Option PoolPtr)
    (hput : ∀ (h : Heap) (q : PoolPtr) (f : FramePtr), held ≠ some q →
      Q (h.pools p) → Q ((mix_surfacepool_put h (some q) (some f)).2.pools p)) :
    ∀ (fuel : Nat) (h : Heap) (obj : Option FramePtr) (h1 : Heap),
      mix_videoframe_unref fuel held h obj = some h1 → Q (h.pools p) → Q (h1.pools p) := by
  intro fuel
  induction fuel with
  | zero =>
    intro h obj h1 hu hQ
    cases obj with
    | none => simp [mix_videoframe_unref] at hu; subst hu; exact hQ
    | some o => simp [mix_videoframe_unref] at hu
  | succ fuel ih =>
    intro h obj h1 hu hQ
    cases obj with
    | none => simp [mix_videoframe_unref] at hu; subst hu; exact hQ
    | some o =>
      by_cases c1 : (h.frames o).refcount = 2 ∧ (h.frames o).is_skipped = false
      · cases hp : (h.frames o).pool with
        | none =>
          rw [unref_no_pool fuel held h o c1.1 c1.2 hp] at hu
          cases hu; exact hQ
        | some q =>
          by_cases hh : held = some q
          · subst hh
            rw [unref_deadlock (fuel + 1) h o q c1.1 c1.2 hp] at hu
            cases hu
          · rw [unref_to_pool fuel held h o q c1.1 c1.2 hp hh] at hu
            cases hu
            have := hput (mix_videoframe_reset h (some o)).2 q o hh
              (by simpa [mix_videoframe_reset] using hQ)
            simpa [mix_params_unref] using this
      · by_cases c2 : (h.frames o).refcount = 1 ∧ (h.frames o).is_skipped = true
        · rw [unref_cascade fuel held h o c2.1 c2.2] at hu
          cases hr : mix_videoframe_unref fuel held h (h.frames o).real_frame with
          | none => rw [hr] at hu; cases hu
          | some h3 =>
            rw [hr] at hu
            cases hu
            have := ih h (h.frames o).real_frame h3 hr hQ
            simpa [mix_params_unref] using this
        · rw [unref_plain fuel held h o c1 c2] at hu
          cases hu
          simpa [mix_params_unref] using hQ

theorem unref_more_fuel (held : Option PoolPtr) :
    ∀ (fuel : Nat) (h : Heap) (obj : Option FramePtr) (h1 : Heap),
      mix_videoframe_unref fuel held h obj = some h1 →
      mix_videoframe_unref (fuel + 1) held h obj = some h1 := by
  intro fuel
  induction fuel with
  | zero =>
    intro h obj h1 hu
    cases obj with
    | none => simpa [mix_videoframe_unref] using hu
    | some o => simp [mix_videoframe_unref] at hu
  | succ fuel ih =>
    intro h obj h1 hu
    cases obj with
    | none => simpa [mix_videoframe_unref] using hu
    | some o =>
      by_cases c1 : (h.frames o).refcount = 2 ∧ (h.frames o).is_skipped = false
      · cases hp : (h.frames o).pool with
        | none =>
          rw [unref_no_pool fuel held h o c1.1 c1.2 hp] at hu
          rw [unref_no_pool (fuel + 1) held h o c1.1 c1.2 hp]
          exact hu
        | some q =>
          by_cases hh : held = some q
          · subst hh
            rw [unref_deadlock (fuel + 1) h o q c1.1 c1.2 hp] at hu
            cases hu
          · rw [unref_to_pool fuel held h o q c1.1 c1.2 hp hh] at hu
            rw [unref_to_pool (fuel + 1) held h o q c1.1 c1.2 hp hh]
            exact hu
      · by_cases c2 : (h.frames o).refcount = 1 ∧ (h.frames o).is_skipped = true
        · rw [unref_cascade fuel held h o c2.1 c2.2] at hu
          rw [unref_cascade (fuel + 1) held h o c2.1 c2.2]
          cases hr : mix_videoframe_unref fuel held h (h.frames o).real_frame with
          | none => rw [hr] at hu; cases hu
          | some h3 =>
            rw [hr] at hu
            rw [ih h (h.frames o).real_frame h3 hr]
            exact hu
        · rw [unref_plain fuel held h o c1 c2] at hu
          rw [unref_plain (fuel + 1) held h o c1 c2]
          exact hu

theorem unref_fuel_le (held : Option PoolPtr) (fuel fuel1 : Nat) (hle : fuel ≤ fuel1)
    (h : Heap) (obj : Option FramePtr) (h1 : Heap)
    (hu : mix_videoframe_unref fuel held h obj = some h1) :
    mix_videoframe_unref fuel1 held h obj = some h1 := by
  induction hle with
  | refl => exact hu
  | step _ ih => exact unref_more_fuel held _ h obj h1 ih

/-! ## Counting the frames of a pool -/

theorem put_count (h : Heap) (obj : Option PoolPtr) (frame : Option FramePtr) (p : PoolPtr) :
    ((mix_surfacepool_put h obj frame).2.pools p).free_list_cur_size
        + ((mix_surfacepool_put h obj frame).2.pools p).in_use_list.length
      = (h.pools p).free_list_cur_size + (h.pools p).in_use_list.length ∧
    (h.pools p).free_list_cur_size
      ≤ ((mix_surfacepool_put h obj frame).2.pools p).free_list_cur_size := by
  cases obj with
  | none => exact ⟨rfl, le_refl _⟩
  | some o =>
    cases frame with
    | none => exact ⟨rfl, le_refl _⟩
    | some f =>
      by_cases hf : f ∈ (h.pools o).in_use_list
      · rw [put_result h o f hf]
        by_cases hp : p = o
        · subst hp
          have hlen := List.length_erase_of_mem hf
          have hpos : 0 < (h.pools p).in_use_list.length := List.length_pos_of_mem hf
          simp only [setPool_pools, if_true, setFrame_pools, hlen]
          omega
        · simp [hp]
      · rw [put_fail h o f hf]
        exact ⟨rfl, le_refl _⟩

theorem get_count (h : Heap) (obj : Option PoolPtr) (frame : Option (Option FramePtr))
    (p : PoolPtr) :
    ((mix_surfacepool_get h obj frame).2.2.pools p).free_list_cur_size
        + ((mix_surfacepool_get h obj frame).2.2.pools p).in_use_list.length
      = (h.pools p).free_list_cur_size + (h.pools p).in_use_list.length ∧
    (1 ≤ (h.pools p).free_list_cur_size →
      1 ≤ ((mix_surfacepool_get h obj frame).2.2.pools p).free_list_cur_size) := by
  cases obj with
  | none => exact ⟨rfl, id⟩
  | some o =>
    cases frame with
    | none => exact ⟨rfl, id⟩
    | some slot =>
      by_cases hc : (h.pools o).free_list_cur_size ≤ 1
      · rw [get_no_memory h o slot hc]; exact ⟨rfl, id⟩
      · have hc1 : 1 < (h.pools o).free_list_cur_size := Nat.not_le.mp hc
        cases hfl : (h.pools o).free_list with
        | nil => rw [get_fail h o slot hc1 hfl]; exact ⟨rfl, id⟩
        | cons e rest =>
          rw [get_result h o slot e rest hc1 hfl]
          by_cases hp : p = o
          · subst hp
            simp only [mix_videoframe_ref, mix_params_ref, setFrame_pools, setPool_pools,
              if_true, List.length_append, List.length_singleton]
            omega
          · simp [mix_videoframe_ref, mix_params_ref, hp]

/-! ## The loop of initialize -/

theorem set_vadisplay_no_real (fuel : Nat) (h : Heap) (o : FramePtr) (va : Nat)
    (hr : (h.frames o).real_frame = none) :
    mix_videoframe_set_vadisplay (fuel + 1) h (some o) va =
      some (.SUCCESS, h.setFrame o { h.frames o with va_display := va }) := by
  simp [mix_videoframe_set_vadisplay, hr]

theorem initialize_loop_fail (fuel : Nat) (obj : PoolPtr) (surfaces : Nat → Nat) (va : Nat)
    (k i : Nat) (h : Heap) (hm : h.heap_left = 0) :
    initialize_loop fuel obj surfaces va (k + 1) i h = some (false, h) := by
  simp [initialize_loop, mix_videoframe_new, hm]

theorem initialize_loop_step (fuel : Nat) (obj : PoolPtr) (surfaces : Nat → Nat) (va : Nat)
    (k i : Nat) (h : Heap) (m : Nat) (hm : h.heap_left = m + 1) :
    ∃ h1 : Heap,
      initialize_loop (fuel + 1) obj surfaces va (k + 1) i h =
        initialize_loop (fuel + 1) obj surfaces va k (i + 1) h1 ∧
      h1.next_frame = h.next_frame + 1 ∧ h1.heap_left = m ∧
      h1.pools obj =
        { h.pools obj with free_list := (h.pools obj).free_list ++ [h.next_frame] } ∧
      (∀ q, q ≠ obj → h1.pools q = h.pools q) ∧
      (∀ a, a ≠ h.next_frame → h1.frames a = h.frames a) ∧
      h1.frames h.next_frame =
        { refcount := 1, frame_id := surfaces i, ci_frame_idx := i, timestamp := 0,
          discontinuity := false, pool := some obj, is_skipped := false,
          real_frame := none, sync_flag := false, frame_structure := VA_FRAME_PICTURE,
          va_display := va, frame_type := 0, displayorder := 0 } := by
  refine ⟨
    { frames := fun b => if b = h.next_frame then
          { refcount := 1, frame_id := surfaces i, ci_frame_idx := i, timestamp := 0,
            discontinuity := false, pool := some obj, is_skipped := false,
            real_frame := none, sync_flag := false, frame_structure := VA_FRAME_PICTURE,
            va_display := va, frame_type := 0, displayorder := 0 }
        else h.frames b
      pools := fun q => if q = obj then
          { h.pools obj with free_list := (h.pools obj).free_list ++ [h.next_frame] }
        else h.pools q
      next_frame := h.next_frame + 1
      heap_left := m }, ?_, rfl, rfl, by simp, ?_, ?_, by simp⟩
  · conv_lhs => unfold initialize_loop
    simp only [mix_videoframe_new, hm, mix_videoframe_set_frame_id,
      mix_videoframe_set_ci_frame_idx, mix_videoframe_set_pool]
    rw [set_vadisplay_no_real]
    · simp only [Heap.setFrame, Heap.setPool, mix_videoframe_init, mix_params_init,
        zeroed_frame, if_true]
      congr 2
      funext b
      by_cases hb : b = h.next_frame <;> simp [hb]
    · simp [Heap.setFrame, mix_videoframe_init]
  · intro q hq; simp [hq]
  · intro a ha; simp [ha]

theorem initialize_loop_total (fuel : Nat) (obj : PoolPtr) (surfaces : Nat → Nat) (va : Nat) :
    ∀ (k i : Nat) (h : Heap),
      ∃ r, initialize_loop (fuel + 1) obj surfaces va k i h = some r := by
  intro k
  induction k with
  | zero => intro i h; exact ⟨_, rfl⟩
  | succ k ih =>
    intro i h
    cases hm : h.heap_left with
    | zero => exact ⟨_, initialize_loop_fail _ obj surfaces va k i h hm⟩
    | succ m =>
      obtain ⟨h1, e, _⟩ := initialize_loop_step fuel obj surfaces va k i h m hm
      rw [e]
      exact ih _ _

theorem initialize_loop_ok (fuel : Nat) (obj : PoolPtr) (surfaces : Nat → Nat) (va : Nat) :
    ∀ (k i : Nat) (h : Heap), k ≤ h.heap_left →
      ∃ h1, initialize_loop (fuel + 1) obj surfaces va k i h = some (true, h1) ∧
        h1.next_frame = h.next_frame + k ∧
        h1.pools obj =
          { h.pools obj with
            free_list := (h.pools obj).free_list ++ List.range' h.next_frame k } ∧
        (∀ q, q ≠ obj → h1.pools q = h.pools q) ∧
        (∀ a, a < h.next_frame → h1.frames a = h.frames a) ∧
        (∀ j, j < k → h1.frames (h.next_frame + j) =
          { refcount := 1, frame_id := surfaces (i + j), ci_frame_idx := i + j, timestamp := 0,
            discontinuity := false, pool := some obj, is_skipped := false,
            real_frame := none, sync_flag := false, frame_structure := VA_FRAME_PICTURE,
            va_display := va, frame_type := 0, displayorder := 0 }) := by
  intro k
  induction k with
  | zero =>
    intro i h _
    exact ⟨h, rfl, rfl, by simp, fun _ _ => rfl, fun _ _ => rfl,
      fun j hj => absurd hj (by omega)⟩
  | succ k ih =>
    intro i h hk
    obtain ⟨m, hm⟩ : ∃ m, h.heap_left = m + 1 := ⟨h.heap_left - 1, by omega⟩
    obtain ⟨h0, s1, s2, s3, s4, s5, s6, s7⟩ :=
      initialize_loop_step fuel obj surfaces va k i h m hm
    rw [s1]
    obtain ⟨h1, e1, e2, e3, e4, e5, e6⟩ := ih (i + 1) h0 (by omega)
    refine ⟨h1, e1, ?_, ?_, ?_, ?_, ?_⟩
    · rw [e2, s2]; omega
    · rw [e3, s4, s2]
      simp only [List.append_assoc, List.singleton_append]
      rfl
    · intro q hq
      rw [e4 q hq, s5 q hq]
    · intro a ha
      rw [e5 a (by omega), s6 a (by omega)]
    · intro j hj
      cases j with
      | zero =>
        rw [Nat.add_zero, Nat.add_zero, e5 _ (by omega), s7]
      | succ j =>
        have := e6 j (by omega)
        have e : h.next_frame + (j + 1) = h0.next_frame + j := by omega
        have e' : i + (j + 1) = i + 1 + j := by omega
        rw [e, e', this]

theorem initialize_loop_short (fuel : Nat) (obj : PoolPtr) (surfaces : Nat → Nat) (va : Nat) :
    ∀ (k i : Nat) (h : Heap), h.heap_left < k →
      ∃ h1, initialize_loop (fuel + 1) obj surfaces va k i h = some (false, h1) := by
  intro k
  induction k with
  | zero => intro i h hk; exact absurd hk (by omega)
  | succ k ih =>
    intro i h hk
    cases hm : h.heap_left with
    | zero => exact ⟨_, initialize_loop_fail _ obj surfaces va k i h hm⟩
    | succ m =>
      obtain ⟨h0, e, _, e3, _⟩ := initialize_loop_step fuel obj surfaces va k i h m hm
      rw [e]
      exact ih _ _ (by omega)

theorem initialize_loop_no_fuel (obj : PoolPtr) (surfaces : Nat → Nat) (va : Nat)
    (k i : Nat) (h : Heap) (r : Heap) :
    initialize_loop 0 obj surfaces va (k + 1) i h ≠ some (true, r) := by
  unfold initialize_loop
  cases hm : h.heap_left with
  | zero => simp [mix_videoframe_new, hm]
  | succ m => simp [mix_videoframe_new, hm, mix_videoframe_set_vadisplay]

/-! ## What initialize does -/

theorem initialize_ok (fuel : Nat) (h : Heap) (o : PoolPtr) (surfaces : Nat → Nat)
    (n va : Nat) (hfree : (h.pools o).free_list = []) (huse : (h.pools o).in_use_list = [])
    (hmem : n ≤ h.heap_left) :
    ∃ h1, mix_surfacepool_initialize (fuel + 1) h (some o) (some surfaces) n va
          = some (.SUCCESS, h1) ∧
      h1.pools o =
        { free_list := List.range' h.next_frame n, in_use_list := [],
          free_list_max_size := n, free_list_cur_size := n, high_water_mark := 0,
          initialized := true } ∧
      (∀ q, q ≠ o → h1.pools q = h.pools q) ∧
      (∀ a, a < h.next_frame → h1.frames a = h.frames a) ∧
      (∀ j, j < n → h1.frames (h.next_frame + j) =
        { refcount := 1, frame_id := surfaces j, ci_frame_idx := j, timestamp := 0,
          discontinuity := false, pool := some o, is_skipped := false,
          real_frame := none, sync_flag := false, frame_structure := VA_FRAME_PICTURE,
          va_display := va, frame_type := 0, displayorder := 0 }) := by
  by_cases hn : n = 0
  · subst hn
    refine ⟨h.setPool o
      { h.pools o with
        free_list := [], in_use_list := [], free_list_max_size := 0,
        free_list_cur_size := 0, high_water_mark := 0, initialized := true },
      ?_, ?_, ?_, ?_, ?_⟩
    · simp only [ mix_surfacepool_initialize, hfree, huse]
      simp only [ne_eq, not_true_eq_false, or_self, if_false, if_true]
    · simp
    · intro q hq; simp [hq]
    · intro a _; rfl
    · intro j hj; exact absurd hj (by omega)
  · obtain ⟨h1, e1, _, e3, e4, e5, e6⟩ := initialize_loop_ok fuel o surfaces va n 0 h hmem
    refine ⟨h1.setPool o
      { h1.pools o with
        in_use_list := [], free_list_max_size := n, free_list_cur_size := n,
        high_water_mark := 0, initialized := true },
      ?_, ?_, ?_, ?_, ?_⟩
    · simp only [ mix_surfacepool_initialize, hfree, huse, hn, e1]
      simp only [ne_eq, not_true_eq_false, or_self, if_false]
    · simp [e3, hfree]
    · intro q hq; simp [hq, e4 q hq]
    · intro a ha; simpa using e5 a ha
    · intro j hj; simpa using e6 j hj

theorem initialize_success (fuel : Nat) (h : Heap) (o : PoolPtr) (surfaces : Nat → Nat)
    (n va : Nat) (h1 : Heap)
    (hs : mix_surfacepool_initialize fuel h (some o) (some surfaces) n va
      = some (.SUCCESS, h1)) :
    h1.pools o =
        { free_list := List.range' h.next_frame n, in_use_list := [],
          free_list_max_size := n, free_list_cur_size := n, high_water_mark := 0,
          initialized := true } ∧
      (∀ q, q ≠ o → h1.pools q = h.pools q) ∧
      (∀ a, a < h.next_frame → h1.frames a = h.frames a) ∧
      (∀ j, j < n → h1.frames (h.next_frame + j) =
        { refcount := 1, frame_id := surfaces j, ci_frame_idx := j, timestamp := 0,
          discontinuity := false, pool := some o, is_skipped := false,
          real_frame := none, sync_flag := false, frame_structure := VA_FRAME_PICTURE,
          va_display := va, frame_type := 0, displayorder := 0 }) := by
  by_cases hg : (h.pools o).free_list ≠ [] ∨ (h.pools o).in_use_list ≠ []
  · simp [ mix_surfacepool_initialize, hg] at hs
  · have hfree : (h.pools o).free_list = [] := by
      by_contra c; exact hg (Or.inl c)
    have huse : (h.pools o).in_use_list = [] := by
      by_contra c; exact hg (Or.inr c)
    have key : ∀ f, mix_surfacepool_initialize (f + 1) h (some o) (some surfaces) n va
        = some (.SUCCESS, h1) → n ≤ h.heap_left := by
      intro f hf
      by_contra c
      have hn : n ≠ 0 := by omega
      obtain ⟨r, er⟩ := initialize_loop_short f o surfaces va n 0 h (by omega)
      simp [ mix_surfacepool_initialize, hg, hn, er] at hf
    cases fuel with
    | zero =>
      by_cases hn : n = 0
      · subst hn
        obtain ⟨h2, e, rest⟩ := initialize_ok 0 h o surfaces 0 va hfree huse (Nat.zero_le _)
        have : mix_surfacepool_initialize 0 h (some o) (some surfaces) 0 va
            = mix_surfacepool_initialize 1 h (some o) (some surfaces) 0 va := by
          simp [ mix_surfacepool_initialize]
        rw [this, e] at hs
        cases hs
        exact rest
      · obtain ⟨k, hk⟩ : ∃ k, n = k + 1 := ⟨n - 1, by omega⟩
        subst hk
        simp only [ mix_surfacepool_initialize, hg, hn, if_false] at hs
        cases hl : initialize_loop 0 o surfaces va (k + 1) 0 h with
        | none => rw [hl] at hs; cases hs
        | some r =>
          obtain ⟨b, h2⟩ := r
          cases b with
          | false => rw [hl] at hs; cases hs
          | true => exact absurd hl (initialize_loop_no_fuel o surfaces va k 0 h h2)
    | succ f =>
      obtain ⟨h2, e, rest⟩ := initialize_ok f h o surfaces n va hfree huse (key f hs)
      rw [e] at hs
      cases hs
      exact rest

/-! ## The pool object after get and after put -/

theorem get_pool (h : Heap) (o : PoolPtr) (slot : Option FramePtr) (element : FramePtr)
    (rest : List FramePtr)
    (hc : 1 < (h.pools o).free_list_cur_size) (hf : (h.pools o).free_list = element :: rest) :
    (mix_surfacepool_get h (some o) (some slot)).2.2.pools o =
      { h.pools o with
        free_list := rest
        in_use_list := (h.pools o).in_use_list ++ [element]
        free_list_cur_size := (h.pools o).free_list_cur_size - 1
        high_water_mark :=
          max (h.pools o).high_water_mark ((h.pools o).in_use_list.length + 1) } := by
  rw [get_result h o slot element rest hc hf]
  simp [mix_videoframe_ref, mix_params_ref]

theorem get_frames (h : Heap) (o : PoolPtr) (slot : Option FramePtr) (element : FramePtr)
    (rest : List FramePtr)
    (hc : 1 < (h.pools o).free_list_cur_size) (hf : (h.pools o).free_list = element :: rest)
    (a : FramePtr) :
    (mix_surfacepool_get h (some o) (some slot)).2.2.frames a =
      if a = element then
        { h.frames element with refcount := (h.frames element).refcount + 1 }
      else h.frames a := by
  rw [get_result h o slot element rest hc hf]
  simp [mix_videoframe_ref, mix_params_ref]

theorem put_pool (h : Heap) (o : PoolPtr) (f : FramePtr)
    (hf : f ∈ (h.pools o).in_use_list) :
    (mix_surfacepool_put h (some o) (some f)).2.pools o =
      { h.pools o with
        in_use_list := (h.pools o).in_use_list.erase f
        free_list := (h.pools o).free_list ++ [f]
        free_list_cur_size := (h.pools o).free_list_cur_size + 1 } := by
  rw [put_result h o f hf]
  simp

theorem put_frames (h : Heap) (o : PoolPtr) (f : FramePtr)
    (hf : f ∈ (h.pools o).in_use_list) (a : FramePtr) :
    (mix_surfacepool_put h (some o) (some f)).2.frames a =
      if a = f then { h.frames f with timestamp := 0 } else h.frames a := by
  rw [put_result h o f hf]
  simp

theorem put_free_length (h : Heap) (obj : Option PoolPtr) (frame : Option FramePtr)
    (p : PoolPtr) (hl : (h.pools p).free_list_cur_size = (h.pools p).free_list.length) :
    ((mix_surfacepool_put h obj frame).2.pools p).free_list_cur_size
      = ((mix_surfacepool_put h obj frame).2.pools p).free_list.length := by
  cases obj with
  | none => exact hl
  | some o =>
    cases frame with
    | none => exact hl
    | some f =>
      by_cases hp : p = o
      · subst hp
        by_cases hf : f ∈ (h.pools p).in_use_list
        · rw [put_pool h p f hf]; simp [hl]
        · rw [put_fail h p f hf]; exact hl
      · rw [put_other_pool h o p (some f) hp]; exact hl

theorem get_free_length (h : Heap) (obj : Option PoolPtr) (frame : Option (Option FramePtr))
    (p : PoolPtr) (hl : (h.pools p).free_list_cur_size = (h.pools p).free_list.length) :
    ((mix_surfacepool_get h obj frame).2.2.pools p).free_list_cur_size
      = ((mix_surfacepool_get h obj frame).2.2.pools p).free_list.length := by
  cases obj with
  | none => exact hl
  | some o =>
    cases frame with
    | none => exact hl
    | some slot =>
      by_cases hp : p = o
      · subst hp
        by_cases hc : (h.pools p).free_list_cur_size ≤ 1
        · rw [get_no_memory h p slot hc]; exact hl
        · have hc1 : 1 < (h.pools p).free_list_cur_size := Nat.not_le.mp hc
          cases hfl : (h.pools p).free_list with
          | nil => rw [get_fail h p slot hc1 hfl]; exact hl
          | cons e rest =>
            rw [get_pool h p slot e rest hc1 hfl]
            simp only
            rw [hl, hfl]
            simp
      · rw [get_other_pool h o p (some slot) hp]; exact hl

/-! ## Invariants of sequences of calls -/

theorem run_pool_calls_count (p : PoolPtr) :
    ∀ (calls : List PoolCall) (h : Heap),
      ((run_pool_calls calls h).pools p).free_list_cur_size
          + ((run_pool_calls calls h).pools p).in_use_list.length
        = (h.pools p).free_list_cur_size + (h.pools p).in_use_list.length := by
  intro calls
  induction calls with
  | nil => intro h; rfl
  | cons c cs ih =>
    intro h
    simp only [run_pool_calls]
    rw [ih]
    cases c with
    | get obj frame => exact (get_count h obj frame p).1
    | put obj frame => exact (put_count h obj frame p).1

theorem client_call_keeps (p : PoolPtr) (n : Nat) (c : ClientCall) (h h1 : Heap)
    (hrun : c.run h = some h1)
    (hQ : (h.pools p).free_list_cur_size + (h.pools p).in_use_list.length = n ∧
      1 ≤ (h.pools p).free_list_cur_size ∧
      (h.pools p).free_list_cur_size = (h.pools p).free_list.length) :
    (h1.pools p).free_list_cur_size + (h1.pools p).in_use_list.length = n ∧
      1 ≤ (h1.pools p).free_list_cur_size ∧
      (h1.pools p).free_list_cur_size = (h1.pools p).free_list.length := by
  cases c with
  | get obj frame =>
    simp only [ClientCall.run, Option.some.injEq] at hrun
    subst hrun
    exact ⟨by rw [(get_count h obj frame p).1]; exact hQ.1,
      (get_count h obj frame p).2 hQ.2.1, get_free_length h obj frame p hQ.2.2⟩
  | put obj frame =>
    simp only [ClientCall.run, Option.some.injEq] at hrun
    subst hrun
    exact ⟨by rw [(put_count h obj frame p).1]; exact hQ.1,
      le_trans hQ.2.1 (put_count h obj frame p).2, put_free_length h obj frame p hQ.2.2⟩
  | unref fuel obj =>
    simp only [ClientCall.run] at hrun
    refine unref_keeps_pool
      (fun pl => pl.free_list_cur_size + pl.in_use_list.length = n ∧
        1 ≤ pl.free_list_cur_size ∧ pl.free_list_cur_size = pl.free_list.length)
      p none ?_ fuel h obj h1 hrun hQ
    intro g q f _ hg
    exact ⟨by rw [(put_count g (some q) (some f) p).1]; exact hg.1,
      le_trans hg.2.1 (put_count g (some q) (some f) p).2,
      put_free_length g (some q) (some f) p hg.2.2⟩

theorem run_client_calls_keeps (p : PoolPtr) (n : Nat) :
    ∀ (calls : List ClientCall) (h h1 : Heap), run_client_calls calls h = some h1 →
      ((h.pools p).free_list_cur_size + (h.pools p).in_use_list.length = n ∧
        1 ≤ (h.pools p).free_list_cur_size ∧
        (h.pools p).free_list_cur_size = (h.pools p).free_list.length) →
      ((h1.pools p).free_list_cur_size + (h1.pools p).in_use_list.length = n ∧
        1 ≤ (h1.pools p).free_list_cur_size ∧
        (h1.pools p).free_list_cur_size = (h1.pools p).free_list.length) := by
  intro calls
  induction calls with
  | nil =>
    intro h h1 hrun hQ
    simp only [run_client_calls, Option.some.injEq] at hrun
    subst hrun
    exact hQ
  | cons c cs ih =>
    intro h h1 hrun hQ
    simp only [run_client_calls] at hrun
    cases hc : c.run h with
    | none => rw [hc] at hrun; cases hrun
    | some h2 =>
      rw [hc] at hrun
      exact ih h2 h1 hrun (client_call_keeps p n c h h2 hc hQ)

theorem get_step (h : Heap) (o : PoolPtr) (slot : Option FramePtr) (e : FramePtr)
    (rest use : List FramePtr) (m c w : Nat) (i : Bool)
    (hp : h.pools o =
      { free_list := e :: rest, in_use_list := use, free_list_max_size := m,
        free_list_cur_size := c + 2, high_water_mark := w, initialized := i }) :
    ∃ h1, mix_surfacepool_get h (some o) (some slot) = (.SUCCESS, some e, h1) ∧
      h1.pools o =
        { free_list := rest, in_use_list := use ++ [e], free_list_max_size := m,
          free_list_cur_size := c + 1, high_water_mark := max w (use.length + 1),
          initialized := i } := by
  have hc : 1 < (h.pools o).free_list_cur_size := by rw [hp]; simp
  have hf : (h.pools o).free_list = e :: rest := by rw [hp]
  refine ⟨_, get_result h o slot e rest hc hf, ?_⟩
  have := get_pool h o slot e rest hc hf
  rw [get_result h o slot e rest hc hf] at this
  rw [this, hp]
  simp

/-! ## The claims -/

/-- C1: in every store reached from a successful initialize of pool `p` with
`n` surfaces by any finite sequence of get and put calls (on any pool, with any
arguments, successful or failing), the free count of `p` plus the length of its
in-use list is `n`. -/
theorem free_count_plus_in_use (fuel : Nat) (h0 : Heap) (p : PoolPtr) (surfaces : Nat → Nat)
    (n va : Nat) (h1 : Heap)
    (hinit : mix_surfacepool_initialize fuel h0 (some p) (some surfaces) n va
      = some (.SUCCESS, h1))
    (calls : List PoolCall) :
    ((run_pool_calls calls h1).pools p).free_list_cur_size
        + ((run_pool_calls calls h1).pools p).in_use_list.length = n := by
  rw [run_pool_calls_count p calls h1, (initialize_success fuel h0 p surfaces n va h1 hinit).1]
  simp

theorem free_count_plus_in_use_witness :
    mix_surfacepool_initialize 1 empty_heap (some 0) (some (fun i => 100 + i)) 4 7
        = some (.SUCCESS, four_heap) ∧
      ((run_pool_calls sample_pool_calls four_heap).pools 0).free_list_cur_size
        + ((run_pool_calls sample_pool_calls four_heap).pools 0).in_use_list.length = 4 :=
  ⟨rfl, free_count_plus_in_use 1 empty_heap 0 (fun i => 100 + i) 4 7 four_heap rfl
    sample_pool_calls⟩

/-- C2: for `n ≥ 1`, in every store reached from a successful initialize of
pool `p` with `n` surfaces by any finite sequence of get, put and unref calls
that return, the in-use list of `p` holds at most `n - 1` frames, and its free
list is never empty: the last free frame is never lent. -/
theorem at_most_all_but_one_lent (fuel : Nat) (h0 : Heap) (p : PoolPtr)
    (surfaces : Nat → Nat) (n va : Nat) (h1 : Heap) (hn : 1 ≤ n)
    (hinit : mix_surfacepool_initialize fuel h0 (some p) (some surfaces) n va
      = some (.SUCCESS, h1))
    (calls : List ClientCall) (h : Heap) (hrun : run_client_calls calls h1 = some h) :
    (h.pools p).in_use_list.length ≤ n - 1 ∧ (h.pools p).free_list ≠ [] := by
  have hp := (initialize_success fuel h0 p surfaces n va h1 hinit).1
  have hQ := run_client_calls_keeps p n calls h1 h hrun
    (by rw [hp]; simp; exact hn)
  refine ⟨by omega, ?_⟩
  intro hnil
  have := hQ.2.2
  rw [hnil] at this
  simp at this
  omega

theorem at_most_all_but_one_lent_witness :
    1 ≤ 4 ∧
      mix_surfacepool_initialize 1 empty_heap (some 0) (some (fun i => 100 + i)) 4 7
        = some (.SUCCESS, four_heap) ∧
      run_client_calls sample_client_calls four_heap
        = some ((run_client_calls sample_client_calls four_heap).getD empty_heap) ∧
      (((run_client_calls sample_client_calls four_heap).getD empty_heap).pools 0
        ).in_use_list.length ≤ 4 - 1 ∧
      (((run_client_calls sample_client_calls four_heap).getD empty_heap).pools 0
        ).free_list ≠ [] :=
  ⟨by decide, rfl, rfl,
    at_most_all_but_one_lent 1 empty_heap 0 (fun i => 100 + i) 4 7 four_heap (by decide) rfl
      sample_client_calls _ rfl⟩

/-- C3: with non-null arguments, get returns `MIX_RESULT_NO_MEMORY` exactly
when the free count is at most 1, and then nothing changes: not the lists, not
the counters, not a reference count (the store is the same).  After an
initialize with 4 surfaces three gets succeed, the fourth returns
`MIX_RESULT_NO_MEMORY`, and once any one of the three lent frames is put back
the next get succeeds. -/
theorem get_no_memory_iff_reserve :
    (∀ (h : Heap) (o : PoolPtr) (slot : Option FramePtr),
      ((mix_surfacepool_get h (some o) (some slot)).1 = .NO_MEMORY ↔
        (h.pools o).free_list_cur_size ≤ 1) ∧
      ((h.pools o).free_list_cur_size ≤ 1 →
        (mix_surfacepool_get h (some o) (some slot)).2.2 = h ∧
        (mix_surfacepool_get h (some o) (some slot)).2.2.pools o = h.pools o ∧
        ∀ a, ((mix_surfacepool_get h (some o) (some slot)).2.2.frames a).refcount
          = (h.frames a).refcount)) ∧
    (∀ (fuel : Nat) (h0 : Heap) (p : PoolPtr) (surfaces : Nat → Nat) (va : Nat),
      (h0.pools p).free_list = [] → (h0.pools p).in_use_list = [] → 4 ≤ h0.heap_left →
      ∃ h1 f1 h2 f2 h3 f3 h4,
        mix_surfacepool_initialize (fuel + 1) h0 (some p) (some surfaces) 4 va
          = some (.SUCCESS, h1) ∧
        mix_surfacepool_get h1 (some p) (some none) = (.SUCCESS, some f1, h2) ∧
        mix_surfacepool_get h2 (some p) (some none) = (.SUCCESS, some f2, h3) ∧
        mix_surfacepool_get h3 (some p) (some none) = (.SUCCESS, some f3, h4) ∧
        (mix_surfacepool_get h4 (some p) (some none)).1 = .NO_MEMORY ∧
        ∀ f, f = f1 ∨ f = f2 ∨ f = f3 →
          (mix_surfacepool_put h4 (some p) (some f)).1 = .SUCCESS ∧
          (mix_surfacepool_get (mix_surfacepool_put h4 (some p) (some f)).2
            (some p) (some none)).1 = .SUCCESS) := by
  constructor
  · intro h o slot
    constructor
    · constructor
      · intro hr
        by_contra hc
        have hc1 : 1 < (h.pools o).free_list_cur_size := Nat.not_le.mp hc
        cases hfl : (h.pools o).free_list with
        | nil => rw [get_fail h o slot hc1 hfl] at hr; cases hr
        | cons e rest => rw [get_result h o slot e rest hc1 hfl] at hr; cases hr
      · intro hc
        rw [get_no_memory h o slot hc]
    · intro hc
      rw [get_no_memory h o slot hc]
      exact ⟨rfl, rfl, fun _ => rfl⟩
  · intro fuel h0 p surfaces va hfree huse hmem
    obtain ⟨h1, e1, p1, _, _, _⟩ := initialize_ok fuel h0 p surfaces 4 va hfree huse hmem
    have r4 : List.range' h0.next_frame 4 =
        [h0.next_frame, h0.next_frame + 1, h0.next_frame + 2, h0.next_frame + 3] := rfl
    rw [r4] at p1
    obtain ⟨h2, g1, p2⟩ := get_step h1 p none _ _ _ _ 2 _ _ p1
    obtain ⟨h3, g2, p3⟩ := get_step h2 p none _ _ _ _ 1 _ _ p2
    obtain ⟨h4, g3, p4⟩ := get_step h3 p none _ _ _ _ 0 _ _ p3
    refine ⟨h1, _, h2, _, h3, _, h4, e1, g1, g2, g3, ?_, ?_⟩
    · rw [get_no_memory h4 p none (by rw [p4])]
    · intro f hf
      have hmem : f ∈ (h4.pools p).in_use_list := by
        rw [p4]
        rcases hf with hf | hf | hf <;> subst hf <;> simp
      have p5 := put_pool h4 p f hmem
      rw [p4] at p5
      constructor
      · rw [put_result h4 p f hmem]
      · obtain ⟨h6, g6, _⟩ := get_step _ p none _ _ _ _ 0 _ _ p5
        rw [g6]

theorem get_no_memory_iff_reserve_witness :
    ((empty_heap.pools 0).free_list_cur_size ≤ 1 ∧
      (mix_surfacepool_get empty_heap (some 0) (some none)).1 = .NO_MEMORY) ∧
    ((empty_heap.pools 0).free_list = [] ∧ (empty_heap.pools 0).in_use_list = [] ∧
      4 ≤ empty_heap.heap_left ∧
      ∃ h1 f1 h2 f2 h3 f3 h4,
        mix_surfacepool_initialize (0 + 1) empty_heap (some 0) (some (fun i => 100 + i)) 4 7
          = some (.SUCCESS, h1) ∧
        mix_surfacepool_get h1 (some 0) (some none) = (.SUCCESS, some f1, h2) ∧
        mix_surfacepool_get h2 (some 0) (some none) = (.SUCCESS, some f2, h3) ∧
        mix_surfacepool_get h3 (some 0) (some none) = (.SUCCESS, some f3, h4) ∧
        (mix_surfacepool_get h4 (some 0) (some none)).1 = .NO_MEMORY ∧
        ∀ f, f = f1 ∨ f = f2 ∨ f = f3 →
          (mix_surfacepool_put h4 (some 0) (some f)).1 = .SUCCESS ∧
          (mix_surfacepool_get (mix_surfacepool_put h4 (some 0) (some f)).2
            (some 0) (some none)).1 = .SUCCESS) :=
  ⟨⟨by decide, (get_no_memory_iff_reserve.1 empty_heap 0 none).1.2 (by decide)⟩,
    rfl, rfl, by decide,
    get_no_memory_iff_reserve.2 0 empty_heap 0 (fun i => 100 + i) 7 rfl rfl (by decide)⟩

/-- C4: when the free count of a pool is above 1 and its free list is not
empty (`element` is its head, `rest` what follows), get succeeds and returns
`element`; the free list becomes `rest`, the in-use list gets `element`
appended at its end, the free count goes down by exactly 1, the reference
count of `element` goes up by exactly 1, the high water mark becomes the
maximum of its old value and the new length of the in-use list, and the
capacity stays. -/
theorem get_moves_head (h : Heap) (o : PoolPtr) (slot : Option FramePtr)
    (element : FramePtr) (rest : List FramePtr)
    (hc : 1 < (h.pools o).free_list_cur_size)
    (hf : (h.pools o).free_list = element :: rest) :
    (mix_surfacepool_get h (some o) (some slot)).1 = .SUCCESS ∧
    (mix_surfacepool_get h (some o) (some slot)).2.1 = some element ∧
    ((mix_surfacepool_get h (some o) (some slot)).2.2.pools o).free_list = rest ∧
    ((mix_surfacepool_get h (some o) (some slot)).2.2.pools o).in_use_list
      = (h.pools o).in_use_list ++ [element] ∧
    ((mix_surfacepool_get h (some o) (some slot)).2.2.pools o).free_list_cur_size + 1
      = (h.pools o).free_list_cur_size ∧
    ((mix_surfacepool_get h (some o) (some slot)).2.2.frames element).refcount
      = (h.frames element).refcount + 1 ∧
    ((mix_surfacepool_get h (some o) (some slot)).2.2.pools o).high_water_mark
      = max (h.pools o).high_water_mark
          ((mix_surfacepool_get h (some o) (some slot)).2.2.pools o).in_use_list.length ∧
    ((mix_surfacepool_get h (some o) (some slot)).2.2.pools o).free_list_max_size
      = (h.pools o).free_list_max_size := by
  have hp := get_pool h o slot element rest hc hf
  have hfr := get_frames h o slot element rest hc hf element
  rw [hp, hfr]
  rw [get_result h o slot element rest hc hf]
  simp only [if_true, List.length_append, List.length_singleton]
  refine ⟨trivial, trivial, trivial, trivial, by omega, trivial, trivial, trivial⟩

theorem get_moves_head_witness :
    1 < (four_heap.pools 0).free_list_cur_size ∧
    (four_heap.pools 0).free_list = 1 :: [2, 3, 4] ∧
    (mix_surfacepool_get four_heap (some 0) (some none)).1 = .SUCCESS ∧
    (mix_surfacepool_get four_heap (some 0) (some none)).2.1 = some 1 ∧
    ((mix_surfacepool_get four_heap (some 0) (some none)).2.2.pools 0).free_list = [2, 3, 4] ∧
    ((mix_surfacepool_get four_heap (some 0) (some none)).2.2.pools 0).in_use_list
      = (four_heap.pools 0).in_use_list ++ [1] ∧
    ((mix_surfacepool_get four_heap (some 0) (some none)).2.2.pools 0).free_list_cur_size + 1
      = (four_heap.pools 0).free_list_cur_size ∧
    ((mix_surfacepool_get four_heap (some 0) (some none)).2.2.frames 1).refcount
      = (four_heap.frames 1).refcount + 1 ∧
    ((mix_surfacepool_get four_heap (some 0) (some none)).2.2.pools 0).high_water_mark
      = max (four_heap.pools 0).high_water_mark
          ((mix_surfacepool_get four_heap (some 0) (some none)).2.2.pools 0).in_use_list.length ∧
    ((mix_surfacepool_get four_heap (some 0) (some none)).2.2.pools 0).free_list_max_size
      = (four_heap.pools 0).free_list_max_size :=
  ⟨by decide, by decide,
    get_moves_head four_heap 0 none 1 [2, 3, 4] (by decide) (by decide)⟩

/-- C5: when `frame` is not in the in-use list of the pool (the list may be
empty; the frame may have been put back already), put returns
`MIX_RESULT_FAIL` and changes nothing: the store is the same, so the free
count, the capacity, the high water mark, both lists and the timestamp of the
frame are what they were. -/
theorem put_of_unlent_frame_fails (h : Heap) (o : PoolPtr) (frame : FramePtr)
    (hf : frame ∉ (h.pools o).in_use_list) :
    (mix_surfacepool_put h (some o) (some frame)).1 = .FAIL ∧
    (mix_surfacepool_put h (some o) (some frame)).2 = h ∧
    (mix_surfacepool_put h (some o) (some frame)).2.pools o = h.pools o ∧
    ((mix_surfacepool_put h (some o) (some frame)).2.frames frame).timestamp
      = (h.frames frame).timestamp := by
  rw [put_fail h o frame hf]
  exact ⟨rfl, rfl, rfl, rfl⟩

theorem put_of_unlent_frame_fails_witness :
    1 ∉ (four_heap.pools 0).in_use_list ∧
    (mix_surfacepool_put four_heap (some 0) (some 1)).1 = .FAIL ∧
    (mix_surfacepool_put four_heap (some 0) (some 1)).2 = four_heap ∧
    (mix_surfacepool_put four_heap (some 0) (some 1)).2.pools 0 = four_heap.pools 0 ∧
    ((mix_surfacepool_put four_heap (some 0) (some 1)).2.frames 1).timestamp
      = (four_heap.frames 1).timestamp :=
  ⟨by decide, put_of_unlent_frame_fails four_heap 0 1 (by decide)⟩

/-- C6: when `frame` is in the in-use list of the pool, put succeeds; one
occurrence of `frame` (the first) leaves the in-use list, the others keep
their order, so `frame` is no longer in it when it was there once; `frame` is
appended at the end of the free list, its timestamp becomes 0 and the free
count goes up by exactly 1.  The reference count, surface id and index of the
frame, and the capacity and high water mark of the pool stay. -/
theorem put_moves_frame_back (h : Heap) (o : PoolPtr) (frame : FramePtr)
    (hf : frame ∈ (h.pools o).in_use_list) :
    (mix_surfacepool_put h (some o) (some frame)).1 = .SUCCESS ∧
    ((mix_surfacepool_put h (some o) (some frame)).2.pools o).in_use_list
      = (h.pools o).in_use_list.erase frame ∧
    ((h.pools o).in_use_list.Nodup →
      frame ∉ ((mix_surfacepool_put h (some o) (some frame)).2.pools o).in_use_list) ∧
    ((mix_surfacepool_put h (some o) (some frame)).2.pools o).free_list
      = (h.pools o).free_list ++ [frame] ∧
    ((mix_surfacepool_put h (some o) (some frame)).2.frames frame).timestamp = 0 ∧
    ((mix_surfacepool_put h (some o) (some frame)).2.pools o).free_list_cur_size
      = (h.pools o).free_list_cur_size + 1 ∧
    ((mix_surfacepool_put h (some o) (some frame)).2.frames frame).refcount
      = (h.frames frame).refcount ∧
    ((mix_surfacepool_put h (some o) (some frame)).2.frames frame).frame_id
      = (h.frames frame).frame_id ∧
    ((mix_surfacepool_put h (some o) (some frame)).2.frames frame).ci_frame_idx
      = (h.frames frame).ci_frame_idx ∧
    ((mix_surfacepool_put h (some o) (some frame)).2.pools o).free_list_max_size
      = (h.pools o).free_list_max_size ∧
    ((mix_surfacepool_put h (some o) (some frame)).2.pools o).high_water_mark
      = (h.pools o).high_water_mark := by
  have hp := put_pool h o frame hf
  have hfr := put_frames h o frame hf frame
  rw [hp, hfr]
  rw [put_result h o frame hf]
  simp only [if_true]
  refine ⟨trivial, trivial, ?_, trivial, trivial, trivial, trivial, trivial, trivial, trivial,
    trivial⟩
  intro hnd
  exact List.Nodup.not_mem_erase hnd

theorem put_moves_frame_back_witness :
    1 ∈ ((mix_surfacepool_get four_heap (some 0) (some none)).2.2.pools 0).in_use_list ∧
    (mix_surfacepool_put (mix_surfacepool_get four_heap (some 0) (some none)).2.2
      (some 0) (some 1)).1 = .SUCCESS :=
  ⟨by decide,
    (put_moves_frame_back (mix_surfacepool_get four_heap (some 0) (some none)).2.2 0 1
      (by decide)).1⟩

/-- C8: on a pool whose two lists are empty, with a non-null array of `n`
surfaces (`n ≥ 0`) and every frame construction succeeding, initialize
succeeds.  Afterwards the free list holds exactly `n` frames, all different,
in input order, the `i`-th with surface id `surfaces i`, index `i`, pool
pointer this pool, the given display, reference count 1 and timestamp 0; the
in-use list is empty, capacity and free count are `n`, the high water mark is
0 and `initialized` is true. -/
theorem initialize_fills_free_list (fuel : Nat) (h : Heap) (o : PoolPtr)
    (surfaces : Nat → Nat) (n va : Nat)
    (hfree : (h.pools o).free_list = []) (huse : (h.pools o).in_use_list = [])
    (hmem : n ≤ h.heap_left) :
    ∃ h1, mix_surfacepool_initialize (fuel + 1) h (some o) (some surfaces) n va
          = some (.SUCCESS, h1) ∧
      (h1.pools o).free_list.length = n ∧ (h1.pools o).free_list.Nodup ∧
      (∀ i, i < n → ∃ a, (h1.pools o).free_list[i]? = some a ∧
        (h1.frames a).frame_id = surfaces i ∧ (h1.frames a).ci_frame_idx = i ∧
        (h1.frames a).pool = some o ∧ (h1.frames a).va_display = va ∧
        (h1.frames a).refcount = 1 ∧ (h1.frames a).timestamp = 0) ∧
      (h1.pools o).in_use_list = [] ∧ (h1.pools o).free_list_max_size = n ∧
      (h1.pools o).free_list_cur_size = n ∧ (h1.pools o).high_water_mark = 0 ∧
      (h1.pools o).initialized = true := by
  obtain ⟨h1, e, hp, _, _, hfr⟩ := initialize_ok fuel h o surfaces n va hfree huse hmem
  refine ⟨h1, e, ?_, ?_, ?_, ?_, ?_, ?_, ?_, ?_⟩
  · rw [hp]; simp
  · rw [hp]; exact List.nodup_range' _ _
  · intro i hi
    refine ⟨h.next_frame + i, ?_, ?_⟩
    · rw [hp]
      simp only
      rw [List.getElem?_range' _ _ hi]
      simp
    · rw [hfr i hi]
      exact ⟨rfl, rfl, rfl, rfl, rfl, rfl⟩
  all_goals rw [hp]

theorem initialize_fills_free_list_witness :
    (empty_heap.pools 0).free_list = [] ∧ (empty_heap.pools 0).in_use_list = [] ∧
    3 ≤ empty_heap.heap_left ∧
    ∃ h1, mix_surfacepool_initialize (0 + 1) empty_heap (some 0) (some (fun i => 100 + i)) 3 7
          = some (.SUCCESS, h1) ∧
      (h1.pools 0).free_list.length = 3 ∧ (h1.pools 0).free_list.Nodup ∧
      (∀ i, i < 3 → ∃ a, (h1.pools 0).free_list[i]? = some a ∧
        (h1.frames a).frame_id = (fun i => 100 + i) i ∧ (h1.frames a).ci_frame_idx = i ∧
        (h1.frames a).pool = some 0 ∧ (h1.frames a).va_display = 7 ∧
        (h1.frames a).refcount = 1 ∧ (h1.frames a).timestamp = 0) ∧
      (h1.pools 0).in_use_list = [] ∧ (h1.pools 0).free_list_max_size = 3 ∧
      (h1.pools 0).free_list_cur_size = 3 ∧ (h1.pools 0).high_water_mark = 0 ∧
      (h1.pools 0).initialized = true :=
  ⟨rfl, rfl, by decide,
    initialize_fills_free_list 0 empty_heap 0 (fun i => 100 + i) 3 7 rfl rfl (by decide)⟩

/-- C9: with a non-null pool and a non-null array, initialize returns (for any
fuel of at least 1), and it returns `MIX_RESULT_ALREADY_INIT` exactly when the
free list or the in-use list is not empty; the store is then unchanged.  The
guard reads the lists, not the `initialized` flag: on a pool that is
initialised but has both lists empty the result is not
`MIX_RESULT_ALREADY_INIT`. -/
theorem initialize_already_init_iff (fuel : Nat) (h : Heap) (o : PoolPtr)
    (surfaces : Nat → Nat) (n va : Nat) :
    ∃ r h1, mix_surfacepool_initialize (fuel + 1) h (some o) (some surfaces) n va
          = some (r, h1) ∧
      (r = .ALREADY_INIT ↔ ((h.pools o).free_list ≠ [] ∨ (h.pools o).in_use_list ≠ [])) ∧
      (r = .ALREADY_INIT → h1 = h) ∧
      ((h.pools o).initialized = true → (h.pools o).free_list = [] →
        (h.pools o).in_use_list = [] → r ≠ .ALREADY_INIT) := by
  by_cases hg : (h.pools o).free_list ≠ [] ∨ (h.pools o).in_use_list ≠ []
  · refine ⟨.ALREADY_INIT, h, ?_, ?_, ?_, ?_⟩
    · simp only [ mix_surfacepool_initialize, hg, if_true]
    · exact ⟨fun _ => hg, fun _ => rfl⟩
    · intro _; rfl
    · intro _ hf hu
      rcases hg with hg | hg
      · exact absurd hf hg
      · exact absurd hu hg
  · have key : ∃ r h1, mix_surfacepool_initialize (fuel + 1) h (some o) (some surfaces) n va
          = some (r, h1) ∧ r ≠ .ALREADY_INIT := by
      by_cases hn : n = 0
      · refine ⟨.SUCCESS, h.setPool o
          { free_list := [], in_use_list := [], free_list_max_size := 0,
            free_list_cur_size := 0, high_water_mark := 0, initialized := true },
          ?_, by decide⟩
        simp only [ mix_surfacepool_initialize, hg, hn, if_false, if_true]
      · obtain ⟨⟨b, h1⟩, e⟩ := initialize_loop_total fuel o surfaces va n 0 h
        cases b with
        | false =>
          refine ⟨.NO_MEMORY, h1, ?_, by decide⟩
          simp only [ mix_surfacepool_initialize, hg, hn, if_false, e]
        | true =>
          refine ⟨.SUCCESS, h1.setPool o
            { free_list := (h1.pools o).free_list, in_use_list := [], free_list_max_size := n,
              free_list_cur_size := n, high_water_mark := 0, initialized := true },
            ?_, by decide⟩
          simp only [ mix_surfacepool_initialize, hg, hn, if_false, e]
    obtain ⟨r, h1, e, hr⟩ := key
    refine ⟨r, h1, e, ?_, ?_, ?_⟩
    · exact ⟨fun c => absurd c hr, fun c => absurd c hg⟩
    · intro c; exact absurd c hr
    · intro _ _ _; exact hr

theorem initialize_already_init_iff_witness :
    ∃ r h1, mix_surfacepool_initialize (0 + 1) four_heap (some 0) (some (fun i => 100 + i)) 2 7
          = some (r, h1) ∧
      (r = .ALREADY_INIT ↔
        ((four_heap.pools 0).free_list ≠ [] ∨ (four_heap.pools 0).in_use_list ≠ [])) ∧
      (r = .ALREADY_INIT → h1 = four_heap) ∧
      ((four_heap.pools 0).initialized = true → (four_heap.pools 0).free_list = [] →
        (four_heap.pools 0).in_use_list = [] → r ≠ .ALREADY_INIT) :=
  initialize_already_init_iff 0 four_heap 0 (fun i => 100 + i) 2 7

/-! ## Lending: get followed by one unref -/

theorem release_result (p : PoolPtr) (fuel : Nat) (h : Heap) (f : FramePtr)
    (hrc : (h.frames f).refcount = 2) (hpool : (h.frames f).pool = some p)
    (hsk : (h.frames f).is_skipped = false) (hf : f ∈ (h.pools p).in_use_list) :
    ∃ h1, mix_videoframe_unref (fuel + 1) none h (some f) = some h1 ∧
      h1.pools p =
        { h.pools p with
          in_use_list := (h.pools p).in_use_list.erase f
          free_list := (h.pools p).free_list ++ [f]
          free_list_cur_size := (h.pools p).free_list_cur_size + 1 } ∧
      (∀ a, a ≠ f → h1.frames a = h.frames a) ∧
      h1.frames f =
        { h.frames f with
          refcount := 1, timestamp := 0, discontinuity := false, is_skipped := false,
          real_frame := none, sync_flag := false, frame_structure := VA_FRAME_PICTURE } := by
  refine ⟨_, unref_to_pool fuel none h f p hrc hsk hpool (by simp), ?_, ?_, ?_⟩
  · have hf1 : f ∈ ((mix_videoframe_reset h (some f)).2.pools p).in_use_list := hf
    rw [put_result _ p f hf1]
    simp [mix_params_unref, mix_videoframe_reset]
  · intro a ha
    have hf1 : f ∈ ((mix_videoframe_reset h (some f)).2.pools p).in_use_list := hf
    rw [put_result _ p f hf1]
    simp [mix_params_unref, mix_videoframe_reset, ha]
  · have hf1 : f ∈ ((mix_videoframe_reset h (some f)).2.pools p).in_use_list := hf
    rw [put_result _ p f hf1]
    simp [mix_params_unref, mix_videoframe_reset, hrc]

theorem put_setPool_comm (h : Heap) (o q : PoolPtr) (X : MixSurfacePool) (f : FramePtr)
    (hq : q ≠ o) :
    (mix_surfacepool_put (h.setPool o X) (some q) (some f)).2
      = (mix_surfacepool_put h (some q) (some f)).2.setPool o X := by
  have hpq : (h.setPool o X).pools q = h.pools q := by simp [hq]
  by_cases hf : f ∈ (h.pools q).in_use_list
  · rw [put_result h q f hf, put_result (h.setPool o X) q f (by rw [hpq]; exact hf), hpq]
    simp only [Heap.setPool, Heap.setFrame]
    congr 1
    funext b
    by_cases hb : b = q
    · subst hb; simp [hq]
    · simp [hb]
  · rw [put_fail h q f hf, put_fail (h.setPool o X) q f (by rw [hpq]; exact hf)]

theorem unref_under_lock_setPool (o : PoolPtr) (X : MixSurfacePool) :
    ∀ (fuel : Nat) (h : Heap) (obj : Option FramePtr),
      mix_videoframe_unref fuel (some o) (h.setPool o X) obj
        = (mix_videoframe_unref fuel (some o) h obj).map (fun h1 => h1.setPool o X) := by
  intro fuel
  induction fuel with
  | zero =>
    intro h obj
    cases obj with
    | none => simp [mix_videoframe_unref]
    | some a => simp [mix_videoframe_unref]
  | succ fuel ih =>
    intro h obj
    cases obj with
    | none => simp [mix_videoframe_unref]
    | some a =>
      have hfr : (h.setPool o X).frames a = h.frames a := rfl
      by_cases c1 : (h.frames a).refcount = 2 ∧ (h.frames a).is_skipped = false
      · cases hp : (h.frames a).pool with
        | none =>
          rw [unref_no_pool fuel _ h a c1.1 c1.2 hp,
            unref_no_pool fuel _ (h.setPool o X) a c1.1 c1.2 hp]
          rfl
        | some q =>
          by_cases hh : some o = some q
          · cases hh
            rw [unref_deadlock (fuel + 1) h a o c1.1 c1.2 hp,
              unref_deadlock (fuel + 1) (h.setPool o X) a o c1.1 c1.2 hp]
            rfl
          · have hq : q ≠ o := fun c => hh (by rw [c])
            rw [unref_to_pool fuel _ h a q c1.1 c1.2 hp hh,
              unref_to_pool fuel _ (h.setPool o X) a q c1.1 c1.2 hp hh]
            have e : (mix_videoframe_reset (h.setPool o X) (some a)).2
                = (mix_videoframe_reset h (some a)).2.setPool o X := rfl
            rw [e, put_setPool_comm _ o q X a hq]
            rfl
      · by_cases c2 : (h.frames a).refcount = 1 ∧ (h.frames a).is_skipped = true
        · rw [unref_cascade fuel _ h a c2.1 c2.2,
            unref_cascade fuel _ (h.setPool o X) a c2.1 c2.2, hfr, ih]
          cases mix_videoframe_unref fuel (some o) h (h.frames a).real_frame <;> rfl
        · rw [unref_plain fuel _ h a c1 c2, unref_plain fuel _ (h.setPool o X) a c1 c2]
          rfl

theorem unref_under_lock_pool (o : PoolPtr) (fuel : Nat) (h : Heap) (obj : Option FramePtr)
    (h1 : Heap) (hu : mix_videoframe_unref fuel (some o) h obj = some h1) :
    h1.pools o = h.pools o := by
  refine unref_keeps_pool (fun pl => pl = h.pools o) o (some o) ?_ fuel h obj h1 hu rfl
  intro g q f hq hg
  have hne : o ≠ q := fun c => hq (by rw [c])
  rw [put_other_pool g q o (some f) hne]
  exact hg

theorem unref_each_fuel_le (held : Option PoolPtr) (fuel fuel1 : Nat) (hle : fuel ≤ fuel1) :
    ∀ (l : List FramePtr) (h h1 : Heap), unref_each fuel held l h = some h1 →
      unref_each fuel1 held l h = some h1 := by
  intro l
  induction l with
  | nil => intro h h1 hu; exact hu
  | cons f fs ih =>
    intro h h1 hu
    simp only [unref_each] at hu ⊢
    cases hr : mix_videoframe_unref fuel held h (some f) with
    | none => rw [hr] at hu; cases hu
    | some h2 =>
      rw [hr] at hu
      rw [unref_fuel_le held fuel fuel1 hle h (some f) h2 hr]
      exact ih h2 h1 hu

theorem unref_each_setPool (o : PoolPtr) (X : MixSurfacePool) (fuel : Nat) :
    ∀ (l : List FramePtr) (h : Heap),
      unref_each fuel (some o) l (h.setPool o X)
        = (unref_each fuel (some o) l h).map (fun h1 => h1.setPool o X) := by
  intro l
  induction l with
  | nil => intro h; rfl
  | cons f fs ih =>
    intro h
    simp only [unref_each]
    rw [unref_under_lock_setPool o X fuel h (some f)]
    cases mix_videoframe_unref fuel (some o) h (some f) with
    | none => rfl
    | some h2 => exact ih h2

theorem unref_each_pool (o : PoolPtr) (fuel : Nat) :
    ∀ (l : List FramePtr) (h h1 : Heap), unref_each fuel (some o) l h = some h1 →
      h1.pools o = h.pools o := by
  intro l
  induction l with
  | nil => intro h h1 hu; cases hu; rfl
  | cons f fs ih =>
    intro h h1 hu
    simp only [unref_each] at hu
    cases hr : mix_videoframe_unref fuel (some o) h (some f) with
    | none => rw [hr] at hu; cases hu
    | some h2 =>
      rw [hr] at hu
      rw [ih h2 h1 hu, unref_under_lock_pool o fuel h (some f) h2 hr]

theorem setPool_setPool (h : Heap) (o : PoolPtr) (A B : MixSurfacePool) :
    (h.setPool o A).setPool o B = h.setPool o B := by
  simp only [Heap.setPool]
  congr 1
  funext b
  by_cases hb : b = o <;> simp [hb]

theorem setPool_same (h : Heap) (o : PoolPtr) (A : MixSurfacePool) (hA : h.pools o = A) :
    h.setPool o A = h := by
  cases h with
  | mk frames pools next_frame heap_left =>
    simp only [Heap.setPool]
    congr 1
    funext b
    by_cases hb : b = o
    · subst hb; simp [← hA]
    · simp [hb]

theorem deinitialize_loop_nil (fuel : Nat) (o : PoolPtr) (h : Heap)
    (hfl : (h.pools o).free_list = []) :
    deinitialize_loop (fuel + 1) o h = some h := by
  rw [deinitialize_loop]
  simp only [hfl]

theorem deinitialize_loop_cons (fuel : Nat) (o : PoolPtr) (h : Heap) (f : FramePtr)
    (rest : List FramePtr) (h3 : Heap) (hfl : (h.pools o).free_list = f :: rest)
    (hu : mix_videoframe_unref fuel (some o) h (some f) = some h3) :
    deinitialize_loop (fuel + 1) o h
      = deinitialize_loop fuel o (h3.setPool o { h.pools o with free_list := rest }) := by
  have hp3 : h3.pools o = h.pools o := unref_under_lock_pool o fuel h (some f) h3 hu
  rw [deinitialize_loop]
  simp only [hfl, hu, hp3, List.tail_cons]

theorem deinitialize_loop_unrefs (o : PoolPtr) :
    ∀ (fuel : Nat) (h h1 : Heap), deinitialize_loop fuel o h = some h1 →
      ∃ h2, unref_each fuel (some o) (h.pools o).free_list h = some h2 ∧
        h1 = h2.setPool o { h.pools o with free_list := [] } := by
  intro fuel
  induction fuel with
  | zero => intro h h1 hl; simp [deinitialize_loop] at hl
  | succ fuel ih =>
    intro h h1 hl
    cases hfl : (h.pools o).free_list with
    | nil =>
      simp only [deinitialize_loop, hfl] at hl
      cases hl
      refine ⟨h, rfl, ?_⟩
      rw [setPool_same]
      rw [← hfl]
    | cons f rest =>
      simp only [deinitialize_loop, hfl] at hl
      cases hu : mix_videoframe_unref fuel (some o) h (some f) with
      | none => rw [hu] at hl; cases hl
      | some h3 =>
        rw [hu] at hl
        simp only at hl
        have hp3 : h3.pools o = h.pools o := unref_under_lock_pool o fuel h (some f) h3 hu
        rw [hp3, hfl] at hl
        simp only [List.tail_cons] at hl
        obtain ⟨h2, e2, e1⟩ := ih _ h1 hl
        simp only [setPool_pools, if_true] at e2 e1
        rw [unref_each_setPool] at e2
        cases he : unref_each fuel (some o) rest h3 with
        | none => rw [he] at e2; cases e2
        | some h4 =>
          rw [he] at e2
          simp only [Option.map_some', Option.some.injEq] at e2
          refine ⟨h4, ?_, ?_⟩
          · simp only [unref_each]
            rw [unref_more_fuel (some o) fuel h (some f) h3 hu]
            exact unref_each_fuel_le (some o) fuel (fuel + 1) (Nat.le_succ _) rest h3 h4 he
          · rw [e1, ← e2, setPool_setPool]

theorem unrefs_deinitialize_loop (o : PoolPtr) (fuel : Nat) :
    ∀ (l : List FramePtr) (h h2 : Heap), (h.pools o).free_list = l →
      unref_each fuel (some o) l h = some h2 →
      deinitialize_loop (fuel + l.length + 1) o h
        = some (h2.setPool o { h.pools o with free_list := [] }) := by
  intro l
  induction l with
  | nil =>
    intro h h2 hfl hu
    cases hu
    simp only [deinitialize_loop, hfl]
    rw [setPool_same]
    rw [← hfl]
  | cons f fs ih =>
    intro h h2 hfl hu
    simp only [unref_each] at hu
    cases hr : mix_videoframe_unref fuel (some o) h (some f) with
    | none => rw [hr] at hu; cases hu
    | some h3 =>
      rw [hr] at hu
      simp only at hu
      have hp3 : h3.pools o = h.pools o := unref_under_lock_pool o fuel h (some f) h3 hr
      have e : fuel + (f :: fs).length + 1 = (fuel + fs.length + 1) + 1 := by
        simp only [List.length_cons]; omega
      rw [e, deinitialize_loop_cons (fuel + fs.length + 1) o h f fs h3 hfl
        (unref_fuel_le (some o) fuel (fuel + fs.length + 1) (by omega) h (some f) h3 hr)]
      have := ih (h3.setPool o { h.pools o with free_list := fs })
        (h2.setPool o { h.pools o with free_list := fs }) (by simp)
        (by rw [unref_each_setPool, hu]; rfl)
      simp only [setPool_pools, if_true] at this ⊢
      rw [this, setPool_setPool]

theorem deinitialize_guard (fuel : Nat) (h : Heap) (o : PoolPtr)
    (hg : (h.pools o).in_use_list ≠ [] ∨
      (h.pools o).free_list.length ≠ (h.pools o).free_list_max_size) :
    mix_surfacepool_deinitialize fuel h (some o) = some (.FAIL, h) := by
  simp only [ mix_surfacepool_deinitialize, hg, if_true]

theorem deinitialize_of_loop (fuel : Nat) (h : Heap) (o : PoolPtr)
    (hg : ¬ ((h.pools o).in_use_list ≠ [] ∨
      (h.pools o).free_list.length ≠ (h.pools o).free_list_max_size)) :
    mix_surfacepool_deinitialize fuel h (some o)
      = (deinitialize_loop fuel o h).map (fun h1 =>
          (MIX_RESULT.SUCCESS, h1.setPool o
            { h1.pools o with
              free_list_max_size := 0, free_list_cur_size := 0, high_water_mark := 0 })) := by
  simp only [ mix_surfacepool_deinitialize, hg, if_false]
  cases deinitialize_loop fuel o h with
  | none => rfl
  | some h1 =>
    simp only [Option.map_some', setPool_pools, if_true, setPool_setPool]

theorem torn_down_of_loop (h h2 : Heap) (o : PoolPtr) (hp : h2.pools o = h.pools o) :
    (h2.setPool o { h.pools o with free_list := [] }).setPool o
      { (h2.setPool o { h.pools o with free_list := [] }).pools o with
        free_list_max_size := 0, free_list_cur_size := 0, high_water_mark := 0 }
      = torn_down h2 o := by
  simp only [torn_down, setPool_pools, if_true, setPool_setPool, hp]

theorem unref_self_alias (held : Option PoolPtr) :
    ∀ (fuel : Nat) (h : Heap) (a : FramePtr), (h.frames a).refcount = 1 →
      (h.frames a).is_skipped = true → (h.frames a).real_frame = some a →
      mix_videoframe_unref fuel held h (some a) = none := by
  intro fuel
  induction fuel with
  | zero => intro h a _ _ _; rfl
  | succ fuel ih =>
    intro h a hrc hsk hreal
    rw [unref_cascade fuel held h a hrc hsk, hreal, ih h a hrc hsk hreal]
    rfl

theorem unref_each_plain (held : Option PoolPtr) :
    ∀ (l : List FramePtr) (h : Heap),
      (∀ a, a ∈ l → (h.frames a).refcount ≤ 1 ∧ (h.frames a).is_skipped = false) →
      ∃ h2, unref_each 1 held l h = some h2 := by
  intro l
  induction l with
  | nil => intro h _; exact ⟨h, rfl⟩
  | cons f fs ih =>
    intro h hl
    have hf := hl f (List.mem_cons_self _ _)
    have c1 : ¬ ((h.frames f).refcount = 2 ∧ (h.frames f).is_skipped = false) := by
      intro c; have := hf.1; omega
    have c2 : ¬ ((h.frames f).refcount = 1 ∧ (h.frames f).is_skipped = true) := by
      intro c; rw [hf.2] at c; exact absurd c.2 (by decide)
    simp only [unref_each]
    rw [unref_plain 0 held h f c1 c2]
    apply ih
    intro a ha
    have hfa := hl a (List.mem_cons_of_mem _ ha)
    by_cases e : a = f
    · subst e
      simp only [mix_params_unref, setFrame_frames, if_true]
      exact ⟨by omega, hfa.2⟩
    · simp only [mix_params_unref, setFrame_frames, if_neg e]
      exact hfa

/-- C10, what the code does not do: pool 0 of `self_alias_heap` has an empty
in-use list and a free list as long as its capacity, so deinitialize does not
refuse; but its free list holds a skipped frame that stands for itself, the
unref of that frame calls itself without end, and deinitialize returns
nothing, whatever the fuel. -/
theorem deinitialize_self_alias_never_returns :
    (self_alias_heap.pools 0).in_use_list = [] ∧
    (self_alias_heap.pools 0).free_list.length
      = (self_alias_heap.pools 0).free_list_max_size ∧
    ¬ ∃ fuel r, mix_surfacepool_deinitialize fuel self_alias_heap (some 0) = some r := by
  refine ⟨by decide, by decide, ?_⟩
  rintro ⟨fuel, r, hr⟩
  have hg : ¬ ((self_alias_heap.pools 0).in_use_list ≠ [] ∨
      (self_alias_heap.pools 0).free_list.length
        ≠ (self_alias_heap.pools 0).free_list_max_size) := by decide
  rw [deinitialize_of_loop fuel self_alias_heap 0 hg] at hr
  cases hl : deinitialize_loop fuel 0 self_alias_heap with
  | none => rw [hl] at hr; cases hr
  | some h1 =>
    obtain ⟨h2, hu, _⟩ := deinitialize_loop_unrefs 0 fuel self_alias_heap h1 hl
    have hfl : (self_alias_heap.pools 0).free_list = [2, 1] := by decide
    rw [hfl] at hu
    simp only [unref_each] at hu
    cases fuel with
    | zero => simp [mix_videoframe_unref] at hu
    | succ fuel =>
      have c1 : ¬ ((self_alias_heap.frames 2).refcount = 2 ∧
          (self_alias_heap.frames 2).is_skipped = false) := by decide
      have c2 : ¬ ((self_alias_heap.frames 2).refcount = 1 ∧
          (self_alias_heap.frames 2).is_skipped = true) := by decide
      rw [unref_plain fuel (some 0) self_alias_heap 2 c1 c2] at hu
      simp only at hu
      rw [unref_self_alias (some 0) (fuel + 1) (mix_params_unref self_alias_heap 2) 1
        (by decide) (by decide) (by decide)] at hu
      cases hu

/-- C10, amended: deinitialize returns `MIX_RESULT_FAIL` exactly when the
in-use list is not empty or the length of the free list differs from the
capacity, and then the store is unchanged.  Otherwise it applies unref once to
every frame of the free list, in list order, holding the pool's lock; if these
unrefs return, deinitialize succeeds and leaves both lists empty and capacity,
free count and high water mark 0, and it returns nothing else.  The unrefs do
return when no frame of the free list is marked skipped or has a reference
count above 1. -/
theorem deinitialize_fail_iff_else_unrefs (h : Heap) (o : PoolPtr) :
    (((h.pools o).in_use_list ≠ [] ∨
        (h.pools o).free_list.length ≠ (h.pools o).free_list_max_size) →
      ∀ fuel, mix_surfacepool_deinitialize fuel h (some o) = some (.FAIL, h)) ∧
    (∀ fuel r h1, mix_surfacepool_deinitialize fuel h (some o) = some (r, h1) →
      (r = .FAIL ↔ ((h.pools o).in_use_list ≠ [] ∨
        (h.pools o).free_list.length ≠ (h.pools o).free_list_max_size))) ∧
    (¬ ((h.pools o).in_use_list ≠ [] ∨
        (h.pools o).free_list.length ≠ (h.pools o).free_list_max_size) →
      (∀ fuel h2, unref_each fuel (some o) (h.pools o).free_list h = some h2 →
        mix_surfacepool_deinitialize (fuel + (h.pools o).free_list.length + 1) h (some o)
          = some (.SUCCESS, torn_down h2 o) ∧
        ((torn_down h2 o).pools o).free_list = [] ∧
        ((torn_down h2 o).pools o).in_use_list = [] ∧
        ((torn_down h2 o).pools o).free_list_max_size = 0 ∧
        ((torn_down h2 o).pools o).free_list_cur_size = 0 ∧
        ((torn_down h2 o).pools o).high_water_mark = 0) ∧
      (∀ fuel r h1, mix_surfacepool_deinitialize fuel h (some o) = some (r, h1) →
        r = .SUCCESS ∧
        ∃ h2, unref_each fuel (some o) (h.pools o).free_list h = some h2 ∧
          h1 = torn_down h2 o) ∧
      ((∀ a, a ∈ (h.pools o).free_list →
          (h.frames a).refcount ≤ 1 ∧ (h.frames a).is_skipped = false) →
        ∃ fuel h1, mix_surfacepool_deinitialize fuel h (some o) = some (.SUCCESS, h1))) := by
  have part3 : ¬ ((h.pools o).in_use_list ≠ [] ∨
        (h.pools o).free_list.length ≠ (h.pools o).free_list_max_size) →
      ∀ fuel h2, unref_each fuel (some o) (h.pools o).free_list h = some h2 →
        mix_surfacepool_deinitialize (fuel + (h.pools o).free_list.length + 1) h (some o)
          = some (.SUCCESS, torn_down h2 o) := by
    intro hg fuel h2 hu
    have hp2 : h2.pools o = h.pools o := unref_each_pool o fuel _ h h2 hu
    rw [deinitialize_of_loop _ h o hg,
      unrefs_deinitialize_loop o fuel (h.pools o).free_list h h2 rfl hu]
    simp only [Option.map_some']
    rw [torn_down_of_loop h h2 o hp2]
  refine ⟨fun hg fuel => deinitialize_guard fuel h o hg, ?_, ?_⟩
  · intro fuel r h1 hr
    by_cases hg : (h.pools o).in_use_list ≠ [] ∨
        (h.pools o).free_list.length ≠ (h.pools o).free_list_max_size
    · rw [deinitialize_guard fuel h o hg] at hr
      cases hr
      exact ⟨fun _ => hg, fun _ => rfl⟩
    · rw [deinitialize_of_loop fuel h o hg] at hr
      cases hl : deinitialize_loop fuel o h with
      | none => rw [hl] at hr; cases hr
      | some h3 =>
        rw [hl] at hr
        cases hr
        exact ⟨fun c => MIX_RESULT.noConfusion c, fun c => absurd c hg⟩
  · intro hg
    refine ⟨?_, ?_, ?_⟩
    · intro fuel h2 hu
      have hp2 : h2.pools o = h.pools o := unref_each_pool o fuel _ h h2 hu
      have huse : (h.pools o).in_use_list = [] := by
        by_contra c; exact hg (Or.inl c)
      refine ⟨part3 hg fuel h2 hu, ?_, ?_, ?_, ?_, ?_⟩
      · simp [torn_down]
      · simp [torn_down, hp2, huse]
      · simp [torn_down]
      · simp [torn_down]
      · simp [torn_down]
    · intro fuel r h1 hr
      rw [deinitialize_of_loop fuel h o hg] at hr
      cases hl : deinitialize_loop fuel o h with
      | none => rw [hl] at hr; cases hr
      | some h3 =>
        rw [hl] at hr
        obtain ⟨h2, hu, e⟩ := deinitialize_loop_unrefs o fuel h h3 hl
        have hp2 : h2.pools o = h.pools o := unref_each_pool o fuel _ h h2 hu
        simp only [Option.map_some', Option.some.injEq, Prod.mk.injEq] at hr
        refine ⟨hr.1.symm, h2, hu, ?_⟩
        rw [← hr.2, e, torn_down_of_loop h h2 o hp2]
    · intro hl
      obtain ⟨h2, hu⟩ := unref_each_plain (some o) (h.pools o).free_list h hl
      exact ⟨_, _, part3 hg 1 h2 hu⟩

theorem deinitialize_fail_iff_else_unrefs_witness :
    (¬ ((four_heap.pools 0).in_use_list ≠ [] ∨
        (four_heap.pools 0).free_list.length ≠ (four_heap.pools 0).free_list_max_size)) ∧
    (∀ a, a ∈ (four_heap.pools 0).free_list →
      (four_heap.frames a).refcount ≤ 1 ∧ (four_heap.frames a).is_skipped = false) ∧
    ∃ fuel h1, mix_surfacepool_deinitialize fuel four_heap (some 0) = some (.SUCCESS, h1) :=
  ⟨by decide, by decide,
    ((deinitialize_fail_iff_else_unrefs four_heap 0).2.2 (by decide)).2.2 (by decide)⟩

/-! ## What one call of get by index does -/

theorem compare_index_zero (h : Heap) (a : FramePtr) (in_frame : Option FramePtr) :
    mixframe_compare_index h (some a) in_frame = 0 ↔
      ∃ b, in_frame = some b ∧ (h.frames a).ci_frame_idx = (h.frames b).ci_frame_idx := by
  cases in_frame with
  | none => simp [mixframe_compare_index]
  | some b =>
    by_cases e : (h.frames a).ci_frame_idx = (h.frames b).ci_frame_idx
    · simp [mixframe_compare_index, e]
    · simp [mixframe_compare_index, e]

theorem get_by_index_no_memory (h : Heap) (o : PoolPtr) (slot : Option FramePtr)
    (in_frame : Option FramePtr) (hf : (h.pools o).free_list = []) :
    mix_surfacepool_get_frame_with_ci_frameidx h (some o) (some slot) in_frame
      = (.NO_MEMORY, slot, h) := by
  simp [mix_surfacepool_get_frame_with_ci_frameidx, hf]

theorem get_by_index_fail (h : Heap) (o : PoolPtr) (slot : Option FramePtr)
    (in_frame : Option FramePtr) (hf : (h.pools o).free_list ≠ [])
    (hnone : (h.pools o).free_list.find?
      (fun a => decide (mixframe_compare_index h (some a) in_frame = 0)) = none) :
    mix_surfacepool_get_frame_with_ci_frameidx h (some o) (some slot) in_frame
      = (.FAIL, slot, h) := by
  simp only [mix_surfacepool_get_frame_with_ci_frameidx, hf, if_false, hnone]

theorem get_by_index_result (h : Heap) (o : PoolPtr) (slot : Option FramePtr)
    (in_frame : Option FramePtr) (element : FramePtr)
    (hsome : (h.pools o).free_list.find?
      (fun a => decide (mixframe_compare_index h (some a) in_frame = 0)) = some element) :
    mix_surfacepool_get_frame_with_ci_frameidx h (some o) (some slot) in_frame =
      (.SUCCESS, some element,
        mix_videoframe_ref
          (h.setPool o
            { h.pools o with
              free_list := (h.pools o).free_list.erase element
              in_use_list := (h.pools o).in_use_list ++ [element]
              high_water_mark :=
                max (h.pools o).high_water_mark ((h.pools o).in_use_list.length + 1) })
          element) := by
  have hf : (h.pools o).free_list ≠ [] := List.ne_nil_of_mem (List.mem_of_find?_eq_some hsome)
  simp only [mix_surfacepool_get_frame_with_ci_frameidx, hf, if_false, hsome]
  simp only [setPool_pools, if_true, List.length_append, List.length_singleton]
  by_cases hw : (h.pools o).in_use_list.length + 1 > (h.pools o).high_water_mark
  · simp only [hw, if_true]
    have : max (h.pools o).high_water_mark ((h.pools o).in_use_list.length + 1)
        = (h.pools o).in_use_list.length + 1 := by omega
    rw [this]
    congr 3
    simp only [Heap.setPool]
    congr 1
    funext b
    by_cases hb : b = o <;> simp [hb]
  · simp only [hw, if_false]
    have : max (h.pools o).high_water_mark ((h.pools o).in_use_list.length + 1)
        = (h.pools o).high_water_mark := by omega
    rw [this]
    congr 3
    simp only [Heap.setPool]
    congr 1
    funext b
    by_cases hb : b = o <;> simp [hb]

theorem get_by_index_pool (h : Heap) (o : PoolPtr) (slot : Option FramePtr)
    (in_frame : Option FramePtr) (element : FramePtr)
    (hsome : (h.pools o).free_list.find?
      (fun a => decide (mixframe_compare_index h (some a) in_frame = 0)) = some element) :
    (mix_surfacepool_get_frame_with_ci_frameidx h (some o) (some slot) in_frame).2.2.pools o =
      { h.pools o with
        free_list := (h.pools o).free_list.erase element
        in_use_list := (h.pools o).in_use_list ++ [element]
        high_water_mark :=
          max (h.pools o).high_water_mark ((h.pools o).in_use_list.length + 1) } := by
  rw [get_by_index_result h o slot in_frame element hsome]
  simp [mix_videoframe_ref, mix_params_ref]

theorem get_by_index_frames (h : Heap) (o : PoolPtr) (slot : Option FramePtr)
    (in_frame : Option FramePtr) (element : FramePtr)
    (hsome : (h.pools o).free_list.find?
      (fun a => decide (mixframe_compare_index h (some a) in_frame = 0)) = some element)
    (a : FramePtr) :
    (mix_surfacepool_get_frame_with_ci_frameidx h (some o) (some slot) in_frame).2.2.frames a =
      if a = element then
        { h.frames element with refcount := (h.frames element).refcount + 1 }
      else h.frames a := by
  rw [get_by_index_result h o slot in_frame element hsome]
  simp [mix_videoframe_ref, mix_params_ref]

theorem get_by_index_other_pool (h : Heap) (o q : PoolPtr) (frame : Option (Option FramePtr))
    (in_frame : Option FramePtr) (hq : q ≠ o) :
    ((mix_surfacepool_get_frame_with_ci_frameidx h (some o) frame in_frame).2.2).pools q
      = h.pools q := by
  cases frame with
  | none => rfl
  | some slot =>
    by_cases hf : (h.pools o).free_list = []
    · rw [get_by_index_no_memory h o slot in_frame hf]
    · cases hfind : (h.pools o).free_list.find?
          (fun a => decide (mixframe_compare_index h (some a) in_frame = 0)) with
      | none => rw [get_by_index_fail h o slot in_frame hf hfind]
      | some e =>
        rw [get_by_index_result h o slot in_frame e hfind]
        simp [mix_videoframe_ref, mix_params_ref, hq]

/-! ## The claims on checking and on taking a frame by its index -/

/-- C11: on a non-null pool, check_available returns `MIX_RESULT_NOT_INIT`
when `initialized` is false, otherwise `MIX_RESULT_POOLEMPTY` when the free
count is at most 1, otherwise `MIX_RESULT_SUCCESS`; the store on return is the
store it was called in, so no field of the pool or of a frame changes. -/
theorem check_available_status (h : Heap) (o : PoolPtr) :
    ((h.pools o).initialized = false →
      (mix_surfacepool_check_available h (some o)).1 = .NOT_INIT) ∧
    ((h.pools o).initialized = true → (h.pools o).free_list_cur_size ≤ 1 →
      (mix_surfacepool_check_available h (some o)).1 = .POOLEMPTY) ∧
    ((h.pools o).initialized = true → 1 < (h.pools o).free_list_cur_size →
      (mix_surfacepool_check_available h (some o)).1 = .SUCCESS) ∧
    (mix_surfacepool_check_available h (some o)).2 = h := by
  refine ⟨?_, ?_, ?_, ?_⟩
  · intro hi
    simp [mix_surfacepool_check_available, hi]
  · intro hi hc
    simp [mix_surfacepool_check_available, hi, hc]
  · intro hi hc
    simp [mix_surfacepool_check_available, hi, Nat.not_le.mpr hc]
  · simp only [mix_surfacepool_check_available]
    split_ifs <;> rfl

theorem check_available_status_witness :
    ((empty_heap.pools 0).initialized = false ∧
      (mix_surfacepool_check_available empty_heap (some 0)).1 = .NOT_INIT) ∧
    ((two_heap.pools 0).initialized = true ∧
      ((mix_surfacepool_get two_heap (some 0) (some none)).2.2.pools 0).free_list_cur_size ≤ 1 ∧
      (mix_surfacepool_check_available (mix_surfacepool_get two_heap (some 0) (some none)).2.2
        (some 0)).1 = .POOLEMPTY) ∧
    ((four_heap.pools 0).initialized = true ∧ 1 < (four_heap.pools 0).free_list_cur_size ∧
      (mix_surfacepool_check_available four_heap (some 0)).1 = .SUCCESS) ∧
    (mix_surfacepool_check_available four_heap (some 0)).2 = four_heap :=
  ⟨⟨by decide, (check_available_status empty_heap 0).1 (by decide)⟩,
    ⟨by decide, by decide,
      (check_available_status (mix_surfacepool_get two_heap (some 0) (some none)).2.2 0).2.1
        (by decide) (by decide)⟩,
    ⟨by decide, by decide, (check_available_status four_heap 0).2.2.1 (by decide) (by decide)⟩,
    (check_available_status four_heap 0).2.2.2⟩

/-- C12: when the free list of the pool holds a frame with the index of the
probe frame, wherever it stands, get by index succeeds and returns the first
such frame (`element`, with `before` in front of it and `after` behind it);
the free list becomes `before ++ after`, the in-use list gets `element`
appended at its end, the reference count of `element` goes up by exactly 1,
and the high water mark becomes the maximum of its old value and the new
length of the in-use list. -/
theorem get_by_index_takes_first_match (h : Heap) (o : PoolPtr) (slot : Option FramePtr)
    (probe : FramePtr)
    (hex : ∃ a, a ∈ (h.pools o).free_list ∧
      (h.frames a).ci_frame_idx = (h.frames probe).ci_frame_idx) :
    ∃ element before after,
      (h.pools o).free_list = before ++ element :: after ∧
      (∀ b, b ∈ before → (h.frames b).ci_frame_idx ≠ (h.frames probe).ci_frame_idx) ∧
      (h.frames element).ci_frame_idx = (h.frames probe).ci_frame_idx ∧
      (mix_surfacepool_get_frame_with_ci_frameidx h (some o) (some slot) (some probe)).1
        = .SUCCESS ∧
      (mix_surfacepool_get_frame_with_ci_frameidx h (some o) (some slot) (some probe)).2.1
        = some element ∧
      ((mix_surfacepool_get_frame_with_ci_frameidx h (some o) (some slot)
        (some probe)).2.2.pools o).free_list = before ++ after ∧
      ((mix_surfacepool_get_frame_with_ci_frameidx h (some o) (some slot)
        (some probe)).2.2.pools o).in_use_list = (h.pools o).in_use_list ++ [element] ∧
      ((mix_surfacepool_get_frame_with_ci_frameidx h (some o) (some slot)
        (some probe)).2.2.frames element).refcount = (h.frames element).refcount + 1 ∧
      ((mix_surfacepool_get_frame_with_ci_frameidx h (some o) (some slot)
        (some probe)).2.2.pools o).high_water_mark
        = max (h.pools o).high_water_mark
            ((mix_surfacepool_get_frame_with_ci_frameidx h (some o) (some slot)
              (some probe)).2.2.pools o).in_use_list.length := by
  cases hfind : (h.pools o).free_list.find?
      (fun a => decide (mixframe_compare_index h (some a) (some probe) = 0)) with
  | none =>
    rw [List.find?_eq_none] at hfind
    obtain ⟨a, ha, hci⟩ := hex
    have := hfind a ha
    simp only [decide_eq_true_eq] at this
    exact absurd ((compare_index_zero h a (some probe)).mpr ⟨probe, rfl, hci⟩) this
  | some element =>
    obtain ⟨hp, before, after, hl, hb⟩ := List.find?_eq_some.mp hfind
    simp only [decide_eq_true_eq] at hp
    obtain ⟨b, hb1, hb2⟩ := (compare_index_zero h element (some probe)).mp hp
    cases hb1
    have hbefore : ∀ b, b ∈ before →
        (h.frames b).ci_frame_idx ≠ (h.frames probe).ci_frame_idx := by
      intro b hbm c
      have := hb b hbm
      simp only [Bool.not_eq_true', decide_eq_false_iff_not] at this
      exact this ((compare_index_zero h b (some probe)).mpr ⟨probe, rfl, c⟩)
    have hnot : element ∉ before := fun c => hbefore element c hb2
    have herase : (h.pools o).free_list.erase element = before ++ after := by
      rw [hl, List.erase_append_right _ hnot, List.erase_cons_head]
    have hpool := get_by_index_pool h o slot (some probe) element hfind
    have hfr := get_by_index_frames h o slot (some probe) element hfind element
    refine ⟨element, before, after, hl, hbefore, hb2, ?_, ?_, ?_, ?_, ?_, ?_⟩
    · rw [get_by_index_result h o slot (some probe) element hfind]
    · rw [get_by_index_result h o slot (some probe) element hfind]
    · rw [hpool]; exact herase
    · rw [hpool]
    · rw [hfr, if_pos rfl]
    · rw [hpool]; simp

theorem get_by_index_takes_first_match_witness :
    (∃ a, a ∈ (four_heap.pools 0).free_list ∧
      (four_heap.frames a).ci_frame_idx = (four_heap.frames 3).ci_frame_idx) ∧
    ∃ element before after,
      (four_heap.pools 0).free_list = before ++ element :: after ∧
      (∀ b, b ∈ before →
        (four_heap.frames b).ci_frame_idx ≠ (four_heap.frames 3).ci_frame_idx) ∧
      (four_heap.frames element).ci_frame_idx = (four_heap.frames 3).ci_frame_idx ∧
      (mix_surfacepool_get_frame_with_ci_frameidx four_heap (some 0) (some none) (some 3)).1
        = .SUCCESS ∧
      (mix_surfacepool_get_frame_with_ci_frameidx four_heap (some 0) (some none) (some 3)).2.1
        = some element ∧
      ((mix_surfacepool_get_frame_with_ci_frameidx four_heap (some 0) (some none)
        (some 3)).2.2.pools 0).free_list = before ++ after ∧
      ((mix_surfacepool_get_frame_with_ci_frameidx four_heap (some 0) (some none)
        (some 3)).2.2.pools 0).in_use_list = (four_heap.pools 0).in_use_list ++ [element] ∧
      ((mix_surfacepool_get_frame_with_ci_frameidx four_heap (some 0) (some none)
        (some 3)).2.2.frames element).refcount = (four_heap.frames element).refcount + 1 ∧
      ((mix_surfacepool_get_frame_with_ci_frameidx four_heap (some 0) (some none)
        (some 3)).2.2.pools 0).high_water_mark
        = max (four_heap.pools 0).high_water_mark
            ((mix_surfacepool_get_frame_with_ci_frameidx four_heap (some 0) (some none)
              (some 3)).2.2.pools 0).in_use_list.length :=
  ⟨⟨3, by decide, rfl⟩,
    get_by_index_takes_first_match four_heap 0 none 3 ⟨3, by decide, rfl⟩⟩

/-- C13: with a non-null pool and out pointer, get by index returns
`MIX_RESULT_NO_MEMORY` exactly when the free list is empty, whatever the free
count; it returns `MIX_RESULT_FAIL` when the free list is not empty and the
probe is `NULL` or no free frame has its index; in both cases the store is
unchanged.  There is no reserve: when the only frame of the free list has the
index of the probe, the call succeeds and returns it, whatever the free
count. -/
theorem get_by_index_failures (h : Heap) (o : PoolPtr) (slot : Option FramePtr)
    (in_frame : Option FramePtr) :
    ((mix_surfacepool_get_frame_with_ci_frameidx h (some o) (some slot) in_frame).1
        = .NO_MEMORY ↔ (h.pools o).free_list = []) ∧
    ((h.pools o).free_list = [] →
      (mix_surfacepool_get_frame_with_ci_frameidx h (some o) (some slot) in_frame).2.2 = h) ∧
    ((h.pools o).free_list ≠ [] →
      (in_frame = none ∨ ∀ b, in_frame = some b → ∀ a, a ∈ (h.pools o).free_list →
        (h.frames a).ci_frame_idx ≠ (h.frames b).ci_frame_idx) →
      mix_surfacepool_get_frame_with_ci_frameidx h (some o) (some slot) in_frame
        = (.FAIL, slot, h)) ∧
    (∀ a b, (h.pools o).free_list = [a] → in_frame = some b →
      (h.frames a).ci_frame_idx = (h.frames b).ci_frame_idx →
      (mix_surfacepool_get_frame_with_ci_frameidx h (some o) (some slot) in_frame).1
        = .SUCCESS ∧
      (mix_surfacepool_get_frame_with_ci_frameidx h (some o) (some slot) in_frame).2.1
        = some a ∧
      ((mix_surfacepool_get_frame_with_ci_frameidx h (some o) (some slot)
        in_frame).2.2.pools o).free_list = []) := by
  refine ⟨⟨?_, ?_⟩, ?_, ?_, ?_⟩
  · intro hr
    by_contra hf
    cases hfind : (h.pools o).free_list.find?
        (fun a => decide (mixframe_compare_index h (some a) in_frame = 0)) with
    | none => rw [get_by_index_fail h o slot in_frame hf hfind] at hr; cases hr
    | some e => rw [get_by_index_result h o slot in_frame e hfind] at hr; cases hr
  · intro hf
    rw [get_by_index_no_memory h o slot in_frame hf]
  · intro hf
    rw [get_by_index_no_memory h o slot in_frame hf]
  · intro hf hno
    apply get_by_index_fail h o slot in_frame hf
    rw [List.find?_eq_none]
    intro a ha
    simp only [decide_eq_true_eq]
    intro hz
    obtain ⟨b, hb1, hb2⟩ := (compare_index_zero h a in_frame).mp hz
    rcases hno with hno | hno
    · rw [hno] at hb1; cases hb1
    · exact hno b hb1 a ha hb2
  · intro a b hl hin hci
    have hfind : (h.pools o).free_list.find?
        (fun a => decide (mixframe_compare_index h (some a) in_frame = 0)) = some a := by
      rw [hl]
      apply List.find?_cons_of_pos
      simp only [decide_eq_true_eq]
      exact (compare_index_zero h a in_frame).mpr ⟨b, hin, hci⟩
    have hpool := get_by_index_pool h o slot in_frame a hfind
    rw [hpool, get_by_index_result h o slot in_frame a hfind, hl]
    simp

theorem get_by_index_failures_witness :
    ((empty_heap.pools 0).free_list = [] ∧
      (mix_surfacepool_get_frame_with_ci_frameidx empty_heap (some 0) (some none) (some 1)).2.2
        = empty_heap) ∧
    ((four_heap.pools 0).free_list ≠ [] ∧
      mix_surfacepool_get_frame_with_ci_frameidx four_heap (some 0) (some none) none
        = (.FAIL, none, four_heap)) ∧
    ((index_heap.pools 0).free_list = [2] ∧
      (index_heap.frames 2).ci_frame_idx = (index_heap.frames 2).ci_frame_idx ∧
      (mix_surfacepool_get_frame_with_ci_frameidx index_heap (some 0) (some none) (some 2)).1
        = .SUCCESS) :=
  ⟨⟨by decide, (get_by_index_failures empty_heap 0 none (some 1)).2.1 (by decide)⟩,
    ⟨by decide, (get_by_index_failures four_heap 0 none none).2.2.1 (by decide) (Or.inl rfl)⟩,
    ⟨by decide, rfl,
      ((get_by_index_failures index_heap 0 none (some 2)).2.2.2 2 2 (by decide) rfl rfl).1⟩⟩

/-! ## One step of a sequence of moves -/

theorem get_cases (h : Heap) (obj : Option PoolPtr) (frame : Option (Option FramePtr)) :
    (mix_surfacepool_get h obj frame).2.2 = h ∨
    ∃ o e rest, obj = some o ∧ (h.pools o).free_list = e :: rest ∧
      (mix_surfacepool_get h obj frame).2.2 =
        mix_videoframe_ref
          (h.setPool o
            { h.pools o with
              free_list := rest
              in_use_list := (h.pools o).in_use_list ++ [e]
              free_list_cur_size := (h.pools o).free_list_cur_size - 1
              high_water_mark :=
                max (h.pools o).high_water_mark ((h.pools o).in_use_list.length + 1) })
          e := by
  cases obj with
  | none => exact Or.inl rfl
  | some o =>
    cases frame with
    | none => exact Or.inl rfl
    | some slot =>
      by_cases hc : (h.pools o).free_list_cur_size ≤ 1
      · rw [get_no_memory h o slot hc]; exact Or.inl rfl
      · have hc1 : 1 < (h.pools o).free_list_cur_size := Nat.not_le.mp hc
        cases hfl : (h.pools o).free_list with
        | nil => rw [get_fail h o slot hc1 hfl]; exact Or.inl rfl
        | cons e rest =>
          refine Or.inr ⟨o, e, rest, rfl, hfl, ?_⟩
          rw [get_result h o slot e rest hc1 hfl]

theorem get_by_index_cases (h : Heap) (obj : Option PoolPtr)
    (frame : Option (Option FramePtr)) (in_frame : Option FramePtr) :
    (mix_surfacepool_get_frame_with_ci_frameidx h obj frame in_frame).2.2 = h ∨
    ∃ o e, obj = some o ∧ e ∈ (h.pools o).free_list ∧
      (mix_surfacepool_get_frame_with_ci_frameidx h obj frame in_frame).2.2 =
        mix_videoframe_ref
          (h.setPool o
            { h.pools o with
              free_list := (h.pools o).free_list.erase e
              in_use_list := (h.pools o).in_use_list ++ [e]
              high_water_mark :=
                max (h.pools o).high_water_mark ((h.pools o).in_use_list.length + 1) })
          e := by
  cases obj with
  | none => exact Or.inl rfl
  | some o =>
    cases frame with
    | none => exact Or.inl rfl
    | some slot =>
      by_cases hf : (h.pools o).free_list = []
      · rw [get_by_index_no_memory h o slot in_frame hf]; exact Or.inl rfl
      · cases hfind : (h.pools o).free_list.find?
            (fun a => decide (mixframe_compare_index h (some a) in_frame = 0)) with
        | none => rw [get_by_index_fail h o slot in_frame hf hfind]; exact Or.inl rfl
        | some e =>
          refine Or.inr ⟨o, e, rfl, List.mem_of_find?_eq_some hfind, ?_⟩
          rw [get_by_index_result h o slot in_frame e hfind]

theorem put_cases (h : Heap) (obj : Option PoolPtr) (frame : Option FramePtr) :
    (mix_surfacepool_put h obj frame).2 = h ∨
    ∃ o f, obj = some o ∧ f ∈ (h.pools o).in_use_list ∧
      (mix_surfacepool_put h obj frame).2 =
        (h.setFrame f { h.frames f with timestamp := 0 }).setPool o
          { h.pools o with
            in_use_list := (h.pools o).in_use_list.erase f
            free_list := (h.pools o).free_list ++ [f]
            free_list_cur_size := (h.pools o).free_list_cur_size + 1 } := by
  cases obj with
  | none => exact Or.inl rfl
  | some o =>
    cases frame with
    | none => exact Or.inl rfl
    | some f =>
      by_cases hf : f ∈ (h.pools o).in_use_list
      · refine Or.inr ⟨o, f, rfl, hf, ?_⟩
        rw [put_result h o f hf]
      · rw [put_fail h o f hf]; exact Or.inl rfl

theorem move_call_cases (c : MoveCall) (h : Heap) :
    c.run h = h ∨
    (∃ o e l, e ∈ (h.pools o).free_list ∧ l.Perm ((h.pools o).free_list.erase e) ∧
      ∃ cur, c.run h =
        mix_videoframe_ref
          (h.setPool o
            { h.pools o with
              free_list := l
              in_use_list := (h.pools o).in_use_list ++ [e]
              free_list_cur_size := cur
              high_water_mark :=
                max (h.pools o).high_water_mark ((h.pools o).in_use_list.length + 1) })
          e) ∨
    ∃ o f, f ∈ (h.pools o).in_use_list ∧
      c.run h =
        (h.setFrame f { h.frames f with timestamp := 0 }).setPool o
          { h.pools o with
            in_use_list := (h.pools o).in_use_list.erase f
            free_list := (h.pools o).free_list ++ [f]
            free_list_cur_size := (h.pools o).free_list_cur_size + 1 } := by
  cases c with
  | get obj frame =>
    rcases get_cases h obj frame with e | ⟨o, e, rest, _, hfl, hr⟩
    · exact Or.inl e
    · refine Or.inr (Or.inl ⟨o, e, rest, ?_, ?_, _, hr⟩)
      · rw [hfl]; simp
      · rw [hfl]; simp
  | get_by_index obj frame in_frame =>
    rcases get_by_index_cases h obj frame in_frame with e | ⟨o, e, _, hm, hr⟩
    · exact Or.inl e
    · exact Or.inr (Or.inl ⟨o, e, _, hm, List.Perm.refl _, _, hr⟩)
  | put obj frame =>
    rcases put_cases h obj frame with e | ⟨o, f, _, hm, hr⟩
    · exact Or.inl e
    · exact Or.inr (Or.inr ⟨o, f, hm, hr⟩)

theorem move_call_hwm (c : MoveCall) (h : Heap) (p : PoolPtr) :
    (h.pools p).high_water_mark ≤ ((c.run h).pools p).high_water_mark ∧
    ((h.pools p).in_use_list.length ≤ (h.pools p).high_water_mark →
      ((c.run h).pools p).high_water_mark
        = max (h.pools p).high_water_mark ((c.run h).pools p).in_use_list.length) := by
  rcases move_call_cases c h with e | ⟨o, e, l, _, _, cur, hr⟩ | ⟨o, f, hm, hr⟩
  · rw [e]
    exact ⟨le_refl _, fun hle => by omega⟩
  · rw [hr]
    by_cases hp : p = o
    · subst hp
      simp only [mix_videoframe_ref, mix_params_ref, setFrame_pools, setPool_pools, if_true,
        List.length_append, List.length_singleton]
      exact ⟨by omega, fun _ => trivial⟩
    · simp only [mix_videoframe_ref, mix_params_ref, setFrame_pools, setPool_pools, if_neg hp]
      exact ⟨le_refl _, fun hle => by omega⟩
  · rw [hr]
    by_cases hp : p = o
    · subst hp
      have hlen := List.length_erase_of_mem hm
      simp only [setPool_pools, if_true, hlen]
      exact ⟨le_refl _, fun hle => by omega⟩
    · simp only [setPool_pools, if_neg hp, setFrame_pools]
      exact ⟨le_refl _, fun hle => by omega⟩

theorem move_call_perm (c : MoveCall) (h : Heap) (p : PoolPtr) :
    (((c.run h).pools p).free_list ++ ((c.run h).pools p).in_use_list).Perm
      ((h.pools p).free_list ++ (h.pools p).in_use_list) := by
  rcases move_call_cases c h with e | ⟨o, e, l, hm, hl, cur, hr⟩ | ⟨o, f, hm, hr⟩
  · rw [e]
  · rw [hr]
    by_cases hp : p = o
    · subst hp
      simp only [mix_videoframe_ref, mix_params_ref, setFrame_pools, setPool_pools, if_true]
      have h1 : (l ++ ((h.pools p).in_use_list ++ [e])).Perm
          (e :: ((h.pools p).free_list.erase e ++ (h.pools p).in_use_list)) := by
        rw [← List.append_assoc]
        exact (List.perm_append_singleton e _).trans
          (List.Perm.cons e (List.Perm.append_right _ hl))
      have h2 : (e :: ((h.pools p).free_list.erase e ++ (h.pools p).in_use_list)).Perm
          ((h.pools p).free_list ++ (h.pools p).in_use_list) := by
        rw [← List.cons_append]
        exact List.Perm.append_right _ (List.perm_cons_erase hm).symm
      exact h1.trans h2
    · simp only [mix_videoframe_ref, mix_params_ref, setFrame_pools, setPool_pools, if_neg hp]
      exact List.Perm.refl _
  · rw [hr]
    by_cases hp : p = o
    · subst hp
      simp only [setPool_pools, if_true]
      rw [List.append_assoc]
      exact List.Perm.append_left _ (List.perm_cons_erase hm).symm
    · simp only [setPool_pools, if_neg hp, setFrame_pools]
      exact List.Perm.refl _

theorem move_call_ids (c : MoveCall) (h : Heap) (a : FramePtr) :
    ((c.run h).frames a).frame_id = (h.frames a).frame_id ∧
    ((c.run h).frames a).ci_frame_idx = (h.frames a).ci_frame_idx := by
  rcases move_call_cases c h with e | ⟨o, e, l, _, _, cur, hr⟩ | ⟨o, f, _, hr⟩
  · rw [e]; exact ⟨rfl, rfl⟩
  · rw [hr]
    simp only [mix_videoframe_ref, mix_params_ref, setFrame_frames, setPool_frames]
    split_ifs with hc
    · subst hc; exact ⟨rfl, rfl⟩
    · exact ⟨rfl, rfl⟩
  · rw [hr]
    simp only [setFrame_frames, setPool_frames]
    split_ifs with hc
    · subst hc; exact ⟨rfl, rfl⟩
    · exact ⟨rfl, rfl⟩

theorem in_use_le_peak (p : PoolPtr) (calls : List MoveCall) (h : Heap) :
    (h.pools p).in_use_list.length ≤ in_use_peak p calls h := by
  cases calls with
  | nil => exact le_refl _
  | cons c cs => exact le_max_left _ _

theorem run_move_calls_hwm (p : PoolPtr) :
    ∀ (calls : List MoveCall) (h : Heap),
      (h.pools p).in_use_list.length ≤ (h.pools p).high_water_mark →
      ((run_move_calls calls h).pools p).high_water_mark
        = max (h.pools p).high_water_mark (in_use_peak p calls h) := by
  intro calls
  induction calls with
  | nil =>
    intro h hle
    simp only [run_move_calls, in_use_peak]
    omega
  | cons c cs ih =>
    intro h hle
    have hstep := (move_call_hwm c h p).2 hle
    have hle1 : ((c.run h).pools p).in_use_list.length
        ≤ ((c.run h).pools p).high_water_mark := by
      rw [hstep]; exact le_max_right _ _
    have hpk := in_use_le_peak p cs (c.run h)
    simp only [run_move_calls, in_use_peak]
    rw [ih (c.run h) hle1, hstep]
    omega

theorem run_move_calls_perm (p : PoolPtr) :
    ∀ (calls : List MoveCall) (h : Heap),
      (((run_move_calls calls h).pools p).free_list
          ++ ((run_move_calls calls h).pools p).in_use_list).Perm
        ((h.pools p).free_list ++ (h.pools p).in_use_list) := by
  intro calls
  induction calls with
  | nil => intro h; exact List.Perm.refl _
  | cons c cs ih =>
    intro h
    simp only [run_move_calls]
    exact (ih (c.run h)).trans (move_call_perm c h p)

theorem run_move_calls_ids (a : FramePtr) :
    ∀ (calls : List MoveCall) (h : Heap),
      ((run_move_calls calls h).frames a).frame_id = (h.frames a).frame_id ∧
      ((run_move_calls calls h).frames a).ci_frame_idx = (h.frames a).ci_frame_idx := by
  intro calls
  induction calls with
  | nil => intro h; exact ⟨rfl, rfl⟩
  | cons c cs ih =>
    intro h
    simp only [run_move_calls]
    have h1 := ih (c.run h)
    have h2 := move_call_ids c h a
    exact ⟨h1.1.trans h2.1, h1.2.trans h2.2⟩

/-! ## The claims on sequences of moves -/

/-- C14: after a successful initialize of pool `p` and any finite sequence of
get, get by index and put calls, the high water mark of `p` is the greatest
length its in-use list has had in any store since the initialize (the store
initialize left, and the store after each call), and one more call never
lowers it. -/
theorem high_water_mark_is_peak (fuel : Nat) (h0 : Heap) (p : PoolPtr) (surfaces : Nat → Nat)
    (n va : Nat) (h1 : Heap)
    (hinit : mix_surfacepool_initialize fuel h0 (some p) (some surfaces) n va
      = some (.SUCCESS, h1))
    (calls : List MoveCall) :
    ((run_move_calls calls h1).pools p).high_water_mark = in_use_peak p calls h1 ∧
    ∀ c : MoveCall, ((run_move_calls calls h1).pools p).high_water_mark
      ≤ ((c.run (run_move_calls calls h1)).pools p).high_water_mark := by
  have hp := (initialize_success fuel h0 p surfaces n va h1 hinit).1
  have hle : (h1.pools p).in_use_list.length ≤ (h1.pools p).high_water_mark := by
    rw [hp]; simp
  refine ⟨?_, fun c => (move_call_hwm c _ p).1⟩
  rw [run_move_calls_hwm p calls h1 hle, hp]
  simp

theorem high_water_mark_is_peak_witness :
    mix_surfacepool_initialize 1 empty_heap (some 0) (some (fun i => 100 + i)) 4 7
        = some (.SUCCESS, four_heap) ∧
    ((run_move_calls sample_move_calls four_heap).pools 0).high_water_mark
      = in_use_peak 0 sample_move_calls four_heap ∧
    in_use_peak 0 sample_move_calls four_heap = 2 ∧
    ((run_move_calls sample_move_calls four_heap).pools 0).in_use_list.length = 1 :=
  ⟨rfl,
    (high_water_mark_is_peak 1 empty_heap 0 (fun i => 100 + i) 4 7 four_heap rfl
      sample_move_calls).1,
    by decide, by decide⟩

/-- C15, what the code does: get by index never changes the free count.  After
an initialize with 2 surfaces and one successful get by index, the free count
is still 2 while one frame is lent and one is free: the free count plus the
length of the in-use list is 3, the capacity is 2, and the free count is not
the length of the free list. -/
theorem get_by_index_keeps_free_count :
    (∀ (h : Heap) (o : PoolPtr) (frame : Option (Option FramePtr))
      (in_frame : Option FramePtr),
      ((mix_surfacepool_get_frame_with_ci_frameidx h (some o) frame in_frame).2.2.pools o
        ).free_list_cur_size = (h.pools o).free_list_cur_size) ∧
    mix_surfacepool_initialize 1 empty_heap (some 0) (some (fun i => 100 + i)) 2 7
      = some (.SUCCESS, two_heap) ∧
    mix_surfacepool_get_frame_with_ci_frameidx two_heap (some 0) (some none) (some 1)
      = (.SUCCESS, some 1, index_heap) ∧
    (index_heap.pools 0).free_list_cur_size + (index_heap.pools 0).in_use_list.length = 3 ∧
    (index_heap.pools 0).free_list_max_size = 2 ∧
    (index_heap.pools 0).free_list_cur_size = 2 ∧
    (index_heap.pools 0).free_list.length = 1 := by
  refine ⟨?_, rfl, rfl, by decide, by decide, by decide, by decide⟩
  intro h o frame in_frame
  rcases get_by_index_cases h (some o) frame in_frame with e | ⟨o1, e, ho, _, hr⟩
  · rw [e]
  · cases ho
    rw [hr]
    simp [mix_videoframe_ref, mix_params_ref]

/-- C16: after a successful initialize of pool `p` with `n` surfaces and any
finite sequence of get, get by index and put calls, the free list followed by
the in-use list of `p` is a permutation of the `n` frames initialize created
(the free list it left): no frame is lost or listed twice, no frame is in both
lists, and every frame has the surface id and the index it had after
initialize. -/
theorem lists_permute_created_frames (fuel : Nat) (h0 : Heap) (p : PoolPtr)
    (surfaces : Nat → Nat) (n va : Nat) (h1 : Heap)
    (hinit : mix_surfacepool_initialize fuel h0 (some p) (some surfaces) n va
      = some (.SUCCESS, h1))
    (calls : List MoveCall) :
    (((run_move_calls calls h1).pools p).free_list
        ++ ((run_move_calls calls h1).pools p).in_use_list).Perm (h1.pools p).free_list ∧
    (h1.pools p).free_list.length = n ∧
    (((run_move_calls calls h1).pools p).free_list
        ++ ((run_move_calls calls h1).pools p).in_use_list).length = n ∧
    (((run_move_calls calls h1).pools p).free_list
        ++ ((run_move_calls calls h1).pools p).in_use_list).Nodup ∧
    (∀ a, a ∈ ((run_move_calls calls h1).pools p).free_list →
      a ∉ ((run_move_calls calls h1).pools p).in_use_list) ∧
    (∀ a, ((run_move_calls calls h1).frames a).frame_id = (h1.frames a).frame_id ∧
      ((run_move_calls calls h1).frames a).ci_frame_idx = (h1.frames a).ci_frame_idx) := by
  have hp := (initialize_success fuel h0 p surfaces n va h1 hinit).1
  have hperm := run_move_calls_perm p calls h1
  have huse : (h1.pools p).in_use_list = [] := by rw [hp]
  rw [huse, List.append_nil] at hperm
  have hlen : (h1.pools p).free_list.length = n := by rw [hp]; simp
  have hnd1 : (h1.pools p).free_list.Nodup := by
    rw [hp]; exact List.nodup_range' _ _
  have hnd := hperm.nodup_iff.mpr hnd1
  refine ⟨hperm, hlen, ?_, hnd, ?_, fun a => run_move_calls_ids a calls h1⟩
  · rw [hperm.length_eq, hlen]
  · intro a ha hb
    exact (List.nodup_append.mp hnd).2.2 ha hb

theorem lists_permute_created_frames_witness :
    mix_surfacepool_initialize 1 empty_heap (some 0) (some (fun i => 100 + i)) 4 7
        = some (.SUCCESS, four_heap) ∧
    (((run_move_calls sample_move_calls four_heap).pools 0).free_list
        ++ ((run_move_calls sample_move_calls four_heap).pools 0).in_use_list).Perm
      (four_heap.pools 0).free_list ∧
    ((run_move_calls sample_move_calls four_heap).pools 0).free_list = [2, 4, 3] ∧
    ((run_move_calls sample_move_calls four_heap).pools 0).in_use_list = [1] :=
  ⟨rfl,
    (lists_permute_created_frames 1 empty_heap 0 (fun i => 100 + i) 4 7 four_heap rfl
      sample_move_calls).1,
    by decide, by decide⟩

/-! ## Sharing: reference counts of free and of lent frames -/

theorem sharing_invariant_start (fuel : Nat) (h0 : Heap) (p : PoolPtr) (surfaces : Nat → Nat)
    (n va : Nat) (h : Heap)
    (hinit : mix_surfacepool_initialize fuel h0 (some p) (some surfaces) n va
      = some (.SUCCESS, h)) :
    sharing_invariant p h := by
  obtain ⟨hp, _, _, hfr⟩ := initialize_success fuel h0 p surfaces n va h hinit
  refine ⟨?_, ?_, ?_⟩
  · intro a ha
    rw [hp] at ha
    simp only [List.mem_range'_1] at ha
    have ha1 : h0.next_frame ≤ (a : Nat) := ha.1
    have ha2 : (a : Nat) < h0.next_frame + n := ha.2
    obtain ⟨j, hj⟩ := Nat.exists_eq_add_of_le ha1
    have hjn : j < n := by
      rw [hj] at ha2
      exact Nat.lt_of_add_lt_add_left ha2
    rw [hj, hfr j hjn]
    exact ⟨rfl, rfl, rfl⟩
  · intro a ha
    rw [hp] at ha
    simp at ha
  · rw [hp]
    simp only [List.append_nil]
    exact List.nodup_range' _ _

theorem sharing_invariant_take (p : PoolPtr) (h : Heap) (e : FramePtr) (l : List FramePtr)
    (cur w : Nat) (he : e ∈ (h.pools p).free_list)
    (hl : l.Perm ((h.pools p).free_list.erase e)) (hi : sharing_invariant p h) :
    sharing_invariant p
      (mix_videoframe_ref
        (h.setPool p
          { h.pools p with
            free_list := l
            in_use_list := (h.pools p).in_use_list ++ [e]
            free_list_cur_size := cur
            high_water_mark := w })
        e) := by
  obtain ⟨i1, i2, i3⟩ := hi
  have hnd_free : (h.pools p).free_list.Nodup := (List.nodup_append.mp i3).1
  have he_use : e ∉ (h.pools p).in_use_list := fun c => (List.nodup_append.mp i3).2.2 he c
  have hl_mem : ∀ a, a ∈ l → a ∈ (h.pools p).free_list ∧ a ≠ e := by
    intro a ha
    have ha1 : a ∈ (h.pools p).free_list.erase e := hl.mem_iff.mp ha
    refine ⟨List.mem_of_mem_erase ha1, ?_⟩
    intro c
    subst c
    exact List.Nodup.not_mem_erase hnd_free ha1
  refine ⟨?_, ?_, ?_⟩
  · intro a ha
    simp only [mix_videoframe_ref, mix_params_ref, setFrame_pools, setPool_pools, if_true] at ha
    obtain ⟨ham, hne⟩ := hl_mem a ha
    simp only [mix_videoframe_ref, mix_params_ref, setFrame_frames, setPool_frames, if_neg hne]
    exact i1 a ham
  · intro a ha
    simp only [mix_videoframe_ref, mix_params_ref, setFrame_pools, setPool_pools, if_true,
      List.mem_append, List.mem_singleton] at ha
    simp only [mix_videoframe_ref, mix_params_ref, setFrame_frames, setPool_frames]
    rcases ha with ha | ha
    · have hne : a ≠ e := by
        intro c; subst c; exact he_use ha
      rw [if_neg hne]
      exact i2 a ha
    · subst ha
      rw [if_pos rfl]
      have := i1 a he
      exact ⟨by simp only; omega, this.2.1, this.2.2⟩
  · simp only [mix_videoframe_ref, mix_params_ref, setFrame_pools, setPool_pools, if_true]
    have h1 : (l ++ ((h.pools p).in_use_list ++ [e])).Perm
        (e :: ((h.pools p).free_list.erase e ++ (h.pools p).in_use_list)) := by
      rw [← List.append_assoc]
      exact (List.perm_append_singleton e _).trans
        (List.Perm.cons e (List.Perm.append_right _ hl))
    have h2 : (e :: ((h.pools p).free_list.erase e ++ (h.pools p).in_use_list)).Perm
        ((h.pools p).free_list ++ (h.pools p).in_use_list) := by
      rw [← List.cons_append]
      exact List.Perm.append_right _ (List.perm_cons_erase he).symm
    exact (h1.trans h2).nodup_iff.mpr i3

theorem sharing_invariant_ref (p : PoolPtr) (h : Heap) (f : FramePtr)
    (hf : f ∈ (h.pools p).in_use_list) (hi : sharing_invariant p h) :
    sharing_invariant p (mix_videoframe_ref h f) := by
  obtain ⟨i1, i2, i3⟩ := hi
  have hf_free : f ∉ (h.pools p).free_list := fun c => (List.nodup_append.mp i3).2.2 c hf
  refine ⟨?_, ?_, ?_⟩
  · intro a ha
    have ha1 : a ∈ (h.pools p).free_list := ha
    have hne : a ≠ f := by
      intro c; subst c; exact hf_free ha1
    simp only [mix_videoframe_ref, mix_params_ref, setFrame_frames, if_neg hne]
    exact i1 a ha1
  · intro a ha
    have ha1 : a ∈ (h.pools p).in_use_list := ha
    simp only [mix_videoframe_ref, mix_params_ref, setFrame_frames]
    by_cases hc : a = f
    · subst hc
      rw [if_pos rfl]
      have := i2 a ha1
      exact ⟨by simp only; omega, this.2.1, this.2.2⟩
    · rw [if_neg hc]
      exact i2 a ha1
  · exact i3

theorem sharing_invariant_unref (p : PoolPtr) (fuel : Nat) (h : Heap) (f : FramePtr)
    (h1 : Heap) (hf : f ∈ (h.pools p).in_use_list) (hi : sharing_invariant p h)
    (hu : mix_videoframe_unref fuel none h (some f) = some h1) :
    sharing_invariant p h1 := by
  obtain ⟨i1, i2, i3⟩ := hi
  have hf2 := i2 f hf
  have hf_free : f ∉ (h.pools p).free_list := fun c => (List.nodup_append.mp i3).2.2 c hf
  have hnd_use : (h.pools p).in_use_list.Nodup := (List.nodup_append.mp i3).2.1
  cases fuel with
  | zero => simp [mix_videoframe_unref] at hu
  | succ fuel =>
    by_cases hrc : (h.frames f).refcount = 2
    · obtain ⟨h2, e, hp, hfr, hff⟩ := release_result p fuel h f hrc hf2.2.1 hf2.2.2 hf
      rw [e] at hu
      cases hu
      refine ⟨?_, ?_, ?_⟩
      · intro a ha
        rw [hp] at ha
        simp only [List.mem_append, List.mem_singleton] at ha
        rcases ha with ha | ha
        · have hne : a ≠ f := by
            intro c; subst c; exact hf_free ha
          rw [hfr a hne]
          exact i1 a ha
        · subst ha
          rw [hff]
          exact ⟨rfl, hf2.2.1, rfl⟩
      · intro a ha
        rw [hp] at ha
        simp only at ha
        have hne : a ≠ f := by
          intro c; subst c; exact List.Nodup.not_mem_erase hnd_use ha
        rw [hfr a hne]
        exact i2 a (List.mem_of_mem_erase ha)
      · rw [hp]
        simp only
        have hperm : (((h.pools p).free_list ++ [f]) ++ (h.pools p).in_use_list.erase f).Perm
            ((h.pools p).free_list ++ (h.pools p).in_use_list) := by
          rw [List.append_assoc]
          exact List.Perm.append_left _ (List.perm_cons_erase hf).symm
        exact hperm.nodup_iff.mpr i3
    · have c1 : ¬ ((h.frames f).refcount = 2 ∧ (h.frames f).is_skipped = false) :=
        fun c => hrc c.1
      have c2 : ¬ ((h.frames f).refcount = 1 ∧ (h.frames f).is_skipped = true) := by
        intro c; rw [hf2.2.2] at c; exact absurd c.2 (by decide)
      rw [unref_plain fuel none h f c1 c2] at hu
      cases hu
      have hge := hf2.1
      refine ⟨?_, ?_, ?_⟩
      · intro a ha
        have ha1 : a ∈ (h.pools p).free_list := ha
        have hne : a ≠ f := by
          intro c; subst c; exact hf_free ha1
        simp only [mix_params_unref, setFrame_frames, if_neg hne]
        exact i1 a ha1
      · intro a ha
        have ha1 : a ∈ (h.pools p).in_use_list := ha
        simp only [mix_params_unref, setFrame_frames]
        by_cases hc : a = f
        · subst hc
          rw [if_pos rfl]
          exact ⟨by simp only; omega, hf2.2.1, hf2.2.2⟩
        · rw [if_neg hc]
          exact i2 a ha1
      · exact i3

theorem sharing_invariant_holds (p : PoolPtr) (h : Heap) (hs : Sharing p h) :
    sharing_invariant p h := by
  induction hs with
  | start fuel h0 surfaces n va h hinit =>
    exact sharing_invariant_start fuel h0 p surfaces n va h hinit
  | get h slot _ ih =>
    rcases get_cases h (some p) (some slot) with e | ⟨o, e, rest, ho, hfl, hr⟩
    · rw [e]; exact ih
    · cases ho
      rw [hr]
      exact sharing_invariant_take p h e rest _ _ (by rw [hfl]; simp) (by rw [hfl]; simp) ih
  | get_by_index h slot in_frame _ ih =>
    rcases get_by_index_cases h (some p) (some slot) in_frame with e | ⟨o, e, ho, hm, hr⟩
    · rw [e]; exact ih
    · cases ho
      rw [hr]
      exact sharing_invariant_take p h e _ _ _ hm (List.Perm.refl _) ih
  | ref h f _ hf ih => exact sharing_invariant_ref p h f hf ih
  | unref fuel h f h1 _ hf hu ih => exact sharing_invariant_unref p fuel h f h1 hf ih hu

/-- C18: in every store reached from a successful initialize of pool `p` by
get, get by index, ref of a lent frame and unref of a lent frame (no frame
being marked skipped), a frame of the pool (one in its free list or in its
in-use list) is in the in-use list exactly when its reference count is 2 or
more, and every frame of the free list has reference count exactly 1. -/
theorem in_use_iff_refcount_two (p : PoolPtr) (h : Heap) (hs : Sharing p h) :
    (∀ a, a ∈ (h.pools p).free_list ++ (h.pools p).in_use_list →
      (a ∈ (h.pools p).in_use_list ↔ 2 ≤ (h.frames a).refcount)) ∧
    (∀ a, a ∈ (h.pools p).free_list → (h.frames a).refcount = 1) := by
  obtain ⟨i1, i2, i3⟩ := sharing_invariant_holds p h hs
  refine ⟨?_, fun a ha => (i1 a ha).1⟩
  intro a ha
  constructor
  · intro hu; exact (i2 a hu).1
  · intro hrc
    rcases List.mem_append.mp ha with hf | hu
    · have := (i1 a hf).1
      omega
    · exact hu

theorem in_use_iff_refcount_two_witness :
    Sharing 0 (mix_videoframe_ref index_heap 1) ∧
    (∀ a, a ∈ ((mix_videoframe_ref index_heap 1).pools 0).free_list
        ++ ((mix_videoframe_ref index_heap 1).pools 0).in_use_list →
      (a ∈ ((mix_videoframe_ref index_heap 1).pools 0).in_use_list ↔
        2 ≤ ((mix_videoframe_ref index_heap 1).frames a).refcount)) ∧
    (∀ a, a ∈ ((mix_videoframe_ref index_heap 1).pools 0).free_list →
      ((mix_videoframe_ref index_heap 1).frames a).refcount = 1) ∧
    ((mix_videoframe_ref index_heap 1).frames 1).refcount = 3 :=
  ⟨Sharing.ref index_heap 1
      (Sharing.get_by_index two_heap none (some 1)
        (Sharing.start 1 empty_heap (fun i => 100 + i) 2 7 two_heap rfl))
      (by decide),
    (in_use_iff_refcount_two 0 (mix_videoframe_ref index_heap 1)
      (Sharing.ref index_heap 1
        (Sharing.get_by_index two_heap none (some 1)
          (Sharing.start 1 empty_heap (fun i => 100 + i) 2 7 two_heap rfl))
        (by decide))).1,
    (in_use_iff_refcount_two 0 (mix_videoframe_ref index_heap 1)
      (Sharing.ref index_heap 1
        (Sharing.get_by_index two_heap none (some 1)
          (Sharing.start 1 empty_heap (fun i => 100 + i) 2 7 two_heap rfl))
        (by decide))).2,
    by decide⟩

/-! ## The claims on unref -/

/-- C17, what the code does: an unref of a skipped frame with a reference
count other than 1 only decrements that count, and an unref of a skipped frame
with reference count 1 applies unref once to its real frame and then
decrements.  But when the real frame has reference count 2 and no pool, that
one unref leaves by the early return and its count does not drop: in
`skip_pair_heap` frame 2 is a skipped frame with reference count 1 standing
for frame 1; after the unref of frame 2 the count of frame 2 is 0 and the
count of frame 1 is still 2. -/
theorem skip_cascade_keeps_real_refcount :
    (∀ (fuel : Nat) (h : Heap) (b : FramePtr), (h.frames b).is_skipped = true →
      (h.frames b).refcount ≠ 1 →
      mix_videoframe_unref (fuel + 1) none h (some b) = some (mix_params_unref h b)) ∧
    (∀ (fuel : Nat) (h : Heap) (b : FramePtr), (h.frames b).is_skipped = true →
      (h.frames b).refcount = 1 →
      mix_videoframe_unref (fuel + 1) none h (some b)
        = (mix_videoframe_unref fuel none h (h.frames b).real_frame).map
            (fun h1 => mix_params_unref h1 b)) ∧
    (skip_pair_heap.frames 2).is_skipped = true ∧
    (skip_pair_heap.frames 2).real_frame = some 1 ∧
    (skip_pair_heap.frames 2).refcount = 1 ∧
    (skip_pair_heap.frames 1).is_skipped = false ∧
    (skip_pair_heap.frames 1).refcount = 2 ∧
    (skip_pair_heap.frames 1).pool = none ∧
    (mix_videoframe_unref 2 none skip_pair_heap (some 2)).isSome = true ∧
    (((mix_videoframe_unref 2 none skip_pair_heap (some 2)).getD empty_heap).frames 2
      ).refcount = 0 ∧
    (((mix_videoframe_unref 2 none skip_pair_heap (some 2)).getD empty_heap).frames 1
      ).refcount = 2 := by
  refine ⟨?_, ?_, by decide, by decide, by decide, by decide, by decide, by decide,
    by decide, by decide, by decide⟩
  · intro fuel h b hsk hrc
    apply unref_plain
    · intro c; rw [hsk] at c; exact absurd c.2 (by decide)
    · intro c; exact hrc c.1
  · intro fuel h b hsk hrc
    exact unref_cascade fuel none h b hrc hsk

/-- C19, what the code does not do: in `tagged_heap` frame 1 is lent by pool 0
with reference count 2, is not skipped, and has frame type 2 and display order
5.  Its unref returns it to the free list, and its frame type and display
order are still 2 and 5, not the values a new frame has. -/
theorem unref_keeps_frame_type_and_order :
    1 ∈ (tagged_heap.pools 0).in_use_list ∧
    (tagged_heap.frames 1).refcount = 2 ∧
    (tagged_heap.frames 1).is_skipped = false ∧
    (tagged_heap.frames 1).pool = some 0 ∧
    (mix_videoframe_unref 1 none tagged_heap (some 1)).isSome = true ∧
    1 ∈ (((mix_videoframe_unref 1 none tagged_heap (some 1)).getD empty_heap).pools 0
      ).free_list ∧
    (((mix_videoframe_unref 1 none tagged_heap (some 1)).getD empty_heap).frames 1
      ).frame_type = 2 ∧
    (((mix_videoframe_unref 1 none tagged_heap (some 1)).getD empty_heap).frames 1
      ).displayorder = 5 ∧
    (((mix_videoframe_unref 1 none tagged_heap (some 1)).getD empty_heap).frames 1
      ).frame_type ≠ (mix_videoframe_init (mix_params_init zeroed_frame)).frame_type ∧
    (((mix_videoframe_unref 1 none tagged_heap (some 1)).getD empty_heap).frames 1
      ).displayorder ≠ (mix_videoframe_init (mix_params_init zeroed_frame)).displayorder := by
  decide

/-- C19, amended: for every frame that is not skipped, has reference count 2
and is in the in-use list of its pool, unref returns (with any fuel of at
least 1) and puts the frame back into the free list with its timestamp,
discontinuity flag and frame structure at the values a new frame has; its
frame type and display order are left as they were. -/
theorem unref_resets_what_reset_clears (fuel : Nat) (h : Heap) (q : PoolPtr) (f : FramePtr)
    (hrc : (h.frames f).refcount = 2) (hsk : (h.frames f).is_skipped = false)
    (hpool : (h.frames f).pool = some q) (hf : f ∈ (h.pools q).in_use_list) :
    ∃ h1, mix_videoframe_unref (fuel + 1) none h (some f) = some h1 ∧
      f ∈ (h1.pools q).free_list ∧
      (h1.frames f).timestamp = (mix_videoframe_init (mix_params_init zeroed_frame)).timestamp ∧
      (h1.frames f).discontinuity
        = (mix_videoframe_init (mix_params_init zeroed_frame)).discontinuity ∧
      (h1.frames f).frame_structure
        = (mix_videoframe_init (mix_params_init zeroed_frame)).frame_structure ∧
      (h1.frames f).frame_type = (h.frames f).frame_type ∧
      (h1.frames f).displayorder = (h.frames f).displayorder := by
  obtain ⟨h1, e, hp, _, hff⟩ := release_result q fuel h f hrc hpool hsk hf
  refine ⟨h1, e, ?_, ?_, ?_, ?_, ?_, ?_⟩
  · rw [hp]; simp
  all_goals (rw [hff] <;> rfl)

theorem unref_resets_what_reset_clears_witness :
    (tagged_heap.frames 1).refcount = 2 ∧ (tagged_heap.frames 1).is_skipped = false ∧
    (tagged_heap.frames 1).pool = some 0 ∧ 1 ∈ (tagged_heap.pools 0).in_use_list ∧
    ∃ h1, mix_videoframe_unref (0 + 1) none tagged_heap (some 1) = some h1 ∧
      1 ∈ (h1.pools 0).free_list ∧
      (h1.frames 1).timestamp = (mix_videoframe_init (mix_params_init zeroed_frame)).timestamp ∧
      (h1.frames 1).discontinuity
        = (mix_videoframe_init (mix_params_init zeroed_frame)).discontinuity ∧
      (h1.frames 1).frame_structure
        = (mix_videoframe_init (mix_params_init zeroed_frame)).frame_structure ∧
      (h1.frames 1).frame_type = (tagged_heap.frames 1).frame_type ∧
      (h1.frames 1).displayorder = (tagged_heap.frames 1).displayorder :=
  ⟨by decide, by decide, by decide, by decide,
    unref_resets_what_reset_clears 0 tagged_heap 0 1 (by decide) (by decide) (by decide)
      (by decide)⟩

/-- C20, what the code does: a frame that is not skipped loses exactly one
reference by unref when its count is not 2, or when its count is 2 and it has a
pool (whose lock the thread does not hold).  But when its count is 2 and it has
no pool, unref leaves by the early return before the base decrement and the
store is unchanged: in `orphan_heap` frame 1 has reference count 2 and no
pool, and after its unref the count is still 2. -/
theorem unref_without_pool_keeps_refcount :
    (∀ (fuel : Nat) (held : Option PoolPtr) (h : Heap) (o : FramePtr),
      (h.frames o).is_skipped = false → (h.frames o).refcount ≠ 2 →
      ∃ h1, mix_videoframe_unref (fuel + 1) held h (some o) = some h1 ∧
        (h1.frames o).refcount = (h.frames o).refcount - 1) ∧
    (∀ (fuel : Nat) (held : Option PoolPtr) (h : Heap) (o : FramePtr) (q : PoolPtr),
      (h.frames o).is_skipped = false → (h.frames o).refcount = 2 →
      (h.frames o).pool = some q → held ≠ some q →
      ∃ h1, mix_videoframe_unref (fuel + 1) held h (some o) = some h1 ∧
        (h1.frames o).refcount = (h.frames o).refcount - 1) ∧
    (∀ (fuel : Nat) (held : Option PoolPtr) (h : Heap) (o : FramePtr),
      (h.frames o).is_skipped = false → (h.frames o).refcount = 2 →
      (h.frames o).pool = none →
      mix_videoframe_unref (fuel + 1) held h (some o) = some h) ∧
    (orphan_heap.frames 1).is_skipped = false ∧
    (orphan_heap.frames 1).refcount = 2 ∧
    (orphan_heap.frames 1).pool = none ∧
    mix_videoframe_unref 1 none orphan_heap (some 1) = some orphan_heap ∧
    (((mix_videoframe_unref 1 none orphan_heap (some 1)).getD empty_heap).frames 1
      ).refcount = 2 := by
  refine ⟨?_, ?_, ?_, by decide, by decide, by decide, ?_, by decide⟩
  · intro fuel held h o hsk hrc
    refine ⟨_, unref_plain fuel held h o (fun c => hrc c.1) ?_, ?_⟩
    · intro c; rw [hsk] at c; exact absurd c.2 (by decide)
    · simp [mix_params_unref]
  · intro fuel held h o q hsk hrc hpool hheld
    refine ⟨_, unref_to_pool fuel held h o q hrc hsk hpool hheld, ?_⟩
    by_cases hf : o ∈ ((mix_videoframe_reset h (some o)).2.pools q).in_use_list
    · rw [put_result _ q o hf]; simp [mix_params_unref, mix_videoframe_reset]
    · rw [put_fail _ q o hf]; simp [mix_params_unref, mix_videoframe_reset]
  · intro fuel held h o hsk hrc hpool
    exact unref_no_pool fuel held h o hrc hsk hpool
  · exact unref_no_pool 0 none orphan_heap 1 (by decide) (by decide) (by decide)

/-! ## Forwarding of the sync flag and of the display handle -/

theorem chain_from_congr (h h1 : Heap)
    (hr : ∀ x, (h1.frames x).real_frame = (h.frames x).real_frame) :
    ∀ (rest : List FramePtr) (a : FramePtr), chain_from h a rest → chain_from h1 a rest := by
  intro rest
  induction rest with
  | nil => intro a hc; simpa [chain_from, hr] using hc
  | cons b rest ih =>
    intro a hc
    exact ⟨by rw [hr]; exact hc.1, hc.2.1, ih b hc.2.2⟩

theorem chain_from_last_mem :
    ∀ (rest : List FramePtr) (a : FramePtr), rest.getLastD a ∈ a :: rest := by
  intro rest
  induction rest with
  | nil => intro a; simp
  | cons b rest ih =>
    intro a
    rw [List.getLastD_cons]
    exact List.mem_cons_of_mem _ (ih b)

theorem chain_from_suffix (h : Heap) :
    ∀ (rest : List FramePtr) (a x : FramePtr), chain_from h a rest → x ∈ a :: rest →
      ∃ tail : List FramePtr, chain_from h x tail ∧ tail.length ≤ rest.length ∧
        tail.getLastD x = rest.getLastD a := by
  intro rest
  induction rest with
  | nil =>
    intro a x hc hx
    have hxa : x = a := by simpa using hx
    subst hxa
    exact ⟨[], hc, Nat.le_refl _, rfl⟩
  | cons b rest ih =>
    intro a x hc hx
    rcases List.mem_cons.mp hx with hxa | hxr
    · subst hxa
      exact ⟨b :: rest, hc, Nat.le_refl _, rfl⟩
    · obtain ⟨tail, ht, hl, hlast⟩ := ih b x hc.2.2 hxr
      refine ⟨tail, ht, Nat.le_succ_of_le hl, ?_⟩
      rw [hlast, List.getLastD_cons]

theorem get_sync_flag_chain (h : Heap) (slot : Bool) :
    ∀ (rest : List FramePtr) (a : FramePtr) (fuel : Nat), chain_from h a rest →
      rest.length < fuel →
      mix_videoframe_get_sync_flag fuel h (some a) (some slot)
        = some (.SUCCESS, some (h.frames (rest.getLastD a)).sync_flag) := by
  intro rest
  induction rest with
  | nil =>
    intro a fuel hc hf
    obtain ⟨n, rfl⟩ := Nat.exists_eq_add_of_lt hf
    rcases hc with hc | hc
    · simp [mix_videoframe_get_sync_flag, hc]
    · simp [mix_videoframe_get_sync_flag, hc]
  | cons b rest ih =>
    intro a fuel hc hf
    cases fuel with
    | zero => exact absurd hf (Nat.not_lt_zero _)
    | succ n =>
      have hn : rest.length < n := Nat.lt_of_succ_lt_succ hf
      rw [mix_videoframe_get_sync_flag]
      simp only [hc.1, ne_eq, hc.2.1, not_false_eq_true, if_true]
      rw [ih b n hc.2.2 hn, List.getLastD_cons]

theorem get_vadisplay_chain (h : Heap) (slot : Nat) :
    ∀ (rest : List FramePtr) (a : FramePtr) (fuel : Nat), chain_from h a rest →
      rest.length < fuel →
      mix_videoframe_get_vadisplay fuel h (some a) (some slot)
        = some (.SUCCESS, some (h.frames (rest.getLastD a)).va_display) := by
  intro rest
  induction rest with
  | nil =>
    intro a fuel hc hf
    obtain ⟨n, rfl⟩ := Nat.exists_eq_add_of_lt hf
    rcases hc with hc | hc
    · simp [mix_videoframe_get_vadisplay, hc]
    · simp [mix_videoframe_get_vadisplay, hc]
  | cons b rest ih =>
    intro a fuel hc hf
    cases fuel with
    | zero => exact absurd hf (Nat.not_lt_zero _)
    | succ n =>
      have hn : rest.length < n := Nat.lt_of_succ_lt_succ hf
      rw [mix_videoframe_get_vadisplay]
      simp only [hc.1, ne_eq, hc.2.1, not_false_eq_true, if_true]
      rw [ih b n hc.2.2 hn, List.getLastD_cons]

theorem set_sync_flag_chain (v : Bool) :
    ∀ (rest : List FramePtr) (a : FramePtr) (fuel : Nat) (h : Heap), chain_from h a rest →
      rest.length < fuel →
      ∃ h1, mix_videoframe_set_sync_flag fuel h (some a) v = some (.SUCCESS, h1) ∧
        h1.pools = h.pools ∧
        ∀ x, h1.frames x
          = if x ∈ a :: rest then { h.frames x with sync_flag := v } else h.frames x := by
  intro rest
  induction rest with
  | nil =>
    intro a fuel h hc hf
    obtain ⟨n, rfl⟩ := Nat.exists_eq_add_of_lt hf
    refine ⟨h.setFrame a { h.frames a with sync_flag := v }, ?_, rfl, ?_⟩
    · rcases hc with hc | hc
      · simp [mix_videoframe_set_sync_flag, hc]
      · simp [mix_videoframe_set_sync_flag, hc]
    · intro x
      by_cases hx : x = a
      · subst hx; simp
      · simp [hx]
  | cons b rest ih =>
    intro a fuel h hc hf
    cases fuel with
    | zero => exact absurd hf (Nat.not_lt_zero _)
    | succ n =>
      have hn : rest.length < n := Nat.lt_of_succ_lt_succ hf
      have hc1 : chain_from (h.setFrame a { h.frames a with sync_flag := v }) b rest := by
        refine chain_from_congr h _ ?_ rest b hc.2.2
        intro x
        by_cases hx : x = a
        · subst hx; simp
        · simp [hx]
      obtain ⟨h1, e, hp, hfr⟩ := ih b n _ hc1 hn
      refine ⟨h1, ?_, by rw [hp]; rfl, ?_⟩
      · rw [mix_videoframe_set_sync_flag]
        simp only [setFrame_frames, if_true, hc.1, ne_eq, hc.2.1, not_false_eq_true] at e ⊢
        rw [e]
      · intro x
        rw [hfr x]
        by_cases hxr : x ∈ b :: rest
        · have hxa : x ∈ a :: b :: rest := List.mem_cons_of_mem _ hxr
          rw [if_pos hxr, if_pos hxa]
          by_cases hx : x = a
          · subst hx; simp
          · simp [hx]
        · rw [if_neg hxr]
          by_cases hx : x = a
          · subst hx; simp
          · have hxa : x ∉ a :: b :: rest := by
              intro c
              rcases List.mem_cons.mp c with c | c
              · exact hx c
              · exact hxr c
            rw [if_neg hxa]; simp [hx]

theorem set_vadisplay_chain (v : Nat) :
    ∀ (rest : List FramePtr) (a : FramePtr) (fuel : Nat) (h : Heap), chain_from h a rest →
      rest.length < fuel →
      ∃ h1, mix_videoframe_set_vadisplay fuel h (some a) v = some (.SUCCESS, h1) ∧
        h1.pools = h.pools ∧
        ∀ x, h1.frames x
          = if x ∈ a :: rest then { h.frames x with va_display := v } else h.frames x := by
  intro rest
  induction rest with
  | nil =>
    intro a fuel h hc hf
    obtain ⟨n, rfl⟩ := Nat.exists_eq_add_of_lt hf
    refine ⟨h.setFrame a { h.frames a with va_display := v }, ?_, rfl, ?_⟩
    · rcases hc with hc | hc
      · simp [mix_videoframe_set_vadisplay, hc]
      · simp [mix_videoframe_set_vadisplay, hc]
    · intro x
      by_cases hx : x = a
      · subst hx; simp
      · simp [hx]
  | cons b rest ih =>
    intro a fuel h hc hf
    cases fuel with
    | zero => exact absurd hf (Nat.not_lt_zero _)
    | succ n =>
      have hn : rest.length < n := Nat.lt_of_succ_lt_succ hf
      have hc1 : chain_from (h.setFrame a { h.frames a with va_display := v }) b rest := by
        refine chain_from_congr h _ ?_ rest b hc.2.2
        intro x
        by_cases hx : x = a
        · subst hx; simp
        · simp [hx]
      obtain ⟨h1, e, hp, hfr⟩ := ih b n _ hc1 hn
      refine ⟨h1, ?_, by rw [hp]; rfl, ?_⟩
      · rw [mix_videoframe_set_vadisplay]
        simp only [setFrame_frames, if_true, hc.1, ne_eq, hc.2.1, not_false_eq_true] at e ⊢
        rw [e]
      · intro x
        rw [hfr x]
        by_cases hxr : x ∈ b :: rest
        · have hxa : x ∈ a :: b :: rest := List.mem_cons_of_mem _ hxr
          rw [if_pos hxr, if_pos hxa]
          by_cases hx : x = a
          · subst hx; simp
          · simp [hx]
        · rw [if_neg hxr]
          by_cases hx : x = a
          · subst hx; simp
          · have hxa : x ∉ a :: b :: rest := by
              intro c
              rcases List.mem_cons.mp c with c | c
              · exact hx c
              · exact hxr c
            rw [if_neg hxa]; simp [hx]

/-! ## The claims on the accessors of a frame -/

/-- C21: let the links `real_frame` followed from frame `b` (each one not
`NULL` and not the frame itself) visit the frames `rest` and stop at the last
of them, `rest.getLastD b`, and let the fuel exceed the length of that chain.
Then `mix_videoframe_get_sync_flag` and `mix_videoframe_get_vadisplay` called
on `b` return with `MIX_RESULT_SUCCESS` and give the sync flag and the display
handle stored in that last frame; `mix_videoframe_set_sync_flag` and
`mix_videoframe_set_vadisplay` called on `b` return with `MIX_RESULT_SUCCESS`,
store the value in every frame of the chain, change no other field, no other
frame and no pool, and afterwards the getter gives that value on every frame
of the chain.  With no frame to visit (`rest = []`: the link of `b` is `NULL`
or `b` itself) the last frame is `b` and the chain is `b` alone. -/
theorem forwarding_reaches_chain_end (h : Heap) (b : FramePtr) (rest : List FramePtr)
    (fuel : Nat) (slot v : Bool) (dslot d : Nat) (hc : chain_from h b rest)
    (hf : rest.length < fuel) :
    mix_videoframe_get_sync_flag fuel h (some b) (some slot)
      = some (.SUCCESS, some (h.frames (rest.getLastD b)).sync_flag) ∧
    mix_videoframe_get_vadisplay fuel h (some b) (some dslot)
      = some (.SUCCESS, some (h.frames (rest.getLastD b)).va_display) ∧
    (∃ h1, mix_videoframe_set_sync_flag fuel h (some b) v = some (.SUCCESS, h1) ∧
      (∀ x, x ∈ b :: rest →
        mix_videoframe_get_sync_flag fuel h1 (some x) (some slot)
          = some (.SUCCESS, some v)) ∧
      (∀ x, h1.frames x
        = if x ∈ b :: rest then { h.frames x with sync_flag := v } else h.frames x) ∧
      h1.pools = h.pools) ∧
    (∃ h1, mix_videoframe_set_vadisplay fuel h (some b) d = some (.SUCCESS, h1) ∧
      (∀ x, x ∈ b :: rest →
        mix_videoframe_get_vadisplay fuel h1 (some x) (some dslot)
          = some (.SUCCESS, some d)) ∧
      (∀ x, h1.frames x
        = if x ∈ b :: rest then { h.frames x with va_display := d } else h.frames x) ∧
      h1.pools = h.pools) := by
  refine ⟨get_sync_flag_chain h slot rest b fuel hc hf,
    get_vadisplay_chain h dslot rest b fuel hc hf, ?_, ?_⟩
  · obtain ⟨h1, e, hp, hfr⟩ := set_sync_flag_chain v rest b fuel h hc hf
    refine ⟨h1, e, ?_, hfr, hp⟩
    intro x hx
    obtain ⟨tail, ht, hl, hlast⟩ := chain_from_suffix h rest b x hc hx
    have hr : ∀ y, (h1.frames y).real_frame = (h.frames y).real_frame := by
      intro y
      rw [hfr y]
      by_cases hy : y ∈ b :: rest
      · rw [if_pos hy]
      · rw [if_neg hy]
    rw [get_sync_flag_chain h1 slot tail x fuel (chain_from_congr h h1 hr tail x ht)
      (Nat.lt_of_le_of_lt hl hf), hlast, hfr, if_pos (chain_from_last_mem rest b)]
  · obtain ⟨h1, e, hp, hfr⟩ := set_vadisplay_chain d rest b fuel h hc hf
    refine ⟨h1, e, ?_, hfr, hp⟩
    intro x hx
    obtain ⟨tail, ht, hl, hlast⟩ := chain_from_suffix h rest b x hc hx
    have hr : ∀ y, (h1.frames y).real_frame = (h.frames y).real_frame := by
      intro y
      rw [hfr y]
      by_cases hy : y ∈ b :: rest
      · rw [if_pos hy]
      · rw [if_neg hy]
    rw [get_vadisplay_chain h1 dslot tail x fuel (chain_from_congr h h1 hr tail x ht)
      (Nat.lt_of_le_of_lt hl hf), hlast, hfr, if_pos (chain_from_last_mem rest b)]

theorem forwarding_reaches_chain_end_witness :
    chain_from chain_heap 1 [2, 3] ∧ [2, 3].length < 3 ∧
    (chain_heap.frames 1).sync_flag = false ∧ (chain_heap.frames 1).va_display = 0 ∧
    mix_videoframe_get_sync_flag 3 chain_heap (some 1) (some false)
      = some (.SUCCESS, some true) ∧
    mix_videoframe_get_vadisplay 3 chain_heap (some 1) (some 0)
      = some (.SUCCESS, some 9) ∧
    ∃ h1, mix_videoframe_set_sync_flag 3 chain_heap (some 1) false = some (.SUCCESS, h1) ∧
      ∀ x, x ∈ [1, 2, 3] →
        mix_videoframe_get_sync_flag 3 h1 (some x) (some false)
          = some (.SUCCESS, some false) :=
  have hc : chain_from chain_heap 1 [2, 3] :=
    ⟨by decide, by decide, by decide, by decide, Or.inl (by decide)⟩
  have k := forwarding_reaches_chain_end chain_heap 1 [2, 3] 3 false false 0 9 hc (by decide)
  ⟨hc, by decide, by decide, by decide, k.1, k.2.1,
    k.2.2.1.elim fun h1 hh => ⟨h1, hh.1, hh.2.1⟩⟩

theorem setFrame_setFrame (h : Heap) (a : FramePtr) (f g : MixVideoFrame) :
    (h.setFrame a f).setFrame a g = h.setFrame a g := by
  simp only [Heap.setFrame]
  congr 1
  funext b
  by_cases hb : b = a <;> simp [hb]

/-- C22: for all frames `target` and `src`, `mix_videoframe_copy` succeeds,
gives `target` the surface id (`frame_id`), the timestamp and the
discontinuity mark of `src`, and leaves the pool, the skip mark, the real
frame, the index and the reference count of `target`, every other frame and
every pool as they are.  `mix_videoframe_equal` holds of two frames exactly
when they agree on these three fields, whatever their other fields hold.  So
`target` and `src` are equal right after the copy.  (The base copy and the base
equal that the two functions chain up to are `mix_params_copy` and
`mix_params_equal`.) -/
theorem copy_sets_what_equal_compares (h : Heap) (target src a b : FramePtr) :
    (mix_videoframe_copy h (some target) (some src)).1 = true ∧
    (((mix_videoframe_copy h (some target) (some src)).2).frames target).frame_id
      = (h.frames src).frame_id ∧
    (((mix_videoframe_copy h (some target) (some src)).2).frames target).timestamp
      = (h.frames src).timestamp ∧
    (((mix_videoframe_copy h (some target) (some src)).2).frames target).discontinuity
      = (h.frames src).discontinuity ∧
    (((mix_videoframe_copy h (some target) (some src)).2).frames target).pool
      = (h.frames target).pool ∧
    (((mix_videoframe_copy h (some target) (some src)).2).frames target).is_skipped
      = (h.frames target).is_skipped ∧
    (((mix_videoframe_copy h (some target) (some src)).2).frames target).real_frame
      = (h.frames target).real_frame ∧
    (((mix_videoframe_copy h (some target) (some src)).2).frames target).ci_frame_idx
      = (h.frames target).ci_frame_idx ∧
    (((mix_videoframe_copy h (some target) (some src)).2).frames target).refcount
      = (h.frames target).refcount ∧
    (∀ x, x ≠ target →
      ((mix_videoframe_copy h (some target) (some src)).2).frames x = h.frames x) ∧
    ((mix_videoframe_copy h (some target) (some src)).2).pools = h.pools ∧
    (mix_videoframe_equal h (some a) (some b) = true ↔
      (h.frames a).frame_id = (h.frames b).frame_id ∧
      (h.frames a).timestamp = (h.frames b).timestamp ∧
      (h.frames a).discontinuity = (h.frames b).discontinuity) ∧
    mix_videoframe_equal (mix_videoframe_copy h (some target) (some src)).2
      (some target) (some src) = true := by
  refine ⟨rfl, ?_, ?_, ?_, ?_, ?_, ?_, ?_, ?_, ?_, rfl, ?_, ?_⟩
  · by_cases hs : src = target <;> simp [mix_videoframe_copy, mix_params_copy, hs]
  · by_cases hs : src = target <;> simp [mix_videoframe_copy, mix_params_copy, hs]
  · by_cases hs : src = target <;> simp [mix_videoframe_copy, mix_params_copy, hs]
  · simp [mix_videoframe_copy, mix_params_copy]
  · simp [mix_videoframe_copy, mix_params_copy]
  · simp [mix_videoframe_copy, mix_params_copy]
  · simp [mix_videoframe_copy, mix_params_copy]
  · simp [mix_videoframe_copy, mix_params_copy]
  · intro x hx
    simp [mix_videoframe_copy, mix_params_copy, hx]
  · simp [mix_videoframe_equal, mix_params_equal]
  · by_cases hs : src = target <;>
      simp [mix_videoframe_equal, mix_params_equal, mix_videoframe_copy, mix_params_copy, hs]

/-- C24: for every frame, `mix_videoframe_reset` returns
`MIX_RESULT_SUCCESS`, sets the timestamp to 0, the discontinuity mark, the skip
mark and the sync flag to false, the real frame to `NULL` and the frame
structure to `VA_FRAME_PICTURE`, and leaves the surface id, the index, the
pool, the display handle and the reference count of the frame, every other
frame and every pool as they are; a second reset changes nothing more. -/
theorem reset_clears_and_is_idempotent (h : Heap) (o : FramePtr) :
    (mix_videoframe_reset h (some o)).1 = .SUCCESS ∧
    (((mix_videoframe_reset h (some o)).2).frames o).timestamp = 0 ∧
    (((mix_videoframe_reset h (some o)).2).frames o).discontinuity = false ∧
    (((mix_videoframe_reset h (some o)).2).frames o).is_skipped = false ∧
    (((mix_videoframe_reset h (some o)).2).frames o).real_frame = none ∧
    (((mix_videoframe_reset h (some o)).2).frames o).sync_flag = false ∧
    (((mix_videoframe_reset h (some o)).2).frames o).frame_structure = VA_FRAME_PICTURE ∧
    (((mix_videoframe_reset h (some o)).2).frames o).frame_id = (h.frames o).frame_id ∧
    (((mix_videoframe_reset h (some o)).2).frames o).ci_frame_idx
      = (h.frames o).ci_frame_idx ∧
    (((mix_videoframe_reset h (some o)).2).frames o).pool = (h.frames o).pool ∧
    (((mix_videoframe_reset h (some o)).2).frames o).va_display = (h.frames o).va_display ∧
    (((mix_videoframe_reset h (some o)).2).frames o).refcount = (h.frames o).refcount ∧
    (∀ x, x ≠ o → ((mix_videoframe_reset h (some o)).2).frames x = h.frames x) ∧
    ((mix_videoframe_reset h (some o)).2).pools = h.pools ∧
    mix_videoframe_reset (mix_videoframe_reset h (some o)).2 (some o)
      = mix_videoframe_reset h (some o) := by
  refine ⟨rfl, ?_, ?_, ?_, ?_, ?_, ?_, ?_, ?_, ?_, ?_, ?_, ?_, rfl, ?_⟩
  any_goals simp [mix_videoframe_reset]
  · intro x hx; simp [hx]
  · rw [setFrame_setFrame]

/-! ## The claims on the state of a pool -/

/-- C23, what the code does: in every store reached from a successful
initialize of pool `p` (with at least one surface) by get, put and unref calls
that return, get never returns `MIX_RESULT_FAIL`.  With
`mix_surfacepool_get_frame_with_ci_frameidx` it does: that function takes a
frame off the free list and leaves `free_list_cur_size` as it is, so after
both frames of the two-surface pool of `two_heap` are taken by their index the
count still reads 2, the free list is empty, and get passes its guard and
leaves with `MIX_RESULT_FAIL`. -/
theorem get_fails_on_drained_pool :
    (∀ (fuel : Nat) (h0 : Heap) (p : PoolPtr) (surfaces : Nat → Nat) (n va : Nat)
      (h1 : Heap), 1 ≤ n →
      mix_surfacepool_initialize fuel h0 (some p) (some surfaces) n va = some (.SUCCESS, h1) →
      ∀ (calls : List ClientCall) (h : Heap), run_client_calls calls h1 = some h →
      ∀ slot, (mix_surfacepool_get h (some p) (some slot)).1 ≠ .FAIL) ∧
    mix_surfacepool_initialize 1 empty_heap (some 0) (some (fun i => 100 + i)) 2 7
      = some (.SUCCESS, two_heap) ∧
    (mix_surfacepool_get_frame_with_ci_frameidx two_heap (some 0) (some none) (some 1)).1
      = .SUCCESS ∧
    (mix_surfacepool_get_frame_with_ci_frameidx index_heap (some 0) (some none) (some 2)).1
      = .SUCCESS ∧
    (mix_surfacepool_get_frame_with_ci_frameidx index_heap (some 0) (some none) (some 2)).2.2
      = drained_heap ∧
    (drained_heap.pools 0).free_list_cur_size = 2 ∧
    (drained_heap.pools 0).free_list = [] ∧
    (drained_heap.pools 0).in_use_list = [1, 2] ∧
    mix_surfacepool_get drained_heap (some 0) (some none) = (.FAIL, none, drained_heap) := by
  refine ⟨?_, rfl, by decide, by decide, rfl, by decide, by decide, by decide,
    get_fail drained_heap 0 none (by decide) (by decide)⟩
  intro fuel h0 p surfaces n va h1 hn hinit calls h hrun slot
  have hp := (initialize_success fuel h0 p surfaces n va h1 hinit).1
  have hQ := run_client_calls_keeps p n calls h1 h hrun (by rw [hp]; simp; exact hn)
  by_cases hc : (h.pools p).free_list_cur_size ≤ 1
  · rw [get_no_memory h p slot hc]; exact fun c => MIX_RESULT.noConfusion c
  · have hc1 : 1 < (h.pools p).free_list_cur_size := Nat.not_le.mp hc
    cases hfl : (h.pools p).free_list with
    | nil =>
      have := hQ.2.2
      rw [hfl] at this
      simp at this
      omega
    | cons e rest =>
      rw [get_result h p slot e rest hc1 hfl]
      exact fun c => MIX_RESULT.noConfusion c

/-- C25: when `mix_surfacepool_deinitialize` returns `MIX_RESULT_SUCCESS` on a
pool whose `initialized` flag is set, the flag is still set afterwards, and a
following `mix_surfacepool_check_available` returns `MIX_RESULT_POOLEMPTY`,
not `MIX_RESULT_NOT_INIT`. -/
theorem deinitialize_keeps_initialized (fuel : Nat) (h : Heap) (o : PoolPtr) (h1 : Heap)
    (hi : (h.pools o).initialized = true)
    (hd : mix_surfacepool_deinitialize fuel h (some o) = some (.SUCCESS, h1)) :
    (h1.pools o).initialized = true ∧
    (h1.pools o).free_list_cur_size = 0 ∧
    (mix_surfacepool_check_available h1 (some o)).1 = .POOLEMPTY ∧
    (mix_surfacepool_check_available h1 (some o)).1 ≠ .NOT_INIT := by
  have hg : ¬ ((h.pools o).in_use_list ≠ [] ∨
      (h.pools o).free_list.length ≠ (h.pools o).free_list_max_size) := by
    intro hg
    rw [deinitialize_guard fuel h o hg] at hd
    simp at hd
  rw [deinitialize_of_loop fuel h o hg] at hd
  cases hl : deinitialize_loop fuel o h with
  | none => rw [hl] at hd; simp at hd
  | some h2 =>
    rw [hl] at hd
    simp only [Option.map_some', Option.some.injEq, Prod.mk.injEq, true_and] at hd
    obtain ⟨h3, _, e3⟩ := deinitialize_loop_unrefs o fuel h h2 hl
    subst e3
    subst hd
    have h4 : ∀ r, r = .POOLEMPTY → r ≠ MIX_RESULT.NOT_INIT := by
      intro r hr; rw [hr]; exact fun c => MIX_RESULT.noConfusion c
    refine ⟨?_, ?_, ?_, h4 _ ?_⟩ <;> simp [mix_surfacepool_check_available, hi]

theorem deinitialize_keeps_initialized_witness :
    (four_heap.pools 0).initialized = true ∧
    mix_surfacepool_deinitialize 6 four_heap (some 0)
      = some (.SUCCESS, heap_of ( mix_surfacepool_deinitialize 6 four_heap (some 0))) ∧
    ((heap_of ( mix_surfacepool_deinitialize 6 four_heap (some 0))).pools 0).initialized
      = true ∧
    (mix_surfacepool_check_available
      (heap_of ( mix_surfacepool_deinitialize 6 four_heap (some 0))) (some 0)).1
        = .POOLEMPTY :=
  have k := deinitialize_keeps_initialized 6 four_heap 0
    (heap_of ( mix_surfacepool_deinitialize 6 four_heap (some 0))) (by decide) rfl
  ⟨by decide, rfl, k.1, k.2.2.1⟩

/-! ## When the forwarding returns -/

theorem get_sync_flag_returns_chain (h : Heap) (slot : Bool) :
    ∀ (fuel : Nat) (b : FramePtr) (r : MIX_RESULT × Option Bool),
      mix_videoframe_get_sync_flag fuel h (some b) (some slot) = some r →
      ∃ rest, chain_from h b rest ∧ rest.length < fuel := by
  intro fuel
  induction fuel with
  | zero => intro b r hr; simp [mix_videoframe_get_sync_flag] at hr
  | succ n ih =>
    intro b r hr
    cases hreal : (h.frames b).real_frame with
    | none => exact ⟨[], Or.inl hreal, Nat.succ_pos _⟩
    | some real =>
      by_cases hne : real = b
      · exact ⟨[], Or.inr (by rw [hreal, hne]), Nat.succ_pos _⟩
      · rw [mix_videoframe_get_sync_flag] at hr
        simp only [hreal, ne_eq, hne, not_false_eq_true, if_true] at hr
        obtain ⟨rest, hc, hl⟩ := ih real r hr
        exact ⟨real :: rest, ⟨hreal, hne, hc⟩, Nat.succ_lt_succ hl⟩

theorem get_vadisplay_returns_chain (h : Heap) (slot : Nat) :
    ∀ (fuel : Nat) (b : FramePtr) (r : MIX_RESULT × Option Nat),
      mix_videoframe_get_vadisplay fuel h (some b) (some slot) = some r →
      ∃ rest, chain_from h b rest ∧ rest.length < fuel := by
  intro fuel
  induction fuel with
  | zero => intro b r hr; simp [mix_videoframe_get_vadisplay] at hr
  | succ n ih =>
    intro b r hr
    cases hreal : (h.frames b).real_frame with
    | none => exact ⟨[], Or.inl hreal, Nat.succ_pos _⟩
    | some real =>
      by_cases hne : real = b
      · exact ⟨[], Or.inr (by rw [hreal, hne]), Nat.succ_pos _⟩
      · rw [mix_videoframe_get_vadisplay] at hr
        simp only [hreal, ne_eq, hne, not_false_eq_true, if_true] at hr
        obtain ⟨rest, hc, hl⟩ := ih real r hr
        exact ⟨real :: rest, ⟨hreal, hne, hc⟩, Nat.succ_lt_succ hl⟩

theorem set_sync_flag_returns_chain (v : Bool) :
    ∀ (fuel : Nat) (h : Heap) (b : FramePtr) (r : MIX_RESULT × Heap),
      mix_videoframe_set_sync_flag fuel h (some b) v = some r →
      ∃ rest, chain_from h b rest ∧ rest.length < fuel := by
  intro fuel
  induction fuel with
  | zero => intro h b r hr; simp [mix_videoframe_set_sync_flag] at hr
  | succ n ih =>
    intro h b r hr
    cases hreal : (h.frames b).real_frame with
    | none => exact ⟨[], Or.inl hreal, Nat.succ_pos _⟩
    | some real =>
      by_cases hne : real = b
      · exact ⟨[], Or.inr (by rw [hreal, hne]), Nat.succ_pos _⟩
      · rw [mix_videoframe_set_sync_flag] at hr
        simp only [setFrame_frames, if_true, hreal, ne_eq, hne, not_false_eq_true] at hr
        split at hr
        · cases hr
        · rename_i heq
          obtain ⟨rest, hc, hl⟩ := ih _ real _ heq
          refine ⟨real :: rest, ⟨hreal, hne, chain_from_congr _ h ?_ rest real hc⟩,
            Nat.succ_lt_succ hl⟩
          intro x
          by_cases hx : x = b
          · subst hx; simp [hreal]
          · simp [hx]

theorem set_vadisplay_returns_chain (v : Nat) :
    ∀ (fuel : Nat) (h : Heap) (b : FramePtr) (r : MIX_RESULT × Heap),
      mix_videoframe_set_vadisplay fuel h (some b) v = some r →
      ∃ rest, chain_from h b rest ∧ rest.length < fuel := by
  intro fuel
  induction fuel with
  | zero => intro h b r hr; simp [mix_videoframe_set_vadisplay] at hr
  | succ n ih =>
    intro h b r hr
    cases hreal : (h.frames b).real_frame with
    | none => exact ⟨[], Or.inl hreal, Nat.succ_pos _⟩
    | some real =>
      by_cases hne : real = b
      · exact ⟨[], Or.inr (by rw [hreal, hne]), Nat.succ_pos _⟩
      · rw [mix_videoframe_set_vadisplay] at hr
        simp only [setFrame_frames, if_true, hreal, ne_eq, hne, not_false_eq_true] at hr
        split at hr
        · cases hr
        · rename_i heq
          obtain ⟨rest, hc, hl⟩ := ih _ real _ heq
          refine ⟨real :: rest, ⟨hreal, hne, chain_from_congr _ h ?_ rest real hc⟩,
            Nat.succ_lt_succ hl⟩
          intro x
          by_cases hx : x = b
          · subst hx; simp [hreal]
          · simp [hx]

theorem no_chain_on_two_cycle (h : Heap) (a b : FramePtr) (hab : a ≠ b)
    (ha : (h.frames a).real_frame = some b) (hb : (h.frames b).real_frame = some a) :
    ∀ rest : List FramePtr, ¬ chain_from h a rest ∧ ¬ chain_from h b rest := by
  intro rest
  induction rest with
  | nil =>
    constructor
    · intro hc
      rcases hc with hc | hc
      · rw [ha] at hc; cases hc
      · rw [ha] at hc; exact hab (Option.some.inj hc).symm
    · intro hc
      rcases hc with hc | hc
      · rw [hb] at hc; cases hc
      · rw [hb] at hc; exact hab (Option.some.inj hc)
  | cons c rest ih =>
    constructor
    · intro hc
      have hcb : b = c := Option.some.inj (ha.symm.trans hc.1)
      subst hcb
      exact ih.2 hc.2.2
    · intro hc
      have hca : a = c := Option.some.inj (hb.symm.trans hc.1)
      subst hca
      exact ih.1 hc.2.2

/-- C26, counterexample: `mix_videoframe_set_real_frame` and
`mix_videoframe_set_is_skipped` store what they are given on every frame, with
no check.  In `cycle_heap`, built with these two setters, frame 1 stands for
frame 2 and frame 2 for frame 1: no finite chain of links starts at frame 1,
and none of the four accessors returns on it, whatever the fuel. -/
theorem forwarding_never_returns_on_two_cycle :
    (∀ (h : Heap) (o : FramePtr) (real : Option FramePtr),
      (mix_videoframe_set_real_frame h (some o) real).1 = .SUCCESS ∧
      (((mix_videoframe_set_real_frame h (some o) real).2).frames o).real_frame = real) ∧
    (∀ (h : Heap) (o : FramePtr) (s : Bool),
      (mix_videoframe_set_is_skipped h (some o) s).1 = .SUCCESS ∧
      (((mix_videoframe_set_is_skipped h (some o) s).2).frames o).is_skipped = s) ∧
    (cycle_heap.frames 1).is_skipped = true ∧ (cycle_heap.frames 1).real_frame = some 2 ∧
    (cycle_heap.frames 2).is_skipped = true ∧ (cycle_heap.frames 2).real_frame = some 1 ∧
    (¬ ∃ rest, chain_from cycle_heap 1 rest) ∧
    (∀ fuel, mix_videoframe_get_sync_flag fuel cycle_heap (some 1) (some false) = none) ∧
    (∀ fuel, mix_videoframe_set_sync_flag fuel cycle_heap (some 1) true = none) ∧
    (∀ fuel, mix_videoframe_get_vadisplay fuel cycle_heap (some 1) (some 0) = none) ∧
    (∀ fuel, mix_videoframe_set_vadisplay fuel cycle_heap (some 1) 9 = none) := by
  have hno : ¬ ∃ rest, chain_from cycle_heap 1 rest := fun ⟨rest, hc⟩ =>
    (no_chain_on_two_cycle cycle_heap 1 2 (by decide) (by decide) (by decide) rest).1 hc
  refine ⟨?_, ?_, by decide, by decide, by decide, by decide, hno, ?_, ?_, ?_, ?_⟩
  · intro h o real; simp [mix_videoframe_set_real_frame]
  · intro h o s; simp [mix_videoframe_set_is_skipped]
  · intro fuel
    cases hr : mix_videoframe_get_sync_flag fuel cycle_heap (some 1) (some false) with
    | none => rfl
    | some r =>
      obtain ⟨rest, hc, _⟩ := get_sync_flag_returns_chain cycle_heap false fuel 1 r hr
      exact absurd ⟨rest, hc⟩ hno
  · intro fuel
    cases hr : mix_videoframe_set_sync_flag fuel cycle_heap (some 1) true with
    | none => rfl
    | some r =>
      obtain ⟨rest, hc, _⟩ := set_sync_flag_returns_chain true fuel cycle_heap 1 r hr
      exact absurd ⟨rest, hc⟩ hno
  · intro fuel
    cases hr : mix_videoframe_get_vadisplay fuel cycle_heap (some 1) (some 0) with
    | none => rfl
    | some r =>
      obtain ⟨rest, hc, _⟩ := get_vadisplay_returns_chain cycle_heap 0 fuel 1 r hr
      exact absurd ⟨rest, hc⟩ hno
  · intro fuel
    cases hr : mix_videoframe_set_vadisplay fuel cycle_heap (some 1) 9 with
    | none => rfl
    | some r =>
      obtain ⟨rest, hc, _⟩ := set_vadisplay_returns_chain 9 fuel cycle_heap 1 r hr
      exact absurd ⟨rest, hc⟩ hno

/-- C26, amended: each of the four accessors returns on a frame `b` (for some
fuel) exactly when the links `real_frame` followed from `b`, each one not
`NULL` and not the frame itself, reach after finitely many frames a frame with
no such link; and then it returns `MIX_RESULT_SUCCESS`. -/
theorem forwarding_returns_iff_finite_chain (h : Heap) (b : FramePtr) (slot v : Bool)
    (dslot d : Nat) :
    ((∃ fuel r, mix_videoframe_get_sync_flag fuel h (some b) (some slot) = some r) ↔
      ∃ rest, chain_from h b rest) ∧
    ((∃ fuel r, mix_videoframe_set_sync_flag fuel h (some b) v = some r) ↔
      ∃ rest, chain_from h b rest) ∧
    ((∃ fuel r, mix_videoframe_get_vadisplay fuel h (some b) (some dslot) = some r) ↔
      ∃ rest, chain_from h b rest) ∧
    ((∃ fuel r, mix_videoframe_set_vadisplay fuel h (some b) d = some r) ↔
      ∃ rest, chain_from h b rest) ∧
    (∀ fuel r, mix_videoframe_get_sync_flag fuel h (some b) (some slot) = some r →
      r.1 = .SUCCESS) ∧
    (∀ fuel r, mix_videoframe_set_sync_flag fuel h (some b) v = some r → r.1 = .SUCCESS) ∧
    (∀ fuel r, mix_videoframe_get_vadisplay fuel h (some b) (some dslot) = some r →
      r.1 = .SUCCESS) ∧
    (∀ fuel r, mix_videoframe_set_vadisplay fuel h (some b) d = some r → r.1 = .SUCCESS) := by
  refine ⟨⟨?_, ?_⟩, ⟨?_, ?_⟩, ⟨?_, ?_⟩, ⟨?_, ?_⟩, ?_, ?_, ?_, ?_⟩
  · rintro ⟨fuel, r, hr⟩
    obtain ⟨rest, hc, _⟩ := get_sync_flag_returns_chain h slot fuel b r hr
    exact ⟨rest, hc⟩
  · rintro ⟨rest, hc⟩
    exact ⟨rest.length + 1, _, get_sync_flag_chain h slot rest b _ hc (Nat.lt_succ_self _)⟩
  · rintro ⟨fuel, r, hr⟩
    obtain ⟨rest, hc, _⟩ := set_sync_flag_returns_chain v fuel h b r hr
    exact ⟨rest, hc⟩
  · rintro ⟨rest, hc⟩
    obtain ⟨h1, e, _⟩ := set_sync_flag_chain v rest b _ h hc (Nat.lt_succ_self _)
    exact ⟨rest.length + 1, _, e⟩
  · rintro ⟨fuel, r, hr⟩
    obtain ⟨rest, hc, _⟩ := get_vadisplay_returns_chain h dslot fuel b r hr
    exact ⟨rest, hc⟩
  · rintro ⟨rest, hc⟩
    exact ⟨rest.length + 1, _, get_vadisplay_chain h dslot rest b _ hc (Nat.lt_succ_self _)⟩
  · rintro ⟨fuel, r, hr⟩
    obtain ⟨rest, hc, _⟩ := set_vadisplay_returns_chain d fuel h b r hr
    exact ⟨rest, hc⟩
  · rintro ⟨rest, hc⟩
    obtain ⟨h1, e, _⟩ := set_vadisplay_chain d rest b _ h hc (Nat.lt_succ_self _)
    exact ⟨rest.length + 1, _, e⟩
  · intro fuel r hr
    obtain ⟨rest, hc, hl⟩ := get_sync_flag_returns_chain h slot fuel b r hr
    rw [get_sync_flag_chain h slot rest b fuel hc hl] at hr
    cases hr; rfl
  · intro fuel r hr
    obtain ⟨rest, hc, hl⟩ := set_sync_flag_returns_chain v fuel h b r hr
    obtain ⟨h1, e, _⟩ := set_sync_flag_chain v rest b fuel h hc hl
    rw [e] at hr
    cases hr; rfl
  · intro fuel r hr
    obtain ⟨rest, hc, hl⟩ := get_vadisplay_returns_chain h dslot fuel b r hr
    rw [get_vadisplay_chain h dslot rest b fuel hc hl] at hr
    cases hr; rfl
  · intro fuel r hr
    obtain ⟨rest, hc, hl⟩ := set_vadisplay_returns_chain d fuel h b r hr
    obtain ⟨h1, e, _⟩ := set_vadisplay_chain d rest b fuel h hc hl
    rw [e] at hr
    cases hr; rfl

theorem forwarding_returns_iff_finite_chain_witness :
    chain_from chain_heap 2 [3] ∧
    (∃ fuel r, mix_videoframe_get_sync_flag fuel chain_heap (some 2) (some false) = some r) ∧
    (∃ fuel r, mix_videoframe_set_sync_flag fuel chain_heap (some 2) false = some r) ∧
    (∃ fuel r, mix_videoframe_get_vadisplay fuel chain_heap (some 2) (some 0) = some r) ∧
    (∃ fuel r, mix_videoframe_set_vadisplay fuel chain_heap (some 2) 5 = some r) :=
  have hc : chain_from chain_heap 2 [3] := ⟨by decide, by decide, Or.inl (by decide)⟩
  have k := forwarding_returns_iff_finite_chain chain_heap 2 false false 0 5
  ⟨hc, k.1.mpr ⟨[3], hc⟩, k.2.1.mpr ⟨[3], hc⟩, k.2.2.1.mpr ⟨[3], hc⟩, k.2.2.2.1.mpr ⟨[3], hc⟩⟩

/-! ## Which locks a call takes, and in which order -/

